import Mathlib

/-!
# HoudiniHDKTools: the PolyClip and Flatten operators

A shallow embedding of `src/SOP/SOP_PolyClip.C` (`SOP_PolyClipVerb::cook`) and of
`src/SOP/SOP_Flatten.C` (`SOP_Flatten::cookMySop`).

* In the first model `fpreal` and the components of `UT_Vector3` are rational
  numbers: the statements about it are statements of exact arithmetic.
* The namespace `IEEE` holds the same operators with `float` components and
  `double` scalars: a value is a rational number, an infinity or a NaN, and every
  operation rounds to nearest, ties to even, in the format of its type.
* `GA_Offset` handles are natural numbers; `GA_INVALID_OFFSET` is `none`.
* The detail (`GU_Detail`) is modelled by three offset-indexed tables: point
  positions, the vertex-to-point wiring and the primitives.  A free offset holds
  `none`.  New elements are appended at the end of their table.
* Only the position attribute `P` of points is modelled; primitive and vertex
  attribute values are not part of the model.
-/

namespace HDK_Sample

/-! ## Vectors -/

/-- Three rational components, standing for `UT_Vector3` in exact arithmetic;
`IEEE.UT_Vector3` holds `float` components. -/
structure UT_Vector3 where
  x : ℚ
  y : ℚ
  z : ℚ
deriving DecidableEq, Repr

namespace UT_Vector3

instance : Add UT_Vector3 := ⟨fun a b => ⟨a.x + b.x, a.y + b.y, a.z + b.z⟩⟩
instance : Sub UT_Vector3 := ⟨fun a b => ⟨a.x - b.x, a.y - b.y, a.z - b.z⟩⟩
instance : Neg UT_Vector3 := ⟨fun a => ⟨-a.x, -a.y, -a.z⟩⟩
instance : HMul UT_Vector3 ℚ UT_Vector3 := ⟨fun a s => ⟨a.x * s, a.y * s, a.z * s⟩⟩
instance : Inhabited UT_Vector3 := ⟨⟨0, 0, 0⟩⟩

end UT_Vector3

/-- The inner product `dot(a, b)`. -/
def dot (a b : UT_Vector3) : ℚ := a.x * b.x + a.y * b.y + a.z * b.z

/-- `SYSclamp(v, lo, hi)` of `SYS_Math.h`: `v < lo ? lo : (v > hi ? hi : v)`. -/
def SYSclamp (v lo hi : ℚ) : ℚ := if v < lo then lo else if v > hi then hi else v

/-- Linear interpolation of a position, as `lerpAttributeValues` does for `P`, in
exact arithmetic: `p0 + (p1 - p0) * t`. -/
def lerp (p0 p1 : UT_Vector3) (t : ℚ) : UT_Vector3 := p0 + (p1 - p0) * t

/-! ## The detail -/

/-- The primitive type id of polygons. -/
def GA_PRIMPOLY : Nat := 1

/-- A primitive: its type id, its closed flag and its ordered vertex offsets. -/
structure GA_Primitive where
  typeId : Nat
  closed : Bool
  vertices : List Nat
deriving DecidableEq, Repr

/-- The geometry detail: offset-indexed tables of point positions, of the point
each vertex is wired to, and of primitives. -/
structure GU_Detail where
  points : List (Option UT_Vector3)
  vertices : List (Option Nat)
  primitives : List (Option GA_Primitive)
deriving DecidableEq, Repr

namespace GU_Detail

/-- Position of a point, `gdp->getPos3(pt)`. -/
def getPos3 (gdp : GU_Detail) (pt : Nat) : UT_Vector3 :=
  (gdp.points.getD pt none).getD default

/-- The point a vertex is wired to, `gdp->vertexPoint(vtx)`. -/
def vertexPoint (gdp : GU_Detail) (vtx : Nat) : Nat :=
  (gdp.vertices.getD vtx none).getD 0

/-- Vertex list of a primitive (empty for a free offset). -/
def primVertices (gdp : GU_Detail) (pr : Nat) : List Nat :=
  match gdp.primitives.getD pr none with
  | some p => p.vertices
  | none => []

/-- Type id of a primitive, `gdp->getPrimitiveTypeId(pr)`. -/
def getPrimitiveTypeId (gdp : GU_Detail) (pr : Nat) : Nat :=
  match gdp.primitives.getD pr none with
  | some p => p.typeId
  | none => 0

/-- Closed flag of a primitive, `gdp->getPrimitiveClosedFlag(pr)`. -/
def getPrimitiveClosedFlag (gdp : GU_Detail) (pr : Nat) : Bool :=
  match gdp.primitives.getD pr none with
  | some p => p.closed
  | none => false

/-- Number of vertices of a primitive, `gdp->getPrimitiveVertexCount(pr)`. -/
def getPrimitiveVertexCount (gdp : GU_Detail) (pr : Nat) : Nat :=
  (gdp.primVertices pr).length

/-- The `i`-th vertex of a primitive, `gdp->getPrimitiveVertexOffset(pr, i)`. -/
def getPrimitiveVertexOffset (gdp : GU_Detail) (pr i : Nat) : Nat :=
  (gdp.primVertices pr).getD i 0

/-- The offsets `gdp->getPrimitiveRange(group)` iterates, in offset order: every
primitive when there is no group, the members of the group otherwise. -/
def getPrimitiveRange (gdp : GU_Detail) (group : Option (List Nat)) : List Nat :=
  (List.range gdp.primitives.length).filter fun pr =>
    (gdp.primitives.getD pr none).isSome &&
      (match group with
       | none => true
       | some g => g.contains pr)

/-- Appends a point with the given position, `gdp->appendPoint()` followed by
the interpolation of `P`; the new offset is the old size of the table. -/
def appendPoint (gdp : GU_Detail) (pos : UT_Vector3) : GU_Detail :=
  { gdp with points := gdp.points ++ [some pos] }

/-- Rewires a vertex, `topo.wireVertexPoint(vtx, pt)`. -/
def wireVertexPoint (gdp : GU_Detail) (vtx pt : Nat) : GU_Detail :=
  { gdp with vertices := gdp.vertices.set vtx (some pt) }

/-- Appends one closed polygon with `nvtx` fresh, unwired vertices:
`gdp->appendPrimitivesAndVertices(GA_PRIMPOLY, 1, nvtx, start_vtx, true)`.
The new primitive offset is the old size of the primitive table and
`start_vtx` is the old size of the vertex table. -/
def appendPrimitivesAndVertices (gdp : GU_Detail) (nvtx : Nat) : GU_Detail :=
  { gdp with
    vertices := gdp.vertices ++ List.replicate nvtx none
    primitives := gdp.primitives ++
      [some ⟨GA_PRIMPOLY, true, (List.range nvtx).map (gdp.vertices.length + ·)⟩] }

/-- Vertices owned by the primitives of `rm`. -/
def deadVertices (gdp : GU_Detail) (rm : List Nat) : List Nat :=
  rm.flatMap gdp.primVertices

/-- The vertex table once the vertices of the primitives of `rm` are freed. -/
def verticesAfterDestroy (gdp : GU_Detail) (rm : List Nat) : List (Option Nat) :=
  gdp.vertices.enum.map fun iv => if iv.1 ∈ gdp.deadVertices rm then none else iv.2

/-- The points the primitives of `rm` reference. -/
def deadPointCandidates (gdp : GU_Detail) (rm : List Nat) : List Nat :=
  (gdp.deadVertices rm).filterMap fun v => gdp.vertices.getD v none

/-- Destroys the primitives of `rm`, their vertices, and every point they used
that no remaining vertex references:
`gdp->destroyPrimitiveOffsets(range, true)`. -/
def destroyPrimitiveOffsets (gdp : GU_Detail) (rm : List Nat) : GU_Detail :=
  let vertices' := gdp.verticesAfterDestroy rm
  { points := gdp.points.enum.map fun ip =>
      if ip.1 ∈ gdp.deadPointCandidates rm ∧ some ip.1 ∉ vertices' then none else ip.2
    vertices := vertices'
    primitives := gdp.primitives.enum.map fun ip => if ip.1 ∈ rm then none else ip.2 }

end GU_Detail

/-! ## The clip plane -/

/-- The test of the lambda `isClipped` of `cook`, on a position: the position is
on the negative side of the plane. -/
def isClippedPos (org nml pos : UT_Vector3) : Bool :=
  decide (dot nml (pos - org) < 0)

/-- The lambda `isClipped` of `cook`: the point is clipped by the plane. -/
def isClipped (gdp : GU_Detail) (org nml : UT_Vector3) (pt : Nat) : Bool :=
  isClippedPos org nml (gdp.getPos3 pt)

/-- The body of the lambda `clippedDist` of `cook`, on two positions, in exact
arithmetic; `IEEE.clippedDistPos` is the same in the arithmetic of the program. -/
def clippedDistPos (org nml pos0 pos1 : UT_Vector3) : ℚ :=
  let denom := dot nml (pos1 - pos0)
  if denom = 0 then 0
  else SYSclamp (dot nml (org - pos0) / denom) 0 1

/-- The lambda `clippedDist` of `cook`: clip distance along the edge from `pt0`. -/
def clippedDist (gdp : GU_Detail) (org nml : UT_Vector3) (pt0 pt1 : Nat) : ℚ :=
  clippedDistPos org nml (gdp.getPos3 pt0) (gdp.getPos3 pt1)

/-! ## The classification scan -/

/-- The counter `clipped` of the scan: how many vertices of `pr` are wired to a
clipped point. -/
def countClipped (gdp : GU_Detail) (org nml : UT_Vector3) (pr : Nat) : Nat :=
  (List.range (gdp.getPrimitiveVertexCount pr)).countP fun i =>
    isClipped gdp org nml (gdp.vertexPoint (gdp.getPrimitiveVertexOffset pr i))

/-- The two groups the scan fills. -/
structure ScanResult where
  rm_polys : List Nat
  clipped_polys : List Nat
deriving DecidableEq, Repr

/-- One iteration of the scan loop over the candidate primitives. -/
def scanStep (gdp : GU_Detail) (org nml : UT_Vector3) (acc : ScanResult) (pr : Nat) :
    ScanResult :=
  if gdp.getPrimitiveTypeId pr ≠ GA_PRIMPOLY ∨ gdp.getPrimitiveClosedFlag pr = false then
    acc
  else
    let clipped := countClipped gdp org nml pr
    let nvtx := gdp.getPrimitiveVertexCount pr
    if clipped ≠ 0 then
      { rm_polys := acc.rm_polys ++ [pr]
        clipped_polys :=
          if clipped ≠ nvtx then acc.clipped_polys ++ [pr] else acc.clipped_polys }
    else acc

/-- The classification scan of `cook` over `gdp->getPrimitiveRange(group)`. -/
def scan (gdp : GU_Detail) (org nml : UT_Vector3) (group : Option (List Nat)) : ScanResult :=
  (gdp.getPrimitiveRange group).foldl (scanStep gdp org nml) ⟨[], []⟩

/-! ## The polygon walk -/

/-- The four arrays the walk fills for one polygon. -/
structure WalkState where
  vert0s : List Nat
  vert1s : List (Option Nat)
  dists : List ℚ
  poly_start_pos : List Nat
deriving DecidableEq, Repr

/-- One iteration `i0` of the walk over the vertices of `pr`. -/
def walkStep (gdp : GU_Detail) (org nml : UT_Vector3) (pr nvtx : Nat) (s : WalkState)
    (i0 : Nat) : WalkState :=
  let vtx0 := gdp.getPrimitiveVertexOffset pr i0
  let pt0 := gdp.vertexPoint vtx0
  let clipped0 := isClipped gdp org nml pt0
  let s1 : WalkState :=
    if clipped0 = false then
      { s with vert0s := s.vert0s ++ [vtx0], vert1s := s.vert1s ++ [none],
               dists := s.dists ++ [0] }
    else s
  let i1 := (i0 + 1) % nvtx
  let vtx1 := gdp.getPrimitiveVertexOffset pr i1
  let pt1 := gdp.vertexPoint vtx1
  let clipped1 := isClipped gdp org nml pt1
  if clipped0 ≠ clipped1 then
    let s2 : WalkState :=
      if clipped0 = true then
        { s1 with poly_start_pos := s1.poly_start_pos ++ [s1.vert0s.length] }
      else s1
    if pt1 < pt0 then
      { s2 with vert0s := s2.vert0s ++ [vtx1], vert1s := s2.vert1s ++ [some vtx0],
                dists := s2.dists ++ [clippedDist gdp org nml pt1 pt0] }
    else
      { s2 with vert0s := s2.vert0s ++ [vtx0], vert1s := s2.vert1s ++ [some vtx1],
                dists := s2.dists ++ [clippedDist gdp org nml pt0 pt1] }
  else s1

/-- The walk over all vertices of `pr`, from cleared arrays. -/
def walk (gdp : GU_Detail) (org nml : UT_Vector3) (pr : Nat) : WalkState :=
  let nvtx := gdp.getPrimitiveVertexCount pr
  (List.range nvtx).foldl (walkStep gdp org nml pr nvtx) ⟨[], [], [], []⟩

/-! ## Rebuilding the clipped polygons -/

/-- The mutable state of the reconstruction loop: the detail and the map `cuts`
from a pair of point offsets to the point created for that edge. -/
structure RebuildState where
  gdp : GU_Detail
  cuts : List ((Nat × Nat) × Nat)
deriving DecidableEq, Repr

/-- Sets vertex `v` of the new polygon whose vertices start at `start_vtx`. -/
def setVertex (w : WalkState) (start num_verts start_vtx : Nat) (st : RebuildState)
    (v : Nat) : RebuildState :=
  let vtx := start_vtx + v
  let idx := (start + v) % num_verts
  let vtx0 := w.vert0s.getD idx 0
  let pt0 := st.gdp.vertexPoint vtx0
  match w.vert1s.getD idx none with
  | none =>
    { st with gdp := st.gdp.wireVertexPoint vtx (st.gdp.vertexPoint vtx0) }
  | some vtx1 =>
    let dist := w.dists.getD idx 0
    let pt1 := st.gdp.vertexPoint vtx1
    let key := (pt0, pt1)
    match st.cuts.lookup key with
    | some p =>
      { st with gdp := st.gdp.wireVertexPoint vtx p }
    | none =>
      let pt := st.gdp.points.length
      let g := st.gdp.appendPoint (lerp (st.gdp.getPos3 pt0) (st.gdp.getPos3 pt1) dist)
      { gdp := g.wireVertexPoint vtx pt, cuts := st.cuts ++ [(key, pt)] }

/-- The vertex count of the `i`-th new polygon. -/
def newPolyVertexCount (w : WalkState) (i : Nat) : Nat :=
  let num_verts : Int := w.vert0s.length
  let num_new_polys := w.poly_start_pos.length
  let start : Int := w.poly_start_pos.getD i 0
  let stop : Int := w.poly_start_pos.getD ((i + 1) % num_new_polys) 0
  let nvtx := stop - start
  (if nvtx ≤ 0 then nvtx + num_verts else nvtx).toNat

/-- Creates the `i`-th new polygon of the walked polygon and sets its vertices. -/
def createPoly (w : WalkState) (st : RebuildState) (i : Nat) : RebuildState :=
  let num_verts := w.vert0s.length
  let start := w.poly_start_pos.getD i 0
  let nvtx := newPolyVertexCount w i
  let start_vtx := st.gdp.vertices.length
  let st1 : RebuildState := { st with gdp := st.gdp.appendPrimitivesAndVertices nvtx }
  (List.range nvtx).foldl (setVertex w start num_verts start_vtx) st1

/-- One iteration of the reconstruction loop: walk `pr`, then create its
clipped polygons. -/
def rebuildPoly (org nml : UT_Vector3) (st : RebuildState) (pr : Nat) : RebuildState :=
  let w := walk st.gdp org nml pr
  (List.range w.poly_start_pos.length).foldl (createPoly w) st

/-- The reconstruction loop over `clipped_polys`. -/
def rebuild (gdp : GU_Detail) (org nml : UT_Vector3) (clipped_polys : List Nat) :
    RebuildState :=
  clipped_polys.foldl (rebuildPoly org nml) ⟨gdp, []⟩

/-- The group the cook works on: `parsePrimitiveGroups` is called only when the
group parameter is a non-empty string; the parser is the host's and is taken
as a parameter. -/
def cookGroup (parsePrimitiveGroups : String → GU_Detail → Option (List Nat))
    (groupParm : String) (gdp : GU_Detail) : Option (List Nat) :=
  if groupParm ≠ "" then parsePrimitiveGroups groupParm gdp else none

/-- The body of `SOP_PolyClipVerb::cook` once the group is known. -/
def cookWithGroup (gdp : GU_Detail) (org nml : UT_Vector3) (group : Option (List Nat)) :
    GU_Detail :=
  let s := scan gdp org nml group
  let st := rebuild gdp org nml s.clipped_polys
  st.gdp.destroyPrimitiveOffsets s.rm_polys

/-- `SOP_PolyClipVerb::cook`. -/
def cook (parsePrimitiveGroups : String → GU_Detail → Option (List Nat))
    (groupParm : String) (org nml : UT_Vector3) (gdp : GU_Detail) : GU_Detail :=
  cookWithGroup gdp org nml (cookGroup parsePrimitiveGroups groupParm gdp)

/-! ## The unit square -/

/-- The unit square of the scenario: four points, four vertices, one closed polygon. -/
def unitSquare : GU_Detail where
  points := [some ⟨0, 0, 0⟩, some ⟨1, 0, 0⟩, some ⟨1, 1, 0⟩, some ⟨0, 1, 0⟩]
  vertices := [some 0, some 1, some 2, some 3]
  primitives := [some ⟨GA_PRIMPOLY, true, [0, 1, 2, 3]⟩]

/-! ## Notions used by the statements -/

/-- The test the scan applies to a candidate before counting: a closed polygon. -/
def isClosedPoly (gdp : GU_Detail) (pr : Nat) : Bool :=
  decide (gdp.getPrimitiveTypeId pr = GA_PRIMPOLY) && gdp.getPrimitiveClosedFlag pr

/-- The point the `i`-th vertex of `pr` is wired to. -/
def primPoint (gdp : GU_Detail) (pr i : Nat) : Nat :=
  gdp.vertexPoint (gdp.getPrimitiveVertexOffset pr i)

/-- The edge from vertex `i` of `pr` to the next vertex (cyclically) is crossed:
its end points are classified differently. -/
def isCrossed (gdp : GU_Detail) (org nml : UT_Vector3) (pr i : Nat) : Bool :=
  isClipped gdp org nml (primPoint gdp pr i) !=
    isClipped gdp org nml (primPoint gdp pr ((i + 1) % gdp.getPrimitiveVertexCount pr))

/-- The unordered pair of two point offsets, lower offset first. -/
def edgeKey (a b : Nat) : Nat × Nat := (min a b, max a b)

/-- The unordered point pairs of the crossed edges of `pr`, one per crossed edge. -/
def crossedEdges (gdp : GU_Detail) (org nml : UT_Vector3) (pr : Nat) : List (Nat × Nat) :=
  ((List.range (gdp.getPrimitiveVertexCount pr)).filter (isCrossed gdp org nml pr)).map
    fun i => edgeKey (primPoint gdp pr i)
      (primPoint gdp pr ((i + 1) % gdp.getPrimitiveVertexCount pr))

/-- Every vertex offset owned by a primitive, in primitive order. -/
def GU_Detail.allPrimVertices (gdp : GU_Detail) : List Nat :=
  (List.range gdp.primitives.length).flatMap gdp.primVertices

/-- Well-formed detail: every vertex of a primitive is wired to a point offset of
the point table, and no vertex offset is owned twice. -/
def GU_Detail.wellFormed (gdp : GU_Detail) : Bool :=
  gdp.allPrimVertices.all (fun v =>
    match gdp.vertices.getD v none with
    | some pt => decide (pt < gdp.points.length)
    | none => false) &&
  decide gdp.allPrimVertices.Nodup

/-- The entries iteration `i0` of the walk appends to the three parallel arrays:
the kept vertex, if any, then the cut, if any. -/
def stepEntries (gdp : GU_Detail) (org nml : UT_Vector3) (pr nvtx i0 : Nat) :
    List (Nat × Option Nat × ℚ) :=
  let vtx0 := gdp.getPrimitiveVertexOffset pr i0
  let pt0 := gdp.vertexPoint vtx0
  let vtx1 := gdp.getPrimitiveVertexOffset pr ((i0 + 1) % nvtx)
  let pt1 := gdp.vertexPoint vtx1
  (if isClipped gdp org nml pt0 = false then [(vtx0, none, 0)] else []) ++
    (if isClipped gdp org nml pt0 ≠ isClipped gdp org nml pt1 then
      [if pt1 < pt0 then (vtx1, some vtx0, clippedDist gdp org nml pt1 pt0)
       else (vtx0, some vtx1, clippedDist gdp org nml pt0 pt1)]
     else [])

/-- The entries the first `k` iterations of the walk append. -/
def walkEntries (gdp : GU_Detail) (org nml : UT_Vector3) (pr nvtx k : Nat) :
    List (Nat × Option Nat × ℚ) :=
  (List.range k).flatMap (stepEntries gdp org nml pr nvtx)

/-- Iteration `i0` goes from a clipped vertex to a vertex that is not clipped. -/
def isUpCrossing (gdp : GU_Detail) (org nml : UT_Vector3) (pr nvtx i0 : Nat) : Bool :=
  isClipped gdp org nml (primPoint gdp pr i0) &&
    !isClipped gdp org nml (primPoint gdp pr ((i0 + 1) % nvtx))

/-- The start positions the first `k` iterations of the walk record. -/
def walkStarts (gdp : GU_Detail) (org nml : UT_Vector3) (pr nvtx k : Nat) : List Nat :=
  ((List.range k).filter (isUpCrossing gdp org nml pr nvtx)).map
    fun i0 => (walkEntries gdp org nml pr nvtx i0).length

/-- The position of the point created for the cut key `k`. -/
def cutPos (gdp : GU_Detail) (org nml : UT_Vector3) (k : Nat × Nat) : UT_Vector3 :=
  lerp (gdp.getPos3 k.1) (gdp.getPos3 k.2) (clippedDist gdp org nml k.1 k.2)

/-- The tables of `st'` extend those of `st`: nothing `st` holds was changed. -/
structure StExt (st st' : RebuildState) : Prop where
  points : st.gdp.points <+: st'.gdp.points
  vertices : st.gdp.vertices <+: st'.gdp.vertices
  primitives : st.gdp.primitives <+: st'.gdp.primitives
  cuts : st.cuts <+: st'.cuts

/-- What the walk guarantees about an entry of its arrays. -/
def EntryOK (gdp : GU_Detail) (org nml : UT_Vector3) (pr : Nat)
    (e : Nat × Option Nat × ℚ) : Prop :=
  e.1 ∈ gdp.primVertices pr ∧
    match e.2.1 with
    | none => isClipped gdp org nml (gdp.vertexPoint e.1) = false
    | some v1 =>
      v1 ∈ gdp.primVertices pr ∧ gdp.vertexPoint e.1 < gdp.vertexPoint v1 ∧
        isClipped gdp org nml (gdp.vertexPoint e.1) ≠ isClipped gdp org nml (gdp.vertexPoint v1) ∧
        e.2.2 = clippedDist gdp org nml (gdp.vertexPoint e.1) (gdp.vertexPoint v1) ∧
        (gdp.vertexPoint e.1, gdp.vertexPoint v1) ∈ crossedEdges gdp org nml pr

/-- The vertex count of the `i`-th new polygon, from the start positions `S` and the
number `N` of entries. -/
def loopCount (S : List Nat) (N : Nat) (i : Nat) : Nat :=
  ((if ((S.getD ((i + 1) % S.length) 0 : Nat) : Int) - (S.getD i 0 : Nat) ≤ 0
    then ((S.getD ((i + 1) % S.length) 0 : Nat) : Int) - (S.getD i 0 : Nat) + (N : Int)
    else ((S.getD ((i + 1) % S.length) 0 : Nat) : Int) - (S.getD i 0 : Nat))).toNat

/-- What holds of the state of the reconstruction loop over a detail `gdp0`: the
tables of `gdp0` are untouched, one point was appended per entry of `cuts`, at the
position of the cut, and every vertex created since is wired to a point of `gdp0`
that is not clipped or to a point of `cuts`. -/
structure RebuildInv (gdp0 : GU_Detail) (org nml : UT_Vector3) (st : RebuildState) : Prop where
  points_ext : gdp0.points <+: st.gdp.points
  vertices_ext : gdp0.vertices <+: st.gdp.vertices
  prims_ext : gdp0.primitives <+: st.gdp.primitives
  points_length : st.gdp.points.length = gdp0.points.length + st.cuts.length
  keys_nodup : (st.cuts.map Prod.fst).Nodup
  vals_nodup : (st.cuts.map Prod.snd).Nodup
  cut_ok : ∀ kv ∈ st.cuts, gdp0.points.length ≤ kv.2 ∧
    st.gdp.points.getD kv.2 none = some (cutPos gdp0 org nml kv.1) ∧
    isClipped gdp0 org nml kv.1.1 ≠ isClipped gdp0 org nml kv.1.2
  new_wired : ∀ v p, gdp0.vertices.length ≤ v → st.gdp.vertices.getD v none = some p →
    (p < gdp0.points.length ∧ isClipped gdp0 org nml p = false) ∨ p ∈ st.cuts.map Prod.snd

/-- Every primitive created since `gdp0` is a closed polygon whose vertices were
created since `gdp0` and are wired. -/
def NewPrimsWired (gdp0 : GU_Detail) (st : RebuildState) : Prop :=
  ∀ q P, gdp0.primitives.length ≤ q → st.gdp.primitives.getD q none = some P →
    P.typeId = GA_PRIMPOLY ∧ P.closed = true ∧
      ∀ v ∈ P.vertices, gdp0.vertices.length ≤ v ∧ ∃ p, st.gdp.vertices.getD v none = some p

/-- Some vertex of a primitive with offset in `[lo, hi)` is wired to the point the
map `cuts` holds for the key `K`. -/
def CutWired (lo hi : Nat) (st : RebuildState) (K : Nat × Nat) : Prop :=
  ∃ q v p, lo ≤ q ∧ q < hi ∧ v ∈ st.gdp.primVertices q ∧
    st.gdp.vertices.getD v none = some p ∧ st.cuts.lookup K = some p

/-- The polygons of `l` are primitives of `gdp0` with a clipped and a kept vertex. -/
def PartialPolys (gdp0 : GU_Detail) (org nml : UT_Vector3) (l : List Nat) : Prop :=
  ∀ pr ∈ l, pr < gdp0.primitives.length ∧ countClipped gdp0 org nml pr ≠ 0 ∧
    countClipped gdp0 org nml pr ≠ gdp0.getPrimitiveVertexCount pr

/-! ## Example details -/

/-- A detail whose only primitive is a closed polygon without vertices. -/
def emptyPolygon : GU_Detail where
  points := []
  vertices := []
  primitives := [some ⟨GA_PRIMPOLY, true, []⟩]

/-- A closed triangle, all of whose points have a negative `x`. -/
def outsideTriangle : GU_Detail where
  points := [some ⟨-1, 0, 0⟩, some ⟨-2, 0, 0⟩, some ⟨-1, 1, 0⟩]
  vertices := [some 0, some 1, some 2]
  primitives := [some ⟨GA_PRIMPOLY, true, [0, 1, 2]⟩]

/-- A closed triangle and an open polygon that share the point `0`, which has a
negative `x`. -/
def sharedPoint : GU_Detail where
  points := [some ⟨-1, 0, 0⟩, some ⟨1, 0, 0⟩, some ⟨1, 1, 0⟩, some ⟨-1, 1, 0⟩]
  vertices := [some 0, some 1, some 2, some 0, some 3]
  primitives := [some ⟨GA_PRIMPOLY, true, [0, 1, 2]⟩, some ⟨GA_PRIMPOLY, false, [3, 4]⟩]

/-- Two closed triangles that share the edge between the points `0` and `1`,
traversed in opposite directions; only point `0` has a negative `x`. -/
def sharedEdge : GU_Detail where
  points := [some ⟨-1, 0, 0⟩, some ⟨1, 0, 0⟩, some ⟨1, 1, 0⟩, some ⟨1, -1, 0⟩]
  vertices := [some 0, some 1, some 2, some 1, some 0, some 3]
  primitives := [some ⟨GA_PRIMPOLY, true, [0, 1, 2]⟩, some ⟨GA_PRIMPOLY, true, [3, 4, 5]⟩]

/-! ## The Flatten operator -/

/-- The type qualifier of an attribute, `GA_TypeInfo`, as far as the cook tells
the values apart. -/
inductive GA_TypeInfo where
  | GA_TYPE_POINT
  | GA_TYPE_HPOINT
  | GA_TYPE_NORMAL
  | GA_TYPE_VECTOR
  | GA_TYPE_OTHER
deriving DecidableEq, Repr

/-- A point attribute: whether it transforms, its type qualifier, whether a
`GA_RWHandleV3` bound to it is valid, and its value at each point offset. -/
structure GA_Attribute where
  needsTransform : Bool
  typeInfo : GA_TypeInfo
  isV3 : Bool
  values : Nat → UT_Vector3

instance : Inhabited GA_Attribute := ⟨⟨false, GA_TypeInfo.GA_TYPE_OTHER, false, fun _ => default⟩⟩

/-- The parameters of the Flatten node; each is evaluated with the current point
set, so each is a function of the point offset. -/
structure FlattenParms where
  DIST : Nat → ℚ
  DIRPOP : Nat → Int
  ORIENT : Nat → Int
  NX : Nat → ℚ
  NY : Nat → ℚ
  NZ : Nat → ℚ

/-- What the host hands to `cookMySop` besides the parameters: whether the inputs
were locked, whether the group was cooked without error, the point group (`none`
for `NULL`), the ranges `[start, end)` the iterator yields for the point range of
the group, and the answer of each call to `progress.wasInterrupted()`. -/
structure FlattenContext where
  lockOk : Bool
  groupOk : Bool
  myGroup : Option (List Nat)
  blocks : List (Nat × Nat)
  wasInterrupted : Nat → Bool

/-- The handles `positionattribs` collects, as indices in the attribute list. -/
def positionattribs (attribs : List GA_Attribute) : List Nat :=
  (List.range attribs.length).filter fun i =>
    (attribs.getD i default).needsTransform &&
      (decide ((attribs.getD i default).typeInfo = GA_TypeInfo.GA_TYPE_POINT) ||
        decide ((attribs.getD i default).typeInfo = GA_TypeInfo.GA_TYPE_HPOINT)) &&
      (attribs.getD i default).isV3

/-- The handles `normalattribs` collects. -/
def normalattribs (attribs : List GA_Attribute) : List Nat :=
  (List.range attribs.length).filter fun i =>
    (attribs.getD i default).needsTransform &&
      decide ((attribs.getD i default).typeInfo = GA_TypeInfo.GA_TYPE_NORMAL) &&
      (attribs.getD i default).isV3

/-- The handles `vectorattribs` collects. -/
def vectorattribs (attribs : List GA_Attribute) : List Nat :=
  (List.range attribs.length).filter fun i =>
    (attribs.getD i default).needsTransform &&
      decide ((attribs.getD i default).typeInfo = GA_TypeInfo.GA_TYPE_VECTOR) &&
      (attribs.getD i default).isV3

/-- The plane normal `cookMySop` computes for a point.  `normalize` stands for
`UT_Vector3::normalize` and `uninit` for the value of the vector the `switch`
leaves unassigned when the orientation is none of `0`, `1`, `2`. -/
def planeNormal (parms : FlattenParms) (normalize : UT_Vector3 → UT_Vector3)
    (uninit : UT_Vector3) (ptoff : Nat) : UT_Vector3 :=
  if parms.DIRPOP ptoff = 0 then
    match parms.ORIENT ptoff with
    | 0 => ⟨0, 0, 1⟩
    | 1 => ⟨1, 0, 0⟩
    | 2 => ⟨0, 1, 0⟩
    | _ => uninit
  else
    normalize ⟨parms.NX ptoff, parms.NY ptoff, parms.NZ ptoff⟩

/-- Reads the value of handle `i` at `ptoff`, applies `f`, and writes it back:
`h.get(ptoff)` ... `h.set(ptoff, v)`. -/
def modifyAttr (attribs : List GA_Attribute) (i ptoff : Nat) (f : UT_Vector3 → UT_Vector3) :
    List GA_Attribute :=
  attribs.set i
    { attribs.getD i default with
      values := Function.update (attribs.getD i default).values ptoff
        (f ((attribs.getD i default).values ptoff)) }

/-- The body of the loop over the points: the three loops over the handles, in
exact arithmetic; `IEEE.flattenPoint` is the same in `float`. -/
def flattenPoint (parms : FlattenParms) (normalize : UT_Vector3 → UT_Vector3)
    (uninit : UT_Vector3) (pos nrm vec : List Nat) (attribs : List GA_Attribute)
    (ptoff : Nat) : List GA_Attribute :=
  let dist := parms.DIST ptoff
  let normal := planeNormal parms normalize uninit ptoff
  let a1 := pos.foldl (fun as i => modifyAttr as i ptoff
    fun p => p - normal * (dot normal p - dist)) attribs
  let a2 := nrm.foldl (fun as i => modifyAttr as i ptoff
    fun n => if dot normal n < 0 then -normal else normal) a1
  vec.foldl (fun as i => modifyAttr as i ptoff
    fun v => v - normal * dot normal v) a2

/-- The loop over the blocks of the point range; `k` counts the calls to
`wasInterrupted`, and an interrupt leaves the loop. -/
def flattenBlocks (step : List GA_Attribute → Nat → List GA_Attribute)
    (wasInterrupted : Nat → Bool) :
    Nat → List (Nat × Nat) → List GA_Attribute → List GA_Attribute
  | _, [], attribs => attribs
  | k, b :: bs, attribs =>
    if wasInterrupted k = true then attribs
    else flattenBlocks step wasInterrupted (k + 1) bs
      ((List.range' b.1 (b.2 - b.1)).foldl step attribs)

/-- `SOP_Flatten::cookMySop`, on the point attributes of the detail. -/
def cookMySop (parms : FlattenParms) (normalize : UT_Vector3 → UT_Vector3)
    (uninit : UT_Vector3) (ctx : FlattenContext) (attribs : List GA_Attribute) :
    List GA_Attribute :=
  if ctx.lockOk = false then attribs
  else if ctx.groupOk = true ∧ (ctx.myGroup = none ∨ ctx.myGroup ≠ some []) then
    flattenBlocks
      (flattenPoint parms normalize uninit (positionattribs attribs) (normalattribs attribs)
        (vectorattribs attribs))
      ctx.wasInterrupted 0 ctx.blocks attribs
  else attribs

/-- The point offset is in one of the blocks. -/
def inBlocks (blocks : List (Nat × Nat)) (pt : Nat) : Prop :=
  ∃ b ∈ blocks, b.1 ≤ pt ∧ pt < b.2

/-- The value of attribute `j` at point `pt`. -/
def attrVal (attribs : List GA_Attribute) (j pt : Nat) : UT_Vector3 :=
  (attribs.getD j default).values pt

/-- What one pass of the three handle loops does to a value of attribute `j`. -/
def flatT (pos nrm vec : List Nat) (normal : UT_Vector3) (dist : ℚ) (j : Nat)
    (v : UT_Vector3) : UT_Vector3 :=
  if j ∈ pos then v - normal * (dot normal v - dist)
  else if j ∈ nrm then (if dot normal v < 0 then -normal else normal)
  else if j ∈ vec then v - normal * dot normal v
  else v

/-! ## The Flatten scenario -/

/-- Point attributes of the scenario: a position `P`, a normal `N` and a vector `v`. -/
def xyAttribs : List GA_Attribute :=
  [⟨true, GA_TypeInfo.GA_TYPE_POINT, true, fun _ => ⟨3, 4, 5⟩⟩,
   ⟨true, GA_TypeInfo.GA_TYPE_NORMAL, true, fun _ => ⟨1, 0, -1⟩⟩,
   ⟨true, GA_TypeInfo.GA_TYPE_VECTOR, true, fun _ => ⟨6, 7, 8⟩⟩]

/-- Parameters of the scenario: direction toggle off, XY plane, distance `2`. -/
def xyParms : FlattenParms where
  DIST := fun _ => 2
  DIRPOP := fun _ => 0
  ORIENT := fun _ => 0
  NX := fun _ => 0
  NY := fun _ => 0
  NZ := fun _ => 1

/-- A cook without error and without interrupt over the points `0 .. 3`. -/
def xyContext : FlattenContext where
  lockOk := true
  groupOk := true
  myGroup := none
  blocks := [(0, 4)]
  wasInterrupted := fun _ => false

/-! ## The loops of the walk -/

/-- The kind of an entry of the walk: a kept vertex, the cut of an edge that goes from
a clipped vertex to a kept one (`up`), or the cut of an edge that goes from a kept
vertex to a clipped one (`down`). -/
inductive EntryKind where
  | kept
  | up
  | down
deriving DecidableEq, Repr

/-- The kinds of the entries iteration `i` of the walk appends, each with the
iteration, for the classification `c` of the `n` vertices. -/
def stepKinds (c : Nat → Bool) (n i : Nat) : List (EntryKind × Nat) :=
  (if c i = false then [(EntryKind.kept, i)] else []) ++
    (if c i ≠ c ((i + 1) % n) then
      [(if c i = true then EntryKind.up else EntryKind.down, i)]
     else [])

/-- The kinds of the entries the first `k` iterations append. -/
def walkKinds (c : Nat → Bool) (n k : Nat) : List (EntryKind × Nat) :=
  (List.range k).flatMap (stepKinds c n)

/-- What may follow an entry in the cyclic list of entries: after an `up` cut the
next vertex, kept; after a kept vertex the next vertex, kept, or the `down` cut of
its edge; after a `down` cut an `up` cut. -/
def KindSucc (n : Nat) (a b : EntryKind × Nat) : Prop :=
  match a.1 with
  | EntryKind.up => b = (EntryKind.kept, (a.2 + 1) % n)
  | EntryKind.kept => b = (EntryKind.kept, (a.2 + 1) % n) ∨ b = (EntryKind.down, a.2)
  | EntryKind.down => b.1 = EntryKind.up

/-- The classification of the vertices of a polygon: vertex `i` is wired to a clipped
point. -/
def clippedAt (gdp : GU_Detail) (org nml : UT_Vector3) (pr : Nat) : Nat → Bool :=
  fun i => isClipped gdp org nml (primPoint gdp pr i)

/-- What the arrays tell of an entry: the vertex of a kept entry, nothing of a cut. -/
def entryTag (e : Nat × Option Nat × ℚ) : Option Nat :=
  match e.2.1 with
  | none => some e.1
  | some _ => none

/-- What the kind tells of an entry: the vertex of the iteration of a kept entry. -/
def kindTag (gdp : GU_Detail) (pr : Nat) (a : EntryKind × Nat) : Option Nat :=
  if a.1 = EntryKind.kept then some (gdp.getPrimitiveVertexOffset pr a.2) else none

/-- The primitive at offset `q` of the state `st` is the `i`-th new polygon of the
walk `w` of a polygon of `gdp0`: a closed polygon of as many vertices as the loop
has entries, all created since `gdp0` and pairwise distinct, the vertex of a kept
entry being wired to the point the vertex of the entry is wired to in `gdp0`. -/
def LoopPoly (gdp0 : GU_Detail) (w : WalkState) (i q : Nat) (st : RebuildState) : Prop :=
  ∃ vs, st.gdp.primitives.getD q none = some ⟨GA_PRIMPOLY, true, vs⟩ ∧
    vs.length = newPolyVertexCount w i ∧ vs.Nodup ∧
    ∀ v < newPolyVertexCount w i, gdp0.vertices.length ≤ vs.getD v 0 ∧
      ∃ p, st.gdp.vertices.getD (vs.getD v 0) none = some p ∧
      (w.vert1s.getD ((w.poly_start_pos.getD i 0 + v) % w.vert0s.length) none = none →
        p = gdp0.vertexPoint
          (w.vert0s.getD ((w.poly_start_pos.getD i 0 + v) % w.vert0s.length) 0))

/-- Every primitive created since `gdp0` has at least three vertices. -/
def NewPrimsBig (gdp0 : GU_Detail) (st : RebuildState) : Prop :=
  ∀ q P, gdp0.primitives.length ≤ q → st.gdp.primitives.getD q none = some P →
    3 ≤ P.vertices.length

/-- The index of the entry read for vertex `v` of the `i`-th new polygon,
`(start + v) % num_verts`. -/
def loopEntry (w : WalkState) (i v : Nat) : Nat :=
  (w.poly_start_pos.getD i 0 + v) % w.vert0s.length

/-! ## Binary floating-point arithmetic -/

/-- A value of an IEEE 754 binary format: a finite number, an infinity
(`negative = true` for `-∞`) or a NaN.  The two zeros are one value: the code
modelled here compares with zero and never divides by it. -/
inductive FloatValue where
  | finite (q : ℚ)
  | infinite (negative : Bool)
  | nan
deriving DecidableEq, Repr

/-- The power `2 ^ k` of an integer exponent. -/
def pow2 (k : Int) : ℚ :=
  if 0 ≤ k then ((2 ^ k.toNat : Nat) : ℚ) else 1 / ((2 ^ (-k).toNat : Nat) : ℚ)

/-- The number of halvings that bring `n` below `2`, at most `fuel` of them. -/
def log2Fuel : Nat → Nat → Nat
  | 0, _ => 0
  | fuel + 1, n => if n < 2 then 0 else log2Fuel fuel (n / 2) + 1

/-- The exponent `e` with `2 ^ e ≤ a < 2 ^ (e + 1)`, for a positive `a`. -/
def ilog2 (a : ℚ) : Int :=
  let k : Int := (log2Fuel a.num.toNat a.num.toNat : Int) - (log2Fuel a.den a.den : Int)
  if pow2 k ≤ a then k else k - 1

/-- Rounds a non-negative number to the nearest integer, a tie to the even one. -/
def roundHalfEven (n : ℚ) : Nat :=
  let f := n.num.toNat / n.den
  if 2 * (n - f) < 1 then f
  else if 1 < 2 * (n - f) then f + 1
  else if f % 2 = 0 then f else f + 1

/-- Rounds a rational number to the format of precision `p` bits with exponents from
`emin` to `emax`, to nearest, ties to even; what exceeds the largest finite number
after rounding becomes an infinity, what lies below the smallest normal number is
rounded to a multiple of the smallest subnormal number. -/
def roundTo (p : Nat) (emin emax : Int) (q : ℚ) : FloatValue :=
  if q = 0 then FloatValue.finite 0
  else
    let e := max (ilog2 |q|) emin
    let ulp := pow2 (e - ((p : Int) - 1))
    let m := (roundHalfEven (|q| / ulp) : ℚ) * ulp
    if pow2 (emax + 1) ≤ m then FloatValue.infinite (decide (q < 0))
    else FloatValue.finite (if q < 0 then -m else m)

/-- Rounding to binary32 (`float`, `fpreal32`). -/
def round32 (q : ℚ) : FloatValue := roundTo 24 (-126) 127 q

/-- Rounding to binary64 (`double`, `fpreal`). -/
def round64 (q : ℚ) : FloatValue := roundTo 53 (-1022) 1023 q

namespace FloatValue

/-- Negation. -/
def neg : FloatValue → FloatValue
  | finite q => finite (-q)
  | infinite s => infinite (!s)
  | nan => nan

/-- Addition, rounded by `rnd`. -/
def add (rnd : ℚ → FloatValue) : FloatValue → FloatValue → FloatValue
  | finite a, finite b => rnd (a + b)
  | finite _, infinite s => infinite s
  | infinite s, finite _ => infinite s
  | infinite s, infinite t => if s = t then infinite s else nan
  | _, _ => nan

/-- Multiplication, rounded by `rnd`. -/
def mul (rnd : ℚ → FloatValue) : FloatValue → FloatValue → FloatValue
  | finite a, finite b => rnd (a * b)
  | finite a, infinite s => if a = 0 then nan else infinite (s != decide (a < 0))
  | infinite s, finite b => if b = 0 then nan else infinite (s != decide (b < 0))
  | infinite s, infinite t => infinite (s != t)
  | _, _ => nan

/-- Division, rounded by `rnd`.  A finite number divided by zero gives the infinity
of the sign of the dividend, the sign of the zero being unknown to the model. -/
def div (rnd : ℚ → FloatValue) : FloatValue → FloatValue → FloatValue
  | finite a, finite b =>
    if b = 0 then (if a = 0 then nan else infinite (decide (a < 0))) else rnd (a / b)
  | finite _, infinite _ => finite 0
  | infinite s, finite b => infinite (s != decide (b < 0))
  | _, _ => nan

/-- The comparison `a < b`; false when either is a NaN. -/
def lt : FloatValue → FloatValue → Bool
  | finite a, finite b => decide (a < b)
  | finite _, infinite s => !s
  | infinite s, finite _ => s
  | infinite s, infinite t => s && !t
  | _, _ => false

/-- The comparison `a <= b`; false when either is a NaN. -/
def le : FloatValue → FloatValue → Bool
  | finite a, finite b => decide (a ≤ b)
  | finite _, infinite s => !s
  | infinite s, finite _ => s
  | infinite s, infinite t => s || !t
  | _, _ => false

/-- The test `!a` of C: the value compares equal to zero. -/
def isZero : FloatValue → Bool
  | finite a => decide (a = 0)
  | _ => false

end FloatValue

/-- A `float` (`fpreal32`) value; every operation rounds to binary32. -/
structure fpreal32 where
  val : FloatValue
deriving DecidableEq, Repr

/-- A `double` (`fpreal`, `fpreal64`) value; every operation rounds to binary64. -/
structure fpreal64 where
  val : FloatValue
deriving DecidableEq, Repr

namespace fpreal32

instance : Add fpreal32 := ⟨fun a b => ⟨FloatValue.add round32 a.val b.val⟩⟩
instance : Sub fpreal32 := ⟨fun a b => ⟨FloatValue.add round32 a.val b.val.neg⟩⟩
instance : Mul fpreal32 := ⟨fun a b => ⟨FloatValue.mul round32 a.val b.val⟩⟩
instance : Neg fpreal32 := ⟨fun a => ⟨a.val.neg⟩⟩
instance : LT fpreal32 := ⟨fun a b => FloatValue.lt a.val b.val = true⟩
instance (a b : fpreal32) : Decidable (a < b) :=
  inferInstanceAs (Decidable (FloatValue.lt a.val b.val = true))
instance (n : Nat) : OfNat fpreal32 n := ⟨⟨round32 n⟩⟩
instance : Inhabited fpreal32 := ⟨0⟩

/-- The value of a decimal constant, as a `float`. -/
def ofRat (q : ℚ) : fpreal32 := ⟨round32 q⟩

/-- The conversion of a `float` to `double`, which is exact. -/
def toDouble (a : fpreal32) : fpreal64 := ⟨a.val⟩

end fpreal32

namespace fpreal64

instance : Add fpreal64 := ⟨fun a b => ⟨FloatValue.add round64 a.val b.val⟩⟩
instance : Sub fpreal64 := ⟨fun a b => ⟨FloatValue.add round64 a.val b.val.neg⟩⟩
instance : Mul fpreal64 := ⟨fun a b => ⟨FloatValue.mul round64 a.val b.val⟩⟩
instance : Div fpreal64 := ⟨fun a b => ⟨FloatValue.div round64 a.val b.val⟩⟩
instance : LT fpreal64 := ⟨fun a b => FloatValue.lt a.val b.val = true⟩
instance (a b : fpreal64) : Decidable (a < b) :=
  inferInstanceAs (Decidable (FloatValue.lt a.val b.val = true))
instance : LE fpreal64 := ⟨fun a b => FloatValue.le a.val b.val = true⟩
instance (a b : fpreal64) : Decidable (a ≤ b) :=
  inferInstanceAs (Decidable (FloatValue.le a.val b.val = true))
instance (n : Nat) : OfNat fpreal64 n := ⟨⟨round64 n⟩⟩

/-- The conversion of a `double` to `float`: the value is rounded to binary32. -/
def toFloat (a : fpreal64) : fpreal32 :=
  match a.val with
  | FloatValue.finite q => ⟨round32 q⟩
  | v => ⟨v⟩

end fpreal64

/-! ## The operators in binary32 arithmetic

The definitions of this section are those of the sections above with `UT_Vector3`
holding `float` components, as in the program; what does not touch a position is
taken over as it is. -/

namespace IEEE

/-- Three `float` components, `UT_Vector3`. -/
structure UT_Vector3 where
  x : fpreal32
  y : fpreal32
  z : fpreal32
deriving DecidableEq, Repr

namespace UT_Vector3

instance : Add UT_Vector3 := ⟨fun a b => ⟨a.x + b.x, a.y + b.y, a.z + b.z⟩⟩
instance : Sub UT_Vector3 := ⟨fun a b => ⟨a.x - b.x, a.y - b.y, a.z - b.z⟩⟩
instance : Neg UT_Vector3 := ⟨fun a => ⟨-a.x, -a.y, -a.z⟩⟩
instance : HMul UT_Vector3 fpreal32 UT_Vector3 := ⟨fun a s => ⟨a.x * s, a.y * s, a.z * s⟩⟩
instance : Inhabited UT_Vector3 := ⟨⟨0, 0, 0⟩⟩

end UT_Vector3

/-- The inner product `dot(a, b)`, of type `float`. -/
def dot (a b : UT_Vector3) : fpreal32 := a.x * b.x + a.y * b.y + a.z * b.z

/-- `SYSclamp(v, lo, hi)` of `SYS_Math.h`, here on `fpreal`:
`v < lo ? lo : (v > hi ? hi : v)`. -/
def SYSclamp (v lo hi : fpreal64) : fpreal64 :=
  if v < lo then lo else if hi < v then hi else v

/-- Linear interpolation of a position, as `lerpAttributeValues` does for `P`, in
`float`: `p0 + (p1 - p0) * t`. -/
def lerp (p0 p1 : UT_Vector3) (t : fpreal32) : UT_Vector3 := p0 + (p1 - p0) * t

/-! ### The detail -/

/-- The geometry detail: offset-indexed tables of point positions, of the point
each vertex is wired to, and of primitives. -/
structure GU_Detail where
  points : List (Option UT_Vector3)
  vertices : List (Option Nat)
  primitives : List (Option GA_Primitive)
deriving DecidableEq, Repr

namespace GU_Detail

/-- Position of a point, `gdp->getPos3(pt)`. -/
def getPos3 (gdp : GU_Detail) (pt : Nat) : UT_Vector3 :=
  (gdp.points.getD pt none).getD default

/-- The point a vertex is wired to, `gdp->vertexPoint(vtx)`. -/
def vertexPoint (gdp : GU_Detail) (vtx : Nat) : Nat :=
  (gdp.vertices.getD vtx none).getD 0

/-- Vertex list of a primitive (empty for a free offset). -/
def primVertices (gdp : GU_Detail) (pr : Nat) : List Nat :=
  match gdp.primitives.getD pr none with
  | some p => p.vertices
  | none => []

/-- Type id of a primitive, `gdp->getPrimitiveTypeId(pr)`. -/
def getPrimitiveTypeId (gdp : GU_Detail) (pr : Nat) : Nat :=
  match gdp.primitives.getD pr none with
  | some p => p.typeId
  | none => 0

/-- Closed flag of a primitive, `gdp->getPrimitiveClosedFlag(pr)`. -/
def getPrimitiveClosedFlag (gdp : GU_Detail) (pr : Nat) : Bool :=
  match gdp.primitives.getD pr none with
  | some p => p.closed
  | none => false

/-- Number of vertices of a primitive, `gdp->getPrimitiveVertexCount(pr)`. -/
def getPrimitiveVertexCount (gdp : GU_Detail) (pr : Nat) : Nat :=
  (gdp.primVertices pr).length

/-- The `i`-th vertex of a primitive, `gdp->getPrimitiveVertexOffset(pr, i)`. -/
def getPrimitiveVertexOffset (gdp : GU_Detail) (pr i : Nat) : Nat :=
  (gdp.primVertices pr).getD i 0

/-- The offsets `gdp->getPrimitiveRange(group)` iterates, in offset order: every
primitive when there is no group, the members of the group otherwise. -/
def getPrimitiveRange (gdp : GU_Detail) (group : Option (List Nat)) : List Nat :=
  (List.range gdp.primitives.length).filter fun pr =>
    (gdp.primitives.getD pr none).isSome &&
      (match group with
       | none => true
       | some g => g.contains pr)

/-- Appends a point with the given position, `gdp->appendPoint()` followed by
the interpolation of `P`; the new offset is the old size of the table. -/
def appendPoint (gdp : GU_Detail) (pos : UT_Vector3) : GU_Detail :=
  { gdp with points := gdp.points ++ [some pos] }

/-- Rewires a vertex, `topo.wireVertexPoint(vtx, pt)`. -/
def wireVertexPoint (gdp : GU_Detail) (vtx pt : Nat) : GU_Detail :=
  { gdp with vertices := gdp.vertices.set vtx (some pt) }

/-- Appends one closed polygon with `nvtx` fresh, unwired vertices:
`gdp->appendPrimitivesAndVertices(GA_PRIMPOLY, 1, nvtx, start_vtx, true)`.
The new primitive offset is the old size of the primitive table and
`start_vtx` is the old size of the vertex table. -/
def appendPrimitivesAndVertices (gdp : GU_Detail) (nvtx : Nat) : GU_Detail :=
  { gdp with
    vertices := gdp.vertices ++ List.replicate nvtx none
    primitives := gdp.primitives ++
      [some ⟨GA_PRIMPOLY, true, (List.range nvtx).map (gdp.vertices.length + ·)⟩] }

/-- Vertices owned by the primitives of `rm`. -/
def deadVertices (gdp : GU_Detail) (rm : List Nat) : List Nat :=
  rm.flatMap gdp.primVertices

/-- The vertex table once the vertices of the primitives of `rm` are freed. -/
def verticesAfterDestroy (gdp : GU_Detail) (rm : List Nat) : List (Option Nat) :=
  gdp.vertices.enum.map fun iv => if iv.1 ∈ gdp.deadVertices rm then none else iv.2

/-- The points the primitives of `rm` reference. -/
def deadPointCandidates (gdp : GU_Detail) (rm : List Nat) : List Nat :=
  (gdp.deadVertices rm).filterMap fun v => gdp.vertices.getD v none

/-- Destroys the primitives of `rm`, their vertices, and every point they used
that no remaining vertex references:
`gdp->destroyPrimitiveOffsets(range, true)`. -/
def destroyPrimitiveOffsets (gdp : GU_Detail) (rm : List Nat) : GU_Detail :=
  let vertices' := gdp.verticesAfterDestroy rm
  { points := gdp.points.enum.map fun ip =>
      if ip.1 ∈ gdp.deadPointCandidates rm ∧ some ip.1 ∉ vertices' then none else ip.2
    vertices := vertices'
    primitives := gdp.primitives.enum.map fun ip => if ip.1 ∈ rm then none else ip.2 }

end GU_Detail

/-! ### The clip -/

/-- The test of the lambda `isClipped` of `cook`, on a position: the position is
on the negative side of the plane. -/
def isClippedPos (org nml pos : UT_Vector3) : Bool :=
  decide (dot nml (pos - org) < 0)

/-- The lambda `isClipped` of `cook`: the point is clipped by the plane. -/
def isClipped (gdp : GU_Detail) (org nml : UT_Vector3) (pt : Nat) : Bool :=
  isClippedPos org nml (gdp.getPos3 pt)

/-- The body of the lambda `clippedDist` of `cook`, on two positions: the inner
products are `float`, `denom` and the quotient are `fpreal`. -/
def clippedDistPos (org nml pos0 pos1 : UT_Vector3) : fpreal64 :=
  let denom : fpreal64 := (dot nml (pos1 - pos0)).toDouble
  if denom.val.isZero = true then 0
  else SYSclamp ((dot nml (org - pos0)).toDouble / denom) 0 1

/-- The lambda `clippedDist` of `cook`: clip distance along the edge from `pt0`. -/
def clippedDist (gdp : GU_Detail) (org nml : UT_Vector3) (pt0 pt1 : Nat) : fpreal64 :=
  clippedDistPos org nml (gdp.getPos3 pt0) (gdp.getPos3 pt1)

/-- The counter `clipped` of the scan: how many vertices of `pr` are wired to a
clipped point. -/
def countClipped (gdp : GU_Detail) (org nml : UT_Vector3) (pr : Nat) : Nat :=
  (List.range (gdp.getPrimitiveVertexCount pr)).countP fun i =>
    isClipped gdp org nml (gdp.vertexPoint (gdp.getPrimitiveVertexOffset pr i))

/-- One iteration of the scan loop over the candidate primitives. -/
def scanStep (gdp : GU_Detail) (org nml : UT_Vector3) (acc : ScanResult) (pr : Nat) :
    ScanResult :=
  if gdp.getPrimitiveTypeId pr ≠ GA_PRIMPOLY ∨ gdp.getPrimitiveClosedFlag pr = false then
    acc
  else
    let clipped := countClipped gdp org nml pr
    let nvtx := gdp.getPrimitiveVertexCount pr
    if clipped ≠ 0 then
      { rm_polys := acc.rm_polys ++ [pr]
        clipped_polys :=
          if clipped ≠ nvtx then acc.clipped_polys ++ [pr] else acc.clipped_polys }
    else acc

/-- The classification scan of `cook` over `gdp->getPrimitiveRange(group)`. -/
def scan (gdp : GU_Detail) (org nml : UT_Vector3) (group : Option (List Nat)) : ScanResult :=
  (gdp.getPrimitiveRange group).foldl (scanStep gdp org nml) ⟨[], []⟩

/-- The four arrays the walk fills for one polygon; `dists` is a `UT_FloatArray`, an
array of `float`. -/
structure WalkState where
  vert0s : List Nat
  vert1s : List (Option Nat)
  dists : List fpreal32
  poly_start_pos : List Nat
deriving DecidableEq, Repr

/-- One iteration `i0` of the walk over the vertices of `pr`. -/
def walkStep (gdp : GU_Detail) (org nml : UT_Vector3) (pr nvtx : Nat) (s : WalkState)
    (i0 : Nat) : WalkState :=
  let vtx0 := gdp.getPrimitiveVertexOffset pr i0
  let pt0 := gdp.vertexPoint vtx0
  let clipped0 := isClipped gdp org nml pt0
  let s1 : WalkState :=
    if clipped0 = false then
      { s with vert0s := s.vert0s ++ [vtx0], vert1s := s.vert1s ++ [none],
               dists := s.dists ++ [0] }
    else s
  let i1 := (i0 + 1) % nvtx
  let vtx1 := gdp.getPrimitiveVertexOffset pr i1
  let pt1 := gdp.vertexPoint vtx1
  let clipped1 := isClipped gdp org nml pt1
  if clipped0 ≠ clipped1 then
    let s2 : WalkState :=
      if clipped0 = true then
        { s1 with poly_start_pos := s1.poly_start_pos ++ [s1.vert0s.length] }
      else s1
    if pt1 < pt0 then
      { s2 with vert0s := s2.vert0s ++ [vtx1], vert1s := s2.vert1s ++ [some vtx0],
                dists := s2.dists ++ [(clippedDist gdp org nml pt1 pt0).toFloat] }
    else
      { s2 with vert0s := s2.vert0s ++ [vtx0], vert1s := s2.vert1s ++ [some vtx1],
                dists := s2.dists ++ [(clippedDist gdp org nml pt0 pt1).toFloat] }
  else s1

/-- The walk over all vertices of `pr`, from cleared arrays. -/
def walk (gdp : GU_Detail) (org nml : UT_Vector3) (pr : Nat) : WalkState :=
  let nvtx := gdp.getPrimitiveVertexCount pr
  (List.range nvtx).foldl (walkStep gdp org nml pr nvtx) ⟨[], [], [], []⟩

/-- The mutable state of the reconstruction loop: the detail and the map `cuts`
from a pair of point offsets to the point created for that edge. -/
structure RebuildState where
  gdp : GU_Detail
  cuts : List ((Nat × Nat) × Nat)
deriving DecidableEq, Repr

/-- Sets vertex `v` of the new polygon whose vertices start at `start_vtx`; the
fraction read from `dists` is a `float`, and `lerpAttributeValues` is `lerp`. -/
def setVertex (w : WalkState) (start num_verts start_vtx : Nat) (st : RebuildState)
    (v : Nat) : RebuildState :=
  let vtx := start_vtx + v
  let idx := (start + v) % num_verts
  let vtx0 := w.vert0s.getD idx 0
  let pt0 := st.gdp.vertexPoint vtx0
  match w.vert1s.getD idx none with
  | none =>
    { st with gdp := st.gdp.wireVertexPoint vtx (st.gdp.vertexPoint vtx0) }
  | some vtx1 =>
    let dist := w.dists.getD idx 0
    let pt1 := st.gdp.vertexPoint vtx1
    let key := (pt0, pt1)
    match st.cuts.lookup key with
    | some p =>
      { st with gdp := st.gdp.wireVertexPoint vtx p }
    | none =>
      let pt := st.gdp.points.length
      let g := st.gdp.appendPoint (lerp (st.gdp.getPos3 pt0) (st.gdp.getPos3 pt1) dist)
      { gdp := g.wireVertexPoint vtx pt, cuts := st.cuts ++ [(key, pt)] }

/-- The vertex count of the `i`-th new polygon. -/
def newPolyVertexCount (w : WalkState) (i : Nat) : Nat :=
  let num_verts : Int := w.vert0s.length
  let num_new_polys := w.poly_start_pos.length
  let start : Int := w.poly_start_pos.getD i 0
  let stop : Int := w.poly_start_pos.getD ((i + 1) % num_new_polys) 0
  let nvtx := stop - start
  (if nvtx ≤ 0 then nvtx + num_verts else nvtx).toNat

/-- Creates the `i`-th new polygon of the walked polygon and sets its vertices. -/
def createPoly (w : WalkState) (st : RebuildState) (i : Nat) : RebuildState :=
  let num_verts := w.vert0s.length
  let start := w.poly_start_pos.getD i 0
  let nvtx := newPolyVertexCount w i
  let start_vtx := st.gdp.vertices.length
  let st1 : RebuildState := { st with gdp := st.gdp.appendPrimitivesAndVertices nvtx }
  (List.range nvtx).foldl (setVertex w start num_verts start_vtx) st1

/-- One iteration of the reconstruction loop: walk `pr`, then create its
clipped polygons. -/
def rebuildPoly (org nml : UT_Vector3) (st : RebuildState) (pr : Nat) : RebuildState :=
  let w := walk st.gdp org nml pr
  (List.range w.poly_start_pos.length).foldl (createPoly w) st

/-- The reconstruction loop over `clipped_polys`. -/
def rebuild (gdp : GU_Detail) (org nml : UT_Vector3) (clipped_polys : List Nat) :
    RebuildState :=
  clipped_polys.foldl (rebuildPoly org nml) ⟨gdp, []⟩

/-- The body of `SOP_PolyClipVerb::cook` once the group is known. -/
def cookWithGroup (gdp : GU_Detail) (org nml : UT_Vector3) (group : Option (List Nat)) :
    GU_Detail :=
  let s := scan gdp org nml group
  let st := rebuild gdp org nml s.clipped_polys
  st.gdp.destroyPrimitiveOffsets s.rm_polys

/-! ### The Flatten operator -/

/-- A point attribute: whether it transforms, its type qualifier, whether a
`GA_RWHandleV3` bound to it is valid, and its value at each point offset. -/
structure GA_Attribute where
  needsTransform : Bool
  typeInfo : GA_TypeInfo
  isV3 : Bool
  values : Nat → UT_Vector3

instance : Inhabited GA_Attribute := ⟨⟨false, GA_TypeInfo.GA_TYPE_OTHER, false, fun _ => default⟩⟩

/-- The parameters of the Flatten node; each is evaluated with the current point
set, so each is a function of the point offset; the values are `fpreal`. -/
structure FlattenParms where
  DIST : Nat → fpreal64
  DIRPOP : Nat → Int
  ORIENT : Nat → Int
  NX : Nat → fpreal64
  NY : Nat → fpreal64
  NZ : Nat → fpreal64

/-- The handles `positionattribs` collects, as indices in the attribute list. -/
def positionattribs (attribs : List GA_Attribute) : List Nat :=
  (List.range attribs.length).filter fun i =>
    (attribs.getD i default).needsTransform &&
      (decide ((attribs.getD i default).typeInfo = GA_TypeInfo.GA_TYPE_POINT) ||
        decide ((attribs.getD i default).typeInfo = GA_TypeInfo.GA_TYPE_HPOINT)) &&
      (attribs.getD i default).isV3

/-- The handles `normalattribs` collects. -/
def normalattribs (attribs : List GA_Attribute) : List Nat :=
  (List.range attribs.length).filter fun i =>
    (attribs.getD i default).needsTransform &&
      decide ((attribs.getD i default).typeInfo = GA_TypeInfo.GA_TYPE_NORMAL) &&
      (attribs.getD i default).isV3

/-- The handles `vectorattribs` collects. -/
def vectorattribs (attribs : List GA_Attribute) : List Nat :=
  (List.range attribs.length).filter fun i =>
    (attribs.getD i default).needsTransform &&
      decide ((attribs.getD i default).typeInfo = GA_TypeInfo.GA_TYPE_VECTOR) &&
      (attribs.getD i default).isV3

/-- The plane normal `cookMySop` computes for a point.  `normalize` stands for
`UT_Vector3::normalize` and `uninit` for the value of the vector the `switch`
leaves unassigned when the orientation is none of `0`, `1`, `2`. -/
def planeNormal (parms : FlattenParms) (normalize : UT_Vector3 → UT_Vector3)
    (uninit : UT_Vector3) (ptoff : Nat) : UT_Vector3 :=
  if parms.DIRPOP ptoff = 0 then
    match parms.ORIENT ptoff with
    | 0 => ⟨0, 0, 1⟩
    | 1 => ⟨1, 0, 0⟩
    | 2 => ⟨0, 1, 0⟩
    | _ => uninit
  else
    normalize ⟨(parms.NX ptoff).toFloat, (parms.NY ptoff).toFloat, (parms.NZ ptoff).toFloat⟩

/-- Reads the value of handle `i` at `ptoff`, applies `f`, and writes it back:
`h.get(ptoff)` ... `h.set(ptoff, v)`. -/
def modifyAttr (attribs : List GA_Attribute) (i ptoff : Nat) (f : UT_Vector3 → UT_Vector3) :
    List GA_Attribute :=
  attribs.set i
    { attribs.getD i default with
      values := Function.update (attribs.getD i default).values ptoff
        (f ((attribs.getD i default).values ptoff)) }

/-- The body of the loop over the points: the three loops over the handles, after
`float dist = DIST(now)`. -/
def flattenPoint (parms : FlattenParms) (normalize : UT_Vector3 → UT_Vector3)
    (uninit : UT_Vector3) (pos nrm vec : List Nat) (attribs : List GA_Attribute)
    (ptoff : Nat) : List GA_Attribute :=
  let dist : fpreal32 := (parms.DIST ptoff).toFloat
  let normal := planeNormal parms normalize uninit ptoff
  let a1 := pos.foldl (fun as i => modifyAttr as i ptoff
    fun p => p - normal * (dot normal p - dist)) attribs
  let a2 := nrm.foldl (fun as i => modifyAttr as i ptoff
    fun n => if dot normal n < 0 then -normal else normal) a1
  vec.foldl (fun as i => modifyAttr as i ptoff
    fun v => v - normal * dot normal v) a2

/-- The loop over the blocks of the point range; `k` counts the calls to
`wasInterrupted`, and an interrupt leaves the loop. -/
def flattenBlocks (step : List GA_Attribute → Nat → List GA_Attribute)
    (wasInterrupted : Nat → Bool) :
    Nat → List (Nat × Nat) → List GA_Attribute → List GA_Attribute
  | _, [], attribs => attribs
  | k, b :: bs, attribs =>
    if wasInterrupted k = true then attribs
    else flattenBlocks step wasInterrupted (k + 1) bs
      ((List.range' b.1 (b.2 - b.1)).foldl step attribs)

/-- `SOP_Flatten::cookMySop`, on the point attributes of the detail. -/
def cookMySop (parms : FlattenParms) (normalize : UT_Vector3 → UT_Vector3)
    (uninit : UT_Vector3) (ctx : FlattenContext) (attribs : List GA_Attribute) :
    List GA_Attribute :=
  if ctx.lockOk = false then attribs
  else if ctx.groupOk = true ∧ (ctx.myGroup = none ∨ ctx.myGroup ≠ some []) then
    flattenBlocks
      (flattenPoint parms normalize uninit (positionattribs attribs) (normalattribs attribs)
        (vectorattribs attribs))
      ctx.wasInterrupted 0 ctx.blocks attribs
  else attribs

/-- The value of attribute `j` at point `pt`. -/
def attrVal (attribs : List GA_Attribute) (j pt : Nat) : UT_Vector3 :=
  (attribs.getD j default).values pt

/-! ### Examples -/

/-- A closed triangle of which the point `0` is on the negative side of the plane
`x = -0.85301816` and the other two on the positive side. -/
def crossingTriangle : GU_Detail where
  points := [some ⟨-3, 0, 0⟩, some ⟨7, 0, 0⟩, some ⟨7, 1, 0⟩]
  vertices := [some 0, some 1, some 2]
  primitives := [some ⟨GA_PRIMPOLY, true, [0, 1, 2]⟩]

/-- The origin `(-0.85301816, 0, 0)` of a clip plane. -/
def crossingOrigin : UT_Vector3 := ⟨fpreal32.ofRat (-85301816 / 100000000), 0, 0⟩

/-- The position `(2^100, 0, 0)`; it also serves as a normal. -/
def farPoint : UT_Vector3 := ⟨fpreal32.ofRat (pow2 100), 0, 0⟩

/-- A position attribute `P` with the value `(1, 2, 33554436)` at every point. -/
def farAttribs : List GA_Attribute :=
  [⟨true, GA_TypeInfo.GA_TYPE_POINT, true, fun _ => ⟨1, 2, 33554436⟩⟩]

/-- Parameters of the Flatten scenario: direction toggle off, XY plane, distance `2`. -/
def xyParms : FlattenParms where
  DIST := fun _ => 2
  DIRPOP := fun _ => 0
  ORIENT := fun _ => 0
  NX := fun _ => 0
  NY := fun _ => 0
  NZ := fun _ => 1

end IEEE

/-! # Theorems -/

/-! ## Vector algebra -/

@[simp] theorem UT_Vector3.add_x (a b : UT_Vector3) : (a + b).x = a.x + b.x := rfl
@[simp] theorem UT_Vector3.add_y (a b : UT_Vector3) : (a + b).y = a.y + b.y := rfl
@[simp] theorem UT_Vector3.add_z (a b : UT_Vector3) : (a + b).z = a.z + b.z := rfl
@[simp] theorem UT_Vector3.sub_x (a b : UT_Vector3) : (a - b).x = a.x - b.x := rfl
@[simp] theorem UT_Vector3.sub_y (a b : UT_Vector3) : (a - b).y = a.y - b.y := rfl
@[simp] theorem UT_Vector3.sub_z (a b : UT_Vector3) : (a - b).z = a.z - b.z := rfl
@[simp] theorem UT_Vector3.neg_x (a : UT_Vector3) : (-a).x = -a.x := rfl
@[simp] theorem UT_Vector3.neg_y (a : UT_Vector3) : (-a).y = -a.y := rfl
@[simp] theorem UT_Vector3.neg_z (a : UT_Vector3) : (-a).z = -a.z := rfl
@[simp] theorem UT_Vector3.smul_x (a : UT_Vector3) (s : ℚ) : (a * s).x = a.x * s := rfl
@[simp] theorem UT_Vector3.smul_y (a : UT_Vector3) (s : ℚ) : (a * s).y = a.y * s := rfl
@[simp] theorem UT_Vector3.smul_z (a : UT_Vector3) (s : ℚ) : (a * s).z = a.z * s := rfl

theorem dot_sub_right (n a b : UT_Vector3) : dot n (a - b) = dot n a - dot n b := by
  simp only [dot, UT_Vector3.sub_x, UT_Vector3.sub_y, UT_Vector3.sub_z]; ring

theorem dot_lerp (n p0 p1 : UT_Vector3) (t : ℚ) :
    dot n (lerp p0 p1 t) = dot n p0 + t * (dot n p1 - dot n p0) := by
  simp only [dot, lerp, UT_Vector3.sub_x, UT_Vector3.sub_y, UT_Vector3.sub_z,
    UT_Vector3.add_x, UT_Vector3.add_y, UT_Vector3.add_z,
    UT_Vector3.smul_x, UT_Vector3.smul_y, UT_Vector3.smul_z]
  ring

theorem isClippedPos_iff (org nml p : UT_Vector3) :
    isClippedPos org nml p = true ↔ dot nml p < dot nml org := by
  simp [isClippedPos, dot_sub_right]

theorem isClippedPos_false_iff (org nml p : UT_Vector3) :
    isClippedPos org nml p = false ↔ dot nml org ≤ dot nml p := by
  simp [isClippedPos, dot_sub_right]

theorem SYSclamp_eq_max_min (v : ℚ) : SYSclamp v 0 1 = max 0 (min v 1) := by
  unfold SYSclamp
  split_ifs with h1 h2
  · rw [max_eq_left]; exact le_trans (min_le_left _ _) h1.le
  · rw [min_eq_right h2.le, max_eq_right zero_le_one]
  · push_neg at h1 h2
    rw [min_eq_left h2, max_eq_right h1]

/-- On an edge with exactly one clipped end the denominator of `clippedDistPos`
is not zero and the fraction is the unclamped quotient. -/
theorem clippedDistPos_of_crossing (org nml p0 p1 : UT_Vector3)
    (h : isClippedPos org nml p0 ≠ isClippedPos org nml p1) :
    dot nml (p1 - p0) ≠ 0 ∧
      clippedDistPos org nml p0 p1 = dot nml (org - p0) / dot nml (p1 - p0) := by
  have key : ∀ q : ℚ, 0 ≤ q → q ≤ 1 → SYSclamp q 0 1 = q := by
    intro q h0 h1
    rw [SYSclamp_eq_max_min, min_eq_left h1, max_eq_right h0]
  cases h0 : isClippedPos org nml p0 <;> cases h1 : isClippedPos org nml p1
  · exact absurd (h0.trans h1.symm) h
  · rw [isClippedPos_false_iff] at h0
    rw [isClippedPos_iff] at h1
    have hd : dot nml (p1 - p0) < 0 := by rw [dot_sub_right]; linarith
    refine ⟨hd.ne, ?_⟩
    unfold clippedDistPos
    simp only [hd.ne, if_false]
    apply key
    · apply div_nonneg_of_nonpos _ hd.le
      rw [dot_sub_right]; linarith
    · rw [div_le_one_of_neg hd]
      rw [dot_sub_right, dot_sub_right]; linarith
  · rw [isClippedPos_iff] at h0
    rw [isClippedPos_false_iff] at h1
    have hd : 0 < dot nml (p1 - p0) := by rw [dot_sub_right]; linarith
    refine ⟨hd.ne', ?_⟩
    unfold clippedDistPos
    simp only [hd.ne', if_false]
    apply key
    · apply div_nonneg _ hd.le
      rw [dot_sub_right]; linarith
    · rw [div_le_one hd]
      rw [dot_sub_right, dot_sub_right]; linarith
  · exact absurd (h0.trans h1.symm) h

/-- The position interpolated at the fraction of a crossed edge is on the plane. -/
theorem dot_lerp_clippedDistPos (org nml p0 p1 : UT_Vector3)
    (h : isClippedPos org nml p0 ≠ isClippedPos org nml p1) :
    dot nml (lerp p0 p1 (clippedDistPos org nml p0 p1) - org) = 0 := by
  obtain ⟨hd, ht⟩ := clippedDistPos_of_crossing org nml p0 p1 h
  rw [dot_sub_right, dot_lerp, ht]
  rw [dot_sub_right] at hd ⊢
  rw [dot_sub_right]
  field_simp

/-! ## Lists -/

theorem getD_enum_map {α β : Type} (l : List α) (f : Nat × α → β) (i : Nat) (d : β) :
    (l.enum.map f).getD i d = match l[i]? with | some a => f (i, a) | none => d := by
  rw [List.getD_eq_getElem?_getD, List.getElem?_map, List.getElem?_enum]
  cases l[i]? <;> rfl

theorem getD_of_isPrefix {α : Type} {l l' : List α} (h : l <+: l') {i : Nat} (hi : i < l.length) (d : α) :
    l'.getD i d = l.getD i d := by
  obtain ⟨t, rfl⟩ := h
  rw [List.getD_eq_getElem?_getD, List.getD_eq_getElem?_getD, List.getElem?_append_left hi]

theorem prefix_set_of_le {α : Type} {l l' : List α} (h : l <+: l') {j : Nat} (hj : l.length ≤ j) (x : α) :
    l <+: l'.set j x := by
  obtain ⟨t, rfl⟩ := h
  rw [List.set_append_right _ _ hj]
  exact List.prefix_append _ _

theorem getD_set_self {α : Type} (l : List α) {j : Nat} (hj : j < l.length) (x d : α) :
    (l.set j x).getD j d = x := by
  rw [List.getD_eq_getElem?_getD, List.getElem?_set_self hj]; rfl

theorem getD_set_of_ne {α : Type} (l : List α) {i j : Nat} (hij : j ≠ i) (x d : α) :
    (l.set j x).getD i d = l.getD i d := by
  rw [List.getD_eq_getElem?_getD, List.getD_eq_getElem?_getD, List.getElem?_set_ne hij]

theorem foldl_range_induction {σ : Type} (f : σ → Nat → σ) (init : σ) (n : Nat)
    (P : Nat → σ → Prop) (h0 : P 0 init)
    (hstep : ∀ i s, i < n → P i s → P (i + 1) (f s i)) :
    P n ((List.range n).foldl f init) := by
  induction n with
  | zero => simpa using h0
  | succ n ih =>
    rw [List.range_succ, List.foldl_append]
    simp only [List.foldl_cons, List.foldl_nil]
    apply hstep _ _ (Nat.lt_succ_self n)
    apply ih
    intro i s hi hp
    exact hstep i s (Nat.lt_succ_of_lt hi) hp


/-! ## The scan -/

theorem foldl_scanStep (gdp : GU_Detail) (org nml : UT_Vector3) (l : List Nat) (acc : ScanResult) :
    l.foldl (scanStep gdp org nml) acc =
      ⟨acc.rm_polys ++ l.filter (fun pr =>
          isClosedPoly gdp pr && decide (countClipped gdp org nml pr ≠ 0)),
       acc.clipped_polys ++ l.filter (fun pr =>
          isClosedPoly gdp pr && decide (countClipped gdp org nml pr ≠ 0) &&
            decide (countClipped gdp org nml pr ≠ gdp.getPrimitiveVertexCount pr))⟩ := by
  induction l generalizing acc with
  | nil => simp
  | cons pr l ih =>
    rw [List.foldl_cons, ih]
    simp only [List.filter_cons, scanStep, isClosedPoly]
    generalize countClipped gdp org nml pr = c
    generalize gdp.getPrimitiveVertexCount pr = n
    by_cases h1 : gdp.getPrimitiveTypeId pr = GA_PRIMPOLY <;>
    cases h2 : gdp.getPrimitiveClosedFlag pr <;>
    by_cases h3 : c = 0 <;>
    by_cases h4 : c = n <;>
    first
      | (subst h4; simp [h1, h3])
      | simp [h1, h3, h4]

theorem scan_eq (gdp : GU_Detail) (org nml : UT_Vector3) (group : Option (List Nat)) :
    scan gdp org nml group =
      ⟨(gdp.getPrimitiveRange group).filter (fun pr =>
          isClosedPoly gdp pr && decide (countClipped gdp org nml pr ≠ 0)),
       (gdp.getPrimitiveRange group).filter (fun pr =>
          isClosedPoly gdp pr && decide (countClipped gdp org nml pr ≠ 0) &&
            decide (countClipped gdp org nml pr ≠ gdp.getPrimitiveVertexCount pr))⟩ := by
  unfold scan
  rw [foldl_scanStep]
  simp

theorem mem_rm_polys {gdp : GU_Detail} {org nml : UT_Vector3} {group : Option (List Nat)}
    {pr : Nat} :
    pr ∈ (scan gdp org nml group).rm_polys ↔
      pr ∈ gdp.getPrimitiveRange group ∧ isClosedPoly gdp pr = true ∧
        countClipped gdp org nml pr ≠ 0 := by
  rw [scan_eq]
  simp [List.mem_filter, and_assoc]

theorem mem_clipped_polys {gdp : GU_Detail} {org nml : UT_Vector3} {group : Option (List Nat)}
    {pr : Nat} :
    pr ∈ (scan gdp org nml group).clipped_polys ↔
      pr ∈ gdp.getPrimitiveRange group ∧ isClosedPoly gdp pr = true ∧
        countClipped gdp org nml pr ≠ 0 ∧
        countClipped gdp org nml pr ≠ gdp.getPrimitiveVertexCount pr := by
  rw [scan_eq]
  simp [List.mem_filter, and_assoc]

theorem clipped_polys_sublist (gdp : GU_Detail) (org nml : UT_Vector3) (group : Option (List Nat)) :
    ∀ pr ∈ (scan gdp org nml group).clipped_polys, pr ∈ (scan gdp org nml group).rm_polys := by
  intro pr h
  rw [mem_clipped_polys] at h
  rw [mem_rm_polys]
  exact ⟨h.1, h.2.1, h.2.2.1⟩

theorem mem_getPrimitiveRange {gdp : GU_Detail} {group : Option (List Nat)} {pr : Nat} :
    pr ∈ gdp.getPrimitiveRange group ↔
      (∃ p, gdp.primitives.getD pr none = some p) ∧ (∀ g, group = some g → pr ∈ g) := by
  unfold GU_Detail.getPrimitiveRange
  rw [List.mem_filter, List.mem_range]
  constructor
  · rintro ⟨hlt, h⟩
    rw [Bool.and_eq_true] at h
    refine ⟨Option.isSome_iff_exists.mp h.1, ?_⟩
    intro g hg
    subst hg
    simpa using h.2
  · rintro ⟨⟨p, hp⟩, hg⟩
    have hlt : pr < gdp.primitives.length := by
      by_contra hc
      rw [List.getD_eq_default _ _ (not_lt.mp hc)] at hp
      cases hp
    refine ⟨hlt, ?_⟩
    rw [Bool.and_eq_true]
    refine ⟨by rw [hp]; rfl, ?_⟩
    cases group with
    | none => rfl
    | some g => simpa using hg g rfl

theorem countClipped_eq_length_iff (gdp : GU_Detail) (org nml : UT_Vector3) (pr : Nat) :
    countClipped gdp org nml pr = gdp.getPrimitiveVertexCount pr ↔
      ∀ i < gdp.getPrimitiveVertexCount pr,
        isClipped gdp org nml (gdp.vertexPoint (gdp.getPrimitiveVertexOffset pr i)) = true := by
  unfold countClipped
  conv_lhs => rhs; rw [← List.length_range (gdp.getPrimitiveVertexCount pr)]
  rw [List.countP_eq_length]
  simp [List.mem_range]

theorem countClipped_eq_zero_iff (gdp : GU_Detail) (org nml : UT_Vector3) (pr : Nat) :
    countClipped gdp org nml pr = 0 ↔
      ∀ i < gdp.getPrimitiveVertexCount pr,
        isClipped gdp org nml (gdp.vertexPoint (gdp.getPrimitiveVertexOffset pr i)) = false := by
  unfold countClipped
  rw [List.countP_eq_zero]
  simp [List.mem_range]

theorem destroy_nil (gdp : GU_Detail) : gdp.destroyPrimitiveOffsets [] = gdp := by
  cases gdp with
  | mk pts vs prs =>
  simp [GU_Detail.destroyPrimitiveOffsets, GU_Detail.verticesAfterDestroy, GU_Detail.deadVertices, GU_Detail.deadPointCandidates]

/-! ## The walk -/

theorem walkEntries_succ (gdp : GU_Detail) (org nml : UT_Vector3) (pr nvtx k : Nat) :
    walkEntries gdp org nml pr nvtx (k + 1) =
      walkEntries gdp org nml pr nvtx k ++ stepEntries gdp org nml pr nvtx k := by
  simp [walkEntries, List.range_succ, List.flatMap_append]

theorem walkStarts_succ (gdp : GU_Detail) (org nml : UT_Vector3) (pr nvtx k : Nat) :
    walkStarts gdp org nml pr nvtx (k + 1) =
      walkStarts gdp org nml pr nvtx k ++
        (if isUpCrossing gdp org nml pr nvtx k = true
         then [(walkEntries gdp org nml pr nvtx k).length] else []) := by
  simp only [walkStarts, List.range_succ, List.filter_append, List.map_append]
  congr 1
  by_cases h : isUpCrossing gdp org nml pr nvtx k = true <;> simp [h, List.filter_cons]

/-- The state of the walk after `k` iterations. -/
theorem walk_fold_eq (gdp : GU_Detail) (org nml : UT_Vector3) (pr nvtx k : Nat) :
    (List.range k).foldl (walkStep gdp org nml pr nvtx) ⟨[], [], [], []⟩ =
      ⟨(walkEntries gdp org nml pr nvtx k).map (fun e => e.1),
       (walkEntries gdp org nml pr nvtx k).map (fun e => e.2.1),
       (walkEntries gdp org nml pr nvtx k).map (fun e => e.2.2),
       walkStarts gdp org nml pr nvtx k⟩ := by
  induction k with
  | zero => simp [walkEntries, walkStarts]
  | succ k ih =>
    rw [List.range_succ, List.foldl_append, ih, walkEntries_succ, walkStarts_succ]
    simp only [List.foldl_cons, List.foldl_nil, walkStep, stepEntries, isUpCrossing, primPoint]
    rcases Bool.eq_false_or_eq_true
        (isClipped gdp org nml (gdp.vertexPoint (gdp.getPrimitiveVertexOffset pr k))) with h0 | h0 <;>
    rcases Bool.eq_false_or_eq_true (isClipped gdp org nml
        (gdp.vertexPoint (gdp.getPrimitiveVertexOffset pr ((k + 1) % nvtx)))) with h1 | h1 <;>
    by_cases h2 : gdp.vertexPoint (gdp.getPrimitiveVertexOffset pr ((k + 1) % nvtx)) <
      gdp.vertexPoint (gdp.getPrimitiveVertexOffset pr k) <;>
    simp [h0, h1, h2]

theorem walk_eq (gdp : GU_Detail) (org nml : UT_Vector3) (pr : Nat) :
    walk gdp org nml pr =
      ⟨(walkEntries gdp org nml pr (gdp.getPrimitiveVertexCount pr)
          (gdp.getPrimitiveVertexCount pr)).map (fun e => e.1),
       (walkEntries gdp org nml pr (gdp.getPrimitiveVertexCount pr)
          (gdp.getPrimitiveVertexCount pr)).map (fun e => e.2.1),
       (walkEntries gdp org nml pr (gdp.getPrimitiveVertexCount pr)
          (gdp.getPrimitiveVertexCount pr)).map (fun e => e.2.2),
       walkStarts gdp org nml pr (gdp.getPrimitiveVertexCount pr)
          (gdp.getPrimitiveVertexCount pr)⟩ :=
  walk_fold_eq gdp org nml pr _ _

theorem getPrimitiveVertexOffset_mem (gdp : GU_Detail) (pr i : Nat)
    (hi : i < gdp.getPrimitiveVertexCount pr) :
    gdp.getPrimitiveVertexOffset pr i ∈ gdp.primVertices pr := by
  unfold GU_Detail.getPrimitiveVertexOffset
  unfold GU_Detail.getPrimitiveVertexCount at hi
  rw [List.getD_eq_getElem _ _ hi]
  exact List.getElem_mem _

theorem mem_primVertices_iff (gdp : GU_Detail) (pr v : Nat) :
    v ∈ gdp.primVertices pr ↔
      ∃ i < gdp.getPrimitiveVertexCount pr, gdp.getPrimitiveVertexOffset pr i = v := by
  constructor
  · intro h
    obtain ⟨i, hi, rfl⟩ := List.getElem_of_mem h
    refine ⟨i, hi, ?_⟩
    unfold GU_Detail.getPrimitiveVertexOffset
    rw [List.getD_eq_getElem _ _ hi]
  · rintro ⟨i, hi, rfl⟩
    exact getPrimitiveVertexOffset_mem gdp pr i hi

theorem mem_crossedEdges_of_crossed (gdp : GU_Detail) (org nml : UT_Vector3) (pr i : Nat)
    (hi : i < gdp.getPrimitiveVertexCount pr) (hc : isCrossed gdp org nml pr i = true) :
    edgeKey (primPoint gdp pr i) (primPoint gdp pr ((i + 1) % gdp.getPrimitiveVertexCount pr)) ∈
      crossedEdges gdp org nml pr := by
  unfold crossedEdges
  rw [List.mem_map]
  exact ⟨i, by rw [List.mem_filter, List.mem_range]; exact ⟨hi, hc⟩, rfl⟩

theorem isCrossed_iff (gdp : GU_Detail) (org nml : UT_Vector3) (pr i : Nat) :
    isCrossed gdp org nml pr i = true ↔
      isClipped gdp org nml (primPoint gdp pr i) ≠
        isClipped gdp org nml (primPoint gdp pr ((i + 1) % gdp.getPrimitiveVertexCount pr)) := by
  unfold isCrossed
  simp

theorem stepEntries_ok (gdp : GU_Detail) (org nml : UT_Vector3) (pr i0 : Nat)
    (hi : i0 < gdp.getPrimitiveVertexCount pr) :
    ∀ e ∈ stepEntries gdp org nml pr (gdp.getPrimitiveVertexCount pr) i0,
      EntryOK gdp org nml pr e := by
  have hn : 0 < gdp.getPrimitiveVertexCount pr := Nat.lt_of_le_of_lt (Nat.zero_le _) hi
  have hi1 : (i0 + 1) % gdp.getPrimitiveVertexCount pr < gdp.getPrimitiveVertexCount pr :=
    Nat.mod_lt _ hn
  have m0 := getPrimitiveVertexOffset_mem gdp pr i0 hi
  have m1 := getPrimitiveVertexOffset_mem gdp pr _ hi1
  intro e he
  unfold stepEntries at he
  simp only [List.mem_append] at he
  rcases he with he | he
  · split_ifs at he with h0
    · simp only [List.mem_singleton] at he
      subst he
      exact ⟨m0, h0⟩
    · simp at he
  · split_ifs at he with hc hlt
    · simp only [List.mem_singleton] at he
      subst he
      refine ⟨m1, m0, hlt, fun h => hc h.symm, rfl, ?_⟩
      have := mem_crossedEdges_of_crossed gdp org nml pr i0 hi ((isCrossed_iff _ _ _ _ _).2 hc)
      unfold edgeKey primPoint at this
      rw [min_eq_right hlt.le, max_eq_left hlt.le] at this
      exact this
    · simp only [List.mem_singleton] at he
      subst he
      have hne : gdp.vertexPoint (gdp.getPrimitiveVertexOffset pr i0) ≠
          gdp.vertexPoint (gdp.getPrimitiveVertexOffset pr
            ((i0 + 1) % gdp.getPrimitiveVertexCount pr)) := by
        intro h
        apply hc
        rw [← h]
      have hlt' := lt_of_le_of_ne (not_lt.mp hlt) hne
      refine ⟨m0, m1, hlt', hc, rfl, ?_⟩
      have := mem_crossedEdges_of_crossed gdp org nml pr i0 hi ((isCrossed_iff _ _ _ _ _).2 hc)
      unfold edgeKey primPoint at this
      rw [min_eq_left hlt'.le, max_eq_right hlt'.le] at this
      exact this
    · simp at he

theorem walkEntries_ok (gdp : GU_Detail) (org nml : UT_Vector3) (pr k : Nat)
    (hk : k ≤ gdp.getPrimitiveVertexCount pr) :
    ∀ e ∈ walkEntries gdp org nml pr (gdp.getPrimitiveVertexCount pr) k,
      EntryOK gdp org nml pr e := by
  intro e he
  unfold walkEntries at he
  rw [List.mem_flatMap] at he
  obtain ⟨i, hi, hei⟩ := he
  rw [List.mem_range] at hi
  exact stepEntries_ok gdp org nml pr i (lt_of_lt_of_le hi hk) e hei

/-- Every crossed edge of the polygon has its cut among the entries of the walk. -/
theorem walkEntries_crossed (gdp : GU_Detail) (org nml : UT_Vector3) (pr i0 : Nat)
    (hi : i0 < gdp.getPrimitiveVertexCount pr) (hc : isCrossed gdp org nml pr i0 = true) :
    ∃ e ∈ walkEntries gdp org nml pr (gdp.getPrimitiveVertexCount pr)
        (gdp.getPrimitiveVertexCount pr),
      ∃ v1, e.2.1 = some v1 ∧
        (gdp.vertexPoint e.1, gdp.vertexPoint v1) =
          edgeKey (primPoint gdp pr i0)
            (primPoint gdp pr ((i0 + 1) % gdp.getPrimitiveVertexCount pr)) := by
  rw [isCrossed_iff] at hc
  unfold primPoint at hc
  have hmem : ∀ e, e ∈ stepEntries gdp org nml pr (gdp.getPrimitiveVertexCount pr) i0 →
      e ∈ walkEntries gdp org nml pr (gdp.getPrimitiveVertexCount pr)
        (gdp.getPrimitiveVertexCount pr) := by
    intro e he
    unfold walkEntries
    rw [List.mem_flatMap]
    exact ⟨i0, List.mem_range.2 hi, he⟩
  by_cases hlt : gdp.vertexPoint (gdp.getPrimitiveVertexOffset pr
      ((i0 + 1) % gdp.getPrimitiveVertexCount pr)) <
      gdp.vertexPoint (gdp.getPrimitiveVertexOffset pr i0)
  · refine ⟨(gdp.getPrimitiveVertexOffset pr ((i0 + 1) % gdp.getPrimitiveVertexCount pr),
      some (gdp.getPrimitiveVertexOffset pr i0),
      clippedDist gdp org nml (gdp.vertexPoint (gdp.getPrimitiveVertexOffset pr
        ((i0 + 1) % gdp.getPrimitiveVertexCount pr)))
        (gdp.vertexPoint (gdp.getPrimitiveVertexOffset pr i0))), ?_, _, rfl, ?_⟩
    · apply hmem
      unfold stepEntries
      simp only [List.mem_append]
      right
      rw [if_pos hc, if_pos hlt]
      exact List.mem_singleton.2 rfl
    · unfold edgeKey primPoint
      rw [min_eq_right hlt.le, max_eq_left hlt.le]
  · refine ⟨(gdp.getPrimitiveVertexOffset pr i0,
      some (gdp.getPrimitiveVertexOffset pr ((i0 + 1) % gdp.getPrimitiveVertexCount pr)),
      clippedDist gdp org nml (gdp.vertexPoint (gdp.getPrimitiveVertexOffset pr i0))
        (gdp.vertexPoint (gdp.getPrimitiveVertexOffset pr
          ((i0 + 1) % gdp.getPrimitiveVertexCount pr)))), ?_, _, rfl, ?_⟩
    · apply hmem
      unfold stepEntries
      simp only [List.mem_append]
      right
      rw [if_pos hc, if_neg hlt]
      exact List.mem_singleton.2 rfl
    · unfold edgeKey primPoint
      rw [min_eq_left (not_lt.mp hlt), max_eq_right (not_lt.mp hlt)]

theorem walkEntries_length_mono (gdp : GU_Detail) (org nml : UT_Vector3) (pr nvtx : Nat)
    {k k' : Nat} (h : k ≤ k') :
    (walkEntries gdp org nml pr nvtx k).length ≤ (walkEntries gdp org nml pr nvtx k').length := by
  induction k' with
  | zero =>
    have : k = 0 := Nat.le_zero.mp h
    subst this
    exact le_refl _
  | succ m ih =>
    rcases Nat.lt_or_ge k (m + 1) with hlt | hge
    · rw [walkEntries_succ, List.length_append]
      exact le_trans (ih (Nat.lt_succ_iff.mp hlt)) (Nat.le_add_right _ _)
    · have : k = m + 1 := le_antisymm h hge
      subst this
      exact le_refl _

theorem stepEntries_length_pos_of_up (gdp : GU_Detail) (org nml : UT_Vector3) (pr nvtx i0 : Nat)
    (h : isUpCrossing gdp org nml pr nvtx i0 = true) :
    0 < (stepEntries gdp org nml pr nvtx i0).length := by
  unfold isUpCrossing primPoint at h
  rw [Bool.and_eq_true] at h
  obtain ⟨h0, h1⟩ := h
  have h1' : isClipped gdp org nml
      (gdp.vertexPoint (gdp.getPrimitiveVertexOffset pr ((i0 + 1) % nvtx))) = false := by
    simpa using h1
  unfold stepEntries
  simp [h0, h1']

theorem walkEntries_length_lt_of_up (gdp : GU_Detail) (org nml : UT_Vector3) (pr nvtx : Nat)
    {i0 k : Nat} (h : isUpCrossing gdp org nml pr nvtx i0 = true) (hik : i0 < k) :
    (walkEntries gdp org nml pr nvtx i0).length < (walkEntries gdp org nml pr nvtx k).length := by
  have h1 : (walkEntries gdp org nml pr nvtx i0).length <
      (walkEntries gdp org nml pr nvtx (i0 + 1)).length := by
    rw [walkEntries_succ, List.length_append]
    have := stepEntries_length_pos_of_up gdp org nml pr nvtx i0 h
    omega
  exact lt_of_lt_of_le h1 (walkEntries_length_mono gdp org nml pr nvtx hik)

theorem walkStarts_lt (gdp : GU_Detail) (org nml : UT_Vector3) (pr nvtx k : Nat) :
    ∀ s ∈ walkStarts gdp org nml pr nvtx k, s < (walkEntries gdp org nml pr nvtx k).length := by
  intro s hs
  unfold walkStarts at hs
  rw [List.mem_map] at hs
  obtain ⟨i0, hi0, rfl⟩ := hs
  rw [List.mem_filter, List.mem_range] at hi0
  exact walkEntries_length_lt_of_up gdp org nml pr nvtx hi0.2 hi0.1

theorem walkStarts_pairwise (gdp : GU_Detail) (org nml : UT_Vector3) (pr nvtx k : Nat) :
    (walkStarts gdp org nml pr nvtx k).Pairwise (· < ·) := by
  unfold walkStarts
  rw [List.pairwise_map]
  have h : ((List.range k).filter (isUpCrossing gdp org nml pr nvtx)).Pairwise (· < ·) :=
    List.Pairwise.filter _ (List.pairwise_lt_range k)
  refine List.Pairwise.imp_of_mem ?_ h
  intro a b ha _ hab
  rw [List.mem_filter] at ha
  exact walkEntries_length_lt_of_up gdp org nml pr nvtx ha.2 hab

theorem walkStarts_ne_nil (gdp : GU_Detail) (org nml : UT_Vector3) (pr nvtx k i0 : Nat)
    (hi : i0 < k) (h : isUpCrossing gdp org nml pr nvtx i0 = true) :
    walkStarts gdp org nml pr nvtx k ≠ [] := by
  intro hnil
  have : (walkEntries gdp org nml pr nvtx i0).length ∈ walkStarts gdp org nml pr nvtx k := by
    unfold walkStarts
    rw [List.mem_map]
    exact ⟨i0, by rw [List.mem_filter, List.mem_range]; exact ⟨hi, h⟩, rfl⟩
  rw [hnil] at this
  exact List.not_mem_nil _ this

/-- In a cyclic sequence with a true and a false value some true value is followed by a
false one. -/
theorem exists_cyclic_drop (c : Nat → Bool) (n i j : Nat) (hi : i < n) (hj : j < n)
    (hci : c i = true) (hcj : c j = false) :
    ∃ m < n, c m = true ∧ c ((m + 1) % n) = false := by
  by_contra hcon
  push_neg at hcon
  have hn : 0 < n := Nat.lt_of_le_of_lt (Nat.zero_le _) hi
  have key : ∀ d, c ((i + d) % n) = true := by
    intro d
    induction d with
    | zero => rw [Nat.add_zero, Nat.mod_eq_of_lt hi]; exact hci
    | succ d ih =>
      have h := hcon ((i + d) % n) (Nat.mod_lt _ hn) ih
      have e : ((i + d) % n + 1) % n = (i + (d + 1)) % n := by
        rw [Nat.add_mod ((i + d) % n) 1 n, Nat.mod_mod, ← Nat.add_mod, Nat.add_assoc]
      rw [e] at h
      simpa using h
  have h := key (j + n - i)
  have e : (i + (j + n - i)) % n = j := by
    have : i + (j + n - i) = j + n := by omega
    rw [this, Nat.add_mod_right, Nat.mod_eq_of_lt hj]
  rw [e, hcj] at h
  cases h

theorem exists_upCrossing (gdp : GU_Detail) (org nml : UT_Vector3) (pr : Nat)
    (h0 : countClipped gdp org nml pr ≠ 0)
    (hn : countClipped gdp org nml pr ≠ gdp.getPrimitiveVertexCount pr) :
    ∃ i0 < gdp.getPrimitiveVertexCount pr,
      isUpCrossing gdp org nml pr (gdp.getPrimitiveVertexCount pr) i0 = true := by
  rw [Ne, countClipped_eq_zero_iff] at h0
  rw [Ne, countClipped_eq_length_iff] at hn
  push_neg at h0 hn
  obtain ⟨i, hi, hci⟩ := h0
  obtain ⟨j, hj, hcj⟩ := hn
  have hci' : isClipped gdp org nml (primPoint gdp pr i) = true := by
    simpa [primPoint] using hci
  have hcj' : isClipped gdp org nml (primPoint gdp pr j) = false := by
    simpa [primPoint] using hcj
  obtain ⟨m, hm, h1, h2⟩ := exists_cyclic_drop
    (fun i => isClipped gdp org nml (primPoint gdp pr i)) _ i j hi hj hci' hcj'
  refine ⟨m, hm, ?_⟩
  unfold isUpCrossing
  have h1' : isClipped gdp org nml (primPoint gdp pr m) = true := h1
  have h2' : isClipped gdp org nml
      (primPoint gdp pr ((m + 1) % gdp.getPrimitiveVertexCount pr)) = false := h2
  rw [h1', h2']
  rfl

/-! ## Coverage of the entry list by the new polygons -/

theorem newPolyVertexCount_eq (w : WalkState) (i : Nat) :
    newPolyVertexCount w i = loopCount w.poly_start_pos w.vert0s.length i := rfl

theorem exists_last_le (S : List Nat) (idx : Nat) :
    ∀ d m, m + d + 1 = S.length → S.getD m 0 ≤ idx →
      ∃ i, m ≤ i ∧ i < S.length ∧ S.getD i 0 ≤ idx ∧ (i + 1 < S.length → idx < S.getD (i + 1) 0) := by
  intro d
  induction d with
  | zero =>
    intro m hm hle
    exact ⟨m, le_refl _, by omega, hle, fun h => by omega⟩
  | succ d ih =>
    intro m hm hle
    by_cases h : S.getD (m + 1) 0 ≤ idx
    · obtain ⟨i, h1, h2, h3, h4⟩ := ih (m + 1) (by omega) h
      exact ⟨i, by omega, h2, h3, h4⟩
    · exact ⟨m, le_refl _, by omega, hle, fun _ => by omega⟩

theorem pairwise_getD_le (S : List Nat) (hS : S.Pairwise (· < ·)) (i j : Nat)
    (hij : i ≤ j) (hj : j < S.length) : S.getD i 0 ≤ S.getD j 0 := by
  rcases Nat.eq_or_lt_of_le hij with h | h
  · subst h; exact le_refl _
  · rw [List.getD_eq_getElem _ _ hj, List.getD_eq_getElem _ _ (lt_trans h hj)]
    exact (List.pairwise_iff_getElem.mp hS i j (lt_trans h hj) hj h).le

/-- Every entry index is reached by some vertex of some new polygon. -/
theorem loop_coverage (S : List Nat) (N : Nat) (hne : S ≠ []) (hS : S.Pairwise (· < ·))
    (hlt : ∀ s ∈ S, s < N) (idx : Nat) (hidx : idx < N) :
    ∃ i < S.length, ∃ v < loopCount S N i, (S.getD i 0 + v) % N = idx := by
  have hk : 0 < S.length := List.length_pos.mpr hne
  have hlast : S.getD (S.length - 1) 0 < N := by
    rw [List.getD_eq_getElem _ _ (by omega)]
    exact hlt _ (List.getElem_mem _)
  have h0last : S.getD 0 0 ≤ S.getD (S.length - 1) 0 :=
    pairwise_getD_le S hS 0 _ (Nat.zero_le _) (by omega)
  have wrap : (S.length - 1 + 1) % S.length = 0 := by
    rw [Nat.sub_add_cancel hk, Nat.mod_self]
  by_cases h0 : S.getD 0 0 ≤ idx
  · obtain ⟨i, _, hi, hle, hnext⟩ := exists_last_le S idx (S.length - 1) 0 (by omega) h0
    by_cases hi1 : i + 1 < S.length
    · have hn := hnext hi1
      refine ⟨i, hi, idx - S.getD i 0, ?_, ?_⟩
      · unfold loopCount
        rw [Nat.mod_eq_of_lt hi1]
        split_ifs with hc <;> omega
      · rw [Nat.add_sub_cancel' hle, Nat.mod_eq_of_lt hidx]
    · have hi' : i = S.length - 1 := by omega
      subst hi'
      refine ⟨S.length - 1, hi, idx - S.getD (S.length - 1) 0, ?_, ?_⟩
      · unfold loopCount
        rw [wrap]
        split_ifs with hc <;> omega
      · rw [Nat.add_sub_cancel' hle, Nat.mod_eq_of_lt hidx]
  · push_neg at h0
    refine ⟨S.length - 1, by omega, idx + N - S.getD (S.length - 1) 0, ?_, ?_⟩
    · unfold loopCount
      rw [wrap]
      split_ifs with hc <;> omega
    · have : S.getD (S.length - 1) 0 + (idx + N - S.getD (S.length - 1) 0) = idx + N := by omega
      rw [this, Nat.add_mod_right, Nat.mod_eq_of_lt hidx]

theorem StExt.refl (st : RebuildState) : StExt st st :=
  ⟨List.prefix_refl _, List.prefix_refl _, List.prefix_refl _, List.prefix_refl _⟩

theorem StExt.trans {a b c : RebuildState} (h1 : StExt a b) (h2 : StExt b c) : StExt a c :=
  ⟨h1.points.trans h2.points, h1.vertices.trans h2.vertices,
   h1.primitives.trans h2.primitives, h1.cuts.trans h2.cuts⟩

theorem lt_length_of_getD_some {α : Type} {l : List (Option α)} {i : Nat} {x : α}
    (h : l.getD i none = some x) : i < l.length := by
  by_contra hc
  rw [List.getD_eq_default _ _ (not_lt.mp hc)] at h
  cases h

theorem getD_some_of_isPrefix {α : Type} {l l' : List (Option α)} (h : l <+: l') {i : Nat} {x : α}
    (hx : l.getD i none = some x) : l'.getD i none = some x := by
  rw [getD_of_isPrefix h (lt_length_of_getD_some hx)]
  exact hx

theorem lookup_mem {α β : Type} [BEq α] [LawfulBEq α] {l : List (α × β)} {k : α} {c : β}
    (h : l.lookup k = some c) : (k, c) ∈ l := by
  induction l with
  | nil => simp at h
  | cons hd tl ih =>
    obtain ⟨k', c'⟩ := hd
    rw [List.lookup_cons] at h
    by_cases hk : k == k'
    · simp only [hk] at h
      have : k = k' := by simpa using hk
      subst this
      cases h
      exact List.mem_cons_self _ _
    · simp only [hk] at h
      exact List.mem_cons_of_mem _ (ih h)

theorem lookup_none_not_mem {α β : Type} [BEq α] [LawfulBEq α] {l : List (α × β)} {k : α}
    (h : l.lookup k = none) : k ∉ l.map Prod.fst := by
  induction l with
  | nil => simp
  | cons hd tl ih =>
    obtain ⟨k', c'⟩ := hd
    rw [List.lookup_cons] at h
    by_cases hk : k == k'
    · simp only [hk] at h
      cases h
    · simp only [hk] at h
      have hne : k ≠ k' := by simpa using hk
      simp only [List.map_cons, List.mem_cons, not_or]
      exact ⟨hne, ih h⟩

theorem lookup_of_isPrefix {α β : Type} [BEq α] [LawfulBEq α] {l l' : List (α × β)} {k : α} {c : β}
    (hp : l <+: l') (h : l.lookup k = some c) : l'.lookup k = some c := by
  obtain ⟨t, rfl⟩ := hp
  rw [List.lookup_append, h]
  rfl

theorem lookup_isSome_mem_keys {α β : Type} [BEq α] [LawfulBEq α] {l : List (α × β)} {k : α}
    {c : β} (h : l.lookup k = some c) : k ∈ l.map Prod.fst :=
  List.mem_map.2 ⟨(k, c), lookup_mem h, rfl⟩

theorem setVertex_kept (w : WalkState) (start N start_vtx : Nat) (st : RebuildState) (v : Nat)
    (h1 : w.vert1s.getD ((start + v) % N) none = none) :
    setVertex w start N start_vtx st v =
      ⟨st.gdp.wireVertexPoint (start_vtx + v)
          (st.gdp.vertexPoint (w.vert0s.getD ((start + v) % N) 0)), st.cuts⟩ := by
  unfold setVertex
  simp only [h1]

theorem setVertex_hit (w : WalkState) (start N start_vtx : Nat) (st : RebuildState) (v : Nat)
    (vtx1 p : Nat) (h1 : w.vert1s.getD ((start + v) % N) none = some vtx1)
    (h2 : List.lookup (st.gdp.vertexPoint (w.vert0s.getD ((start + v) % N) 0),
        st.gdp.vertexPoint vtx1) st.cuts = some p) :
    setVertex w start N start_vtx st v =
      ⟨st.gdp.wireVertexPoint (start_vtx + v) p, st.cuts⟩ := by
  unfold setVertex
  simp only [h1, h2]

theorem setVertex_miss (w : WalkState) (start N start_vtx : Nat) (st : RebuildState) (v : Nat)
    (vtx1 : Nat) (h1 : w.vert1s.getD ((start + v) % N) none = some vtx1)
    (h2 : List.lookup (st.gdp.vertexPoint (w.vert0s.getD ((start + v) % N) 0),
        st.gdp.vertexPoint vtx1) st.cuts = none) :
    setVertex w start N start_vtx st v =
      ⟨(st.gdp.appendPoint
          (lerp (st.gdp.getPos3 (st.gdp.vertexPoint (w.vert0s.getD ((start + v) % N) 0)))
            (st.gdp.getPos3 (st.gdp.vertexPoint vtx1))
            (w.dists.getD ((start + v) % N) 0))).wireVertexPoint (start_vtx + v)
              st.gdp.points.length,
        st.cuts ++ [((st.gdp.vertexPoint (w.vert0s.getD ((start + v) % N) 0),
          st.gdp.vertexPoint vtx1), st.gdp.points.length)]⟩ := by
  unfold setVertex
  simp only [h1, h2]

/-- What `setVertex` does to the tables. -/
theorem setVertex_cases (w : WalkState) (start N start_vtx : Nat) (st : RebuildState) (v : Nat) :
    (setVertex w start N start_vtx st v).gdp.primitives = st.gdp.primitives ∧
    (∃ p, (setVertex w start N start_vtx st v).gdp.vertices =
        st.gdp.vertices.set (start_vtx + v) (some p)) ∧
    st.gdp.points <+: (setVertex w start N start_vtx st v).gdp.points ∧
    st.cuts <+: (setVertex w start N start_vtx st v).cuts := by
  cases h1 : w.vert1s.getD ((start + v) % N) none with
  | none =>
    rw [setVertex_kept _ _ _ _ _ _ h1]
    exact ⟨rfl, ⟨_, rfl⟩, List.prefix_refl _, List.prefix_refl _⟩
  | some vtx1 =>
    cases h2 : List.lookup (st.gdp.vertexPoint (w.vert0s.getD ((start + v) % N) 0),
        st.gdp.vertexPoint vtx1) st.cuts with
    | some p =>
      rw [setVertex_hit _ _ _ _ _ _ _ _ h1 h2]
      exact ⟨rfl, ⟨_, rfl⟩, List.prefix_refl _, List.prefix_refl _⟩
    | none =>
      rw [setVertex_miss _ _ _ _ _ _ _ h1 h2]
      exact ⟨rfl, ⟨_, rfl⟩, List.prefix_append _ _, List.prefix_append _ _⟩

theorem setVertex_ext (w : WalkState) (start N start_vtx : Nat) (b st : RebuildState) (v : Nat)
    (h : StExt b st) (hv : b.gdp.vertices.length ≤ start_vtx + v) :
    StExt b (setVertex w start N start_vtx st v) := by
  obtain ⟨hpr, ⟨p, hvs⟩, hpts, hcuts⟩ := setVertex_cases w start N start_vtx st v
  refine ⟨h.points.trans hpts, ?_, ?_, h.cuts.trans hcuts⟩
  · rw [hvs]
    exact prefix_set_of_le h.vertices hv _
  · rw [hpr]
    exact h.primitives

theorem createPoly_ext (w : WalkState) (st : RebuildState) (i : Nat) :
    StExt st (createPoly w st i) := by
  unfold createPoly
  apply foldl_range_induction _ _ _ (fun _ s => StExt st s)
  · exact ⟨List.prefix_refl _, List.prefix_append _ _, List.prefix_append _ _, List.prefix_refl _⟩
  · intro j s _ hs
    exact setVertex_ext _ _ _ _ _ _ _ hs (Nat.le_add_right _ _)

theorem rebuildPoly_ext (org nml : UT_Vector3) (st : RebuildState) (pr : Nat) :
    StExt st (rebuildPoly org nml st pr) := by
  unfold rebuildPoly
  apply foldl_range_induction _ _ _ (fun _ s => StExt st s)
  · exact StExt.refl _
  · intro j s _ hs
    exact hs.trans (createPoly_ext _ _ _)

theorem foldl_rebuildPoly_ext (org nml : UT_Vector3) (l : List Nat) (st : RebuildState) :
    StExt st (l.foldl (rebuildPoly org nml) st) := by
  induction l generalizing st with
  | nil => exact StExt.refl _
  | cons pr l ih =>
    rw [List.foldl_cons]
    exact (rebuildPoly_ext org nml st pr).trans (ih _)

theorem primVertices_eq_nil_of_ge (gdp : GU_Detail) (pr : Nat) (h : gdp.primitives.length ≤ pr) :
    gdp.primVertices pr = [] := by
  unfold GU_Detail.primVertices
  rw [List.getD_eq_default _ _ h]

theorem lt_of_mem_primVertices {gdp : GU_Detail} {pr v : Nat} (h : v ∈ gdp.primVertices pr) :
    pr < gdp.primitives.length := by
  by_contra hc
  rw [primVertices_eq_nil_of_ge gdp pr (not_lt.mp hc)] at h
  exact List.not_mem_nil _ h

theorem mem_allPrimVertices {gdp : GU_Detail} {pr v : Nat} (h : v ∈ gdp.primVertices pr) :
    v ∈ gdp.allPrimVertices := by
  unfold GU_Detail.allPrimVertices
  rw [List.mem_flatMap]
  exact ⟨pr, List.mem_range.2 (lt_of_mem_primVertices h), h⟩

theorem wf_vertex {gdp : GU_Detail} (hwf : gdp.wellFormed = true) {pr v : Nat}
    (h : v ∈ gdp.primVertices pr) :
    ∃ pt, gdp.vertices.getD v none = some pt ∧ pt < gdp.points.length := by
  unfold GU_Detail.wellFormed at hwf
  rw [Bool.and_eq_true, List.all_eq_true] at hwf
  have := hwf.1 v (mem_allPrimVertices h)
  cases hv : gdp.vertices.getD v none with
  | none => rw [hv] at this; cases this
  | some pt =>
    rw [hv] at this
    exact ⟨pt, rfl, by simpa using this⟩

theorem wf_vertex_lt {gdp : GU_Detail} (hwf : gdp.wellFormed = true) {pr v : Nat}
    (h : v ∈ gdp.primVertices pr) : v < gdp.vertices.length := by
  obtain ⟨pt, hpt, _⟩ := wf_vertex hwf h
  exact lt_length_of_getD_some hpt

theorem wf_vertexPoint_lt {gdp : GU_Detail} (hwf : gdp.wellFormed = true) {pr v : Nat}
    (h : v ∈ gdp.primVertices pr) : gdp.vertexPoint v < gdp.points.length := by
  obtain ⟨pt, hpt, hlt⟩ := wf_vertex hwf h
  unfold GU_Detail.vertexPoint
  rw [hpt]
  exact hlt

theorem wf_vertex_eq {gdp : GU_Detail} (hwf : gdp.wellFormed = true) {pr v : Nat}
    (h : v ∈ gdp.primVertices pr) : gdp.vertices.getD v none = some (gdp.vertexPoint v) := by
  obtain ⟨pt, hpt, _⟩ := wf_vertex hwf h
  unfold GU_Detail.vertexPoint
  rw [hpt]
  rfl

theorem wf_disjoint {gdp : GU_Detail} (hwf : gdp.wellFormed = true) {pr pr' v : Nat}
    (h : v ∈ gdp.primVertices pr) (h' : v ∈ gdp.primVertices pr') : pr = pr' := by
  unfold GU_Detail.wellFormed at hwf
  rw [Bool.and_eq_true] at hwf
  have hnd : gdp.allPrimVertices.Nodup := by simpa using hwf.2
  unfold GU_Detail.allPrimVertices at hnd
  rw [List.nodup_flatMap] at hnd
  by_contra hne
  have hp := hnd.2
  have hr := List.pairwise_iff_getElem.mp hp
  have l1 := lt_of_mem_primVertices h
  have l2 := lt_of_mem_primVertices h'
  rcases Nat.lt_or_gt_of_ne hne with hlt | hgt
  · have := hr pr pr' (by simpa using l1) (by simpa using l2) hlt
    simp only [List.getElem_range, Function.onFun] at this
    exact this h h'
  · have := hr pr' pr (by simpa using l2) (by simpa using l1) hgt
    simp only [List.getElem_range, Function.onFun] at this
    exact this h' h

/-! ## Reading an extended detail -/

theorem primVertices_of_isPrefix {g g' : GU_Detail} (h : g.primitives <+: g'.primitives)
    {pr : Nat} (hpr : pr < g.primitives.length) : g'.primVertices pr = g.primVertices pr := by
  unfold GU_Detail.primVertices
  rw [getD_of_isPrefix h hpr]

theorem vertexPoint_of_isPrefix {g g' : GU_Detail} (h : g.vertices <+: g'.vertices)
    {v : Nat} (hv : v < g.vertices.length) : g'.vertexPoint v = g.vertexPoint v := by
  unfold GU_Detail.vertexPoint
  rw [getD_of_isPrefix h hv]

theorem getPos3_of_isPrefix {g g' : GU_Detail} (h : g.points <+: g'.points)
    {p : Nat} (hp : p < g.points.length) : g'.getPos3 p = g.getPos3 p := by
  unfold GU_Detail.getPos3
  rw [getD_of_isPrefix h hp]

theorem isClipped_of_isPrefix {g g' : GU_Detail} (org nml : UT_Vector3) (h : g.points <+: g'.points)
    {p : Nat} (hp : p < g.points.length) : isClipped g' org nml p = isClipped g org nml p := by
  unfold isClipped
  rw [getPos3_of_isPrefix h hp]

theorem clippedDist_of_isPrefix {g g' : GU_Detail} (org nml : UT_Vector3)
    (h : g.points <+: g'.points) {p q : Nat} (hp : p < g.points.length)
    (hq : q < g.points.length) :
    clippedDist g' org nml p q = clippedDist g org nml p q := by
  unfold clippedDist
  rw [getPos3_of_isPrefix h hp, getPos3_of_isPrefix h hq]

/-- The walk over a polygon of a well-formed detail reads the same in an extension. -/
theorem stepEntries_of_ext {g g' : GU_Detail} (org nml : UT_Vector3)
    (hwf : g.wellFormed = true) (hp : g.points <+: g'.points) (hv : g.vertices <+: g'.vertices)
    (hpr : g.primitives <+: g'.primitives) (pr i0 : Nat)
    (hi : i0 < g.getPrimitiveVertexCount pr) :
    stepEntries g' org nml pr (g.getPrimitiveVertexCount pr) i0 =
      stepEntries g org nml pr (g.getPrimitiveVertexCount pr) i0 := by
  have hn : 0 < g.getPrimitiveVertexCount pr := Nat.lt_of_le_of_lt (Nat.zero_le _) hi
  have m0 := getPrimitiveVertexOffset_mem g pr i0 hi
  have m1 := getPrimitiveVertexOffset_mem g pr _ (Nat.mod_lt (i0 + 1) hn)
  have hprl := lt_of_mem_primVertices m0
  have e : ∀ i, g'.getPrimitiveVertexOffset pr i = g.getPrimitiveVertexOffset pr i := by
    intro i
    unfold GU_Detail.getPrimitiveVertexOffset
    rw [primVertices_of_isPrefix hpr hprl]
  have v0 := vertexPoint_of_isPrefix hv (wf_vertex_lt hwf m0)
  have v1 := vertexPoint_of_isPrefix hv (wf_vertex_lt hwf m1)
  have p0 := wf_vertexPoint_lt hwf m0
  have p1 := wf_vertexPoint_lt hwf m1
  unfold stepEntries
  simp only [e, v0, v1, isClipped_of_isPrefix org nml hp p0, isClipped_of_isPrefix org nml hp p1,
    clippedDist_of_isPrefix org nml hp p0 p1, clippedDist_of_isPrefix org nml hp p1 p0]

theorem isUpCrossing_of_ext {g g' : GU_Detail} (org nml : UT_Vector3)
    (hwf : g.wellFormed = true) (hp : g.points <+: g'.points) (hv : g.vertices <+: g'.vertices)
    (hpr : g.primitives <+: g'.primitives) (pr i0 : Nat)
    (hi : i0 < g.getPrimitiveVertexCount pr) :
    isUpCrossing g' org nml pr (g.getPrimitiveVertexCount pr) i0 =
      isUpCrossing g org nml pr (g.getPrimitiveVertexCount pr) i0 := by
  have hn : 0 < g.getPrimitiveVertexCount pr := Nat.lt_of_le_of_lt (Nat.zero_le _) hi
  have m0 := getPrimitiveVertexOffset_mem g pr i0 hi
  have m1 := getPrimitiveVertexOffset_mem g pr _ (Nat.mod_lt (i0 + 1) hn)
  have hprl := lt_of_mem_primVertices m0
  have e : ∀ i, g'.getPrimitiveVertexOffset pr i = g.getPrimitiveVertexOffset pr i := by
    intro i
    unfold GU_Detail.getPrimitiveVertexOffset
    rw [primVertices_of_isPrefix hpr hprl]
  have v0 := vertexPoint_of_isPrefix hv (wf_vertex_lt hwf m0)
  have v1 := vertexPoint_of_isPrefix hv (wf_vertex_lt hwf m1)
  have p0 := wf_vertexPoint_lt hwf m0
  have p1 := wf_vertexPoint_lt hwf m1
  unfold isUpCrossing primPoint
  simp only [e, v0, v1, isClipped_of_isPrefix org nml hp p0, isClipped_of_isPrefix org nml hp p1]

theorem walkEntries_of_ext {g g' : GU_Detail} (org nml : UT_Vector3)
    (hwf : g.wellFormed = true) (hp : g.points <+: g'.points) (hv : g.vertices <+: g'.vertices)
    (hpr : g.primitives <+: g'.primitives) (pr k : Nat)
    (hk : k ≤ g.getPrimitiveVertexCount pr) :
    walkEntries g' org nml pr (g.getPrimitiveVertexCount pr) k =
      walkEntries g org nml pr (g.getPrimitiveVertexCount pr) k := by
  induction k with
  | zero => rfl
  | succ k ih =>
    rw [walkEntries_succ, walkEntries_succ, ih (Nat.le_of_succ_le hk),
      stepEntries_of_ext org nml hwf hp hv hpr pr k hk]

theorem walkStarts_of_ext {g g' : GU_Detail} (org nml : UT_Vector3)
    (hwf : g.wellFormed = true) (hp : g.points <+: g'.points) (hv : g.vertices <+: g'.vertices)
    (hpr : g.primitives <+: g'.primitives) (pr k : Nat)
    (hk : k ≤ g.getPrimitiveVertexCount pr) :
    walkStarts g' org nml pr (g.getPrimitiveVertexCount pr) k =
      walkStarts g org nml pr (g.getPrimitiveVertexCount pr) k := by
  induction k with
  | zero => rfl
  | succ k ih =>
    rw [walkStarts_succ, walkStarts_succ, ih (Nat.le_of_succ_le hk),
      isUpCrossing_of_ext org nml hwf hp hv hpr pr k hk,
      walkEntries_of_ext org nml hwf hp hv hpr pr k (Nat.le_of_succ_le hk)]

theorem walk_of_ext {g g' : GU_Detail} (org nml : UT_Vector3)
    (hwf : g.wellFormed = true) (hp : g.points <+: g'.points) (hv : g.vertices <+: g'.vertices)
    (hpr : g.primitives <+: g'.primitives) (pr : Nat) (hprl : pr < g.primitives.length) :
    walk g' org nml pr = walk g org nml pr := by
  have hn : g'.getPrimitiveVertexCount pr = g.getPrimitiveVertexCount pr := by
    unfold GU_Detail.getPrimitiveVertexCount
    rw [primVertices_of_isPrefix hpr hprl]
  rw [walk_eq, walk_eq, hn, walkEntries_of_ext org nml hwf hp hv hpr pr _ (le_refl _),
    walkStarts_of_ext org nml hwf hp hv hpr pr _ (le_refl _)]

theorem getD_append_length {α : Type} (l : List α) (x d : α) :
    (l ++ [x]).getD l.length d = x := by
  rw [List.getD_eq_getElem?_getD, List.getElem?_append_right (le_refl _)]
  simp

theorem RebuildInv.init (gdp0 : GU_Detail) (org nml : UT_Vector3) :
    RebuildInv gdp0 org nml ⟨gdp0, []⟩ where
  points_ext := List.prefix_refl _
  vertices_ext := List.prefix_refl _
  prims_ext := List.prefix_refl _
  points_length := rfl
  keys_nodup := List.nodup_nil
  vals_nodup := List.nodup_nil
  cut_ok := fun _ h => absurd h (List.not_mem_nil _)
  new_wired := fun _ _ hv h => absurd (lt_length_of_getD_some h) (not_lt.mpr hv)

theorem RebuildInv.val_lt {gdp0 : GU_Detail} {org nml : UT_Vector3} {st : RebuildState}
    (h : RebuildInv gdp0 org nml st) {kv : (Nat × Nat) × Nat} (hkv : kv ∈ st.cuts) :
    kv.2 < st.gdp.points.length :=
  lt_length_of_getD_some (h.cut_ok kv hkv).2.1

/-- One step of the vertex loop keeps the invariant, wires the vertex, and records
the cut under its key. -/
theorem setVertex_inv {gdp0 : GU_Detail} {org nml : UT_Vector3} (hwf : gdp0.wellFormed = true)
    (pr : Nat) (w : WalkState) (start N start_vtx : Nat) (st : RebuildState) (v : Nat)
    (hinv : RebuildInv gdp0 org nml st)
    (hv : gdp0.vertices.length ≤ start_vtx + v) (hvl : start_vtx + v < st.gdp.vertices.length)
    (he : EntryOK gdp0 org nml pr (w.vert0s.getD ((start + v) % N) 0,
      w.vert1s.getD ((start + v) % N) none, w.dists.getD ((start + v) % N) 0)) :
    RebuildInv gdp0 org nml (setVertex w start N start_vtx st v) ∧
    (∀ kv ∈ (setVertex w start N start_vtx st v).cuts,
      kv ∈ st.cuts ∨ kv.1 ∈ crossedEdges gdp0 org nml pr) ∧
    ∃ p, (setVertex w start N start_vtx st v).gdp.vertices.getD (start_vtx + v) none = some p ∧
      ∀ v1, w.vert1s.getD ((start + v) % N) none = some v1 →
        (setVertex w start N start_vtx st v).cuts.lookup
          (gdp0.vertexPoint (w.vert0s.getD ((start + v) % N) 0), gdp0.vertexPoint v1) = some p := by
  obtain ⟨hm0, hrest⟩ := he
  simp only [] at hm0 hrest
  have hv0 : st.gdp.vertexPoint (w.vert0s.getD ((start + v) % N) 0) =
      gdp0.vertexPoint (w.vert0s.getD ((start + v) % N) 0) :=
    vertexPoint_of_isPrefix hinv.vertices_ext (wf_vertex_lt hwf hm0)
  have hp0 := wf_vertexPoint_lt hwf hm0
  cases h1 : w.vert1s.getD ((start + v) % N) none with
  | none =>
    rw [h1] at hrest
    simp only [] at hrest
    rw [setVertex_kept _ _ _ _ _ _ h1, hv0]
    refine ⟨?_, fun kv hkv => Or.inl hkv, _, getD_set_self _ hvl _ _, ?_⟩
    · exact
        { points_ext := hinv.points_ext
          vertices_ext := prefix_set_of_le hinv.vertices_ext hv _
          prims_ext := hinv.prims_ext
          points_length := hinv.points_length
          keys_nodup := hinv.keys_nodup
          vals_nodup := hinv.vals_nodup
          cut_ok := hinv.cut_ok
          new_wired := by
            intro u p hu hup
            by_cases huv : start_vtx + v = u
            · subst huv
              have : (st.gdp.vertices.set (start_vtx + v)
                  (some (gdp0.vertexPoint (w.vert0s.getD ((start + v) % N) 0)))).getD
                  (start_vtx + v) none = some p := hup
              rw [getD_set_self _ hvl] at this
              cases this
              exact Or.inl ⟨hp0, hrest⟩
            · have : (st.gdp.vertices.set (start_vtx + v)
                  (some (gdp0.vertexPoint (w.vert0s.getD ((start + v) % N) 0)))).getD
                  u none = some p := hup
              rw [getD_set_of_ne _ huv] at this
              exact hinv.new_wired u p hu this }
    · intro v1 hv1
      cases hv1
  | some vtx1 =>
    rw [h1] at hrest
    simp only [] at hrest
    obtain ⟨hm1, hlt, hcross, hdist, hkey⟩ := hrest
    have hv1 : st.gdp.vertexPoint vtx1 = gdp0.vertexPoint vtx1 :=
      vertexPoint_of_isPrefix hinv.vertices_ext (wf_vertex_lt hwf hm1)
    have hp1 := wf_vertexPoint_lt hwf hm1
    cases h2 : List.lookup (st.gdp.vertexPoint (w.vert0s.getD ((start + v) % N) 0),
        st.gdp.vertexPoint vtx1) st.cuts with
    | some c =>
      rw [setVertex_hit _ _ _ _ _ _ _ _ h1 h2]
      rw [hv0, hv1] at h2
      refine ⟨?_, fun kv hkv => Or.inl hkv, c, getD_set_self _ hvl _ _, ?_⟩
      · exact
          { points_ext := hinv.points_ext
            vertices_ext := prefix_set_of_le hinv.vertices_ext hv _
            prims_ext := hinv.prims_ext
            points_length := hinv.points_length
            keys_nodup := hinv.keys_nodup
            vals_nodup := hinv.vals_nodup
            cut_ok := hinv.cut_ok
            new_wired := by
              intro u p hu hup
              by_cases huv : start_vtx + v = u
              · subst huv
                have : (st.gdp.vertices.set (start_vtx + v) (some c)).getD
                    (start_vtx + v) none = some p := hup
                rw [getD_set_self _ hvl] at this
                cases this
                exact Or.inr (List.mem_map.2 ⟨_, lookup_mem h2, rfl⟩)
              · have : (st.gdp.vertices.set (start_vtx + v) (some c)).getD u none = some p := hup
                rw [getD_set_of_ne _ huv] at this
                exact hinv.new_wired u p hu this }
      · intro v1 hv1'
        cases hv1'
        exact h2
    | none =>
      rw [setVertex_miss _ _ _ _ _ _ _ h1 h2]
      rw [hv0, hv1] at h2 ⊢
      have hpos : lerp (st.gdp.getPos3 (gdp0.vertexPoint (w.vert0s.getD ((start + v) % N) 0)))
          (st.gdp.getPos3 (gdp0.vertexPoint vtx1)) (w.dists.getD ((start + v) % N) 0) =
          cutPos gdp0 org nml (gdp0.vertexPoint (w.vert0s.getD ((start + v) % N) 0),
            gdp0.vertexPoint vtx1) := by
        rw [getPos3_of_isPrefix hinv.points_ext hp0, getPos3_of_isPrefix hinv.points_ext hp1, hdist]
        rfl
      rw [hpos]
      refine ⟨?_, ?_, st.gdp.points.length, getD_set_self _ hvl _ _, ?_⟩
      · exact
          { points_ext := hinv.points_ext.trans (List.prefix_append _ _)
            vertices_ext := prefix_set_of_le hinv.vertices_ext hv _
            prims_ext := hinv.prims_ext
            points_length := by
              show (st.gdp.points ++ [_]).length = _
              rw [List.length_append, List.length_append, hinv.points_length]
              simp only [List.length_singleton]
              omega
            keys_nodup := by
              show ((st.cuts ++ [_]).map Prod.fst).Nodup
              rw [List.map_append, List.nodup_append]
              refine ⟨hinv.keys_nodup, List.nodup_singleton _, ?_⟩
              intro k hk hk'
              simp only [List.map_cons, List.map_nil, List.mem_singleton] at hk'
              subst hk'
              exact lookup_none_not_mem h2 hk
            vals_nodup := by
              show ((st.cuts ++ [_]).map Prod.snd).Nodup
              rw [List.map_append, List.nodup_append]
              refine ⟨hinv.vals_nodup, List.nodup_singleton _, ?_⟩
              intro c hc hc'
              simp only [List.map_cons, List.map_nil, List.mem_singleton] at hc'
              subst hc'
              obtain ⟨kv, hkv, hkv2⟩ := List.mem_map.1 hc
              have := hinv.val_lt hkv
              omega
            cut_ok := by
              intro kv hkv
              have hkv' : kv ∈ st.cuts ++ [_] := hkv
              rw [List.mem_append, List.mem_singleton] at hkv'
              show _ ∧ (st.gdp.points ++ [_]).getD kv.2 none = _ ∧ _
              rcases hkv' with hold | hnew
              · obtain ⟨a, b, c⟩ := hinv.cut_ok kv hold
                exact ⟨a, getD_some_of_isPrefix (List.prefix_append _ _) b, c⟩
              · subst hnew
                refine ⟨?_, getD_append_length _ _ _, hcross⟩
                show gdp0.points.length ≤ st.gdp.points.length
                rw [hinv.points_length]
                exact Nat.le_add_right _ _
            new_wired := by
              intro u p hu hup
              show _ ∨ p ∈ (st.cuts ++ [_]).map Prod.snd
              rw [List.map_append, List.mem_append]
              by_cases huv : start_vtx + v = u
              · subst huv
                have : (st.gdp.vertices.set (start_vtx + v) (some st.gdp.points.length)).getD
                    (start_vtx + v) none = some p := hup
                rw [getD_set_self _ hvl] at this
                cases this
                exact Or.inr (Or.inr (by simp))
              · have : (st.gdp.vertices.set (start_vtx + v) (some st.gdp.points.length)).getD
                    u none = some p := hup
                rw [getD_set_of_ne _ huv] at this
                rcases hinv.new_wired u p hu this with h | h
                · exact Or.inl h
                · exact Or.inr (Or.inl h) }
      · intro kv hkv
        have hkv' : kv ∈ st.cuts ++ [_] := hkv
        rw [List.mem_append, List.mem_singleton] at hkv'
        rcases hkv' with hold | hnew
        · exact Or.inl hold
        · subst hnew
          exact Or.inr hkey
      · intro v1 hv1'
        cases hv1'
        show List.lookup _ (st.cuts ++ [_]) = _
        rw [List.lookup_append, h2]
        simp [List.lookup_cons]

theorem getD_append_replicate_none {α : Type} (l : List (Option α)) (n i : Nat) (x : α)
    (h : (l ++ List.replicate n none).getD i none = some x) : l.getD i none = some x := by
  by_cases hi : i < l.length
  · rw [List.getD_eq_getElem?_getD, List.getElem?_append_left hi] at h
    rw [List.getD_eq_getElem?_getD]
    exact h
  · exfalso
    rw [List.getD_eq_getElem?_getD, List.getElem?_append_right (not_lt.mp hi)] at h
    by_cases hi2 : i - l.length < n
    · rw [List.getElem?_replicate, if_pos hi2] at h
      cases h
    · rw [List.getElem?_replicate, if_neg hi2] at h
      cases h

theorem getD_append_singleton_some {α : Type} (l : List (Option α)) (a : Option α) (i : Nat)
    (x : α) (h : (l ++ [a]).getD i none = some x) :
    (i < l.length ∧ l.getD i none = some x) ∨ (i = l.length ∧ a = some x) := by
  rcases Nat.lt_trichotomy i l.length with hlt | heq | hgt
  · left
    refine ⟨hlt, ?_⟩
    rw [List.getD_eq_getElem?_getD, List.getElem?_append_left hlt] at h
    rw [List.getD_eq_getElem?_getD]
    exact h
  · right
    subst heq
    rw [getD_append_length] at h
    exact ⟨rfl, h⟩
  · exfalso
    rw [List.getD_eq_default] at h
    · cases h
    · rw [List.length_append, List.length_singleton]
      omega

/-- Creating one polygon keeps the invariants; each of its cut vertices is wired
to the point recorded for its key. -/
theorem createPoly_inv {gdp0 : GU_Detail} {org nml : UT_Vector3} (hwf : gdp0.wellFormed = true)
    (pr : Nat) (w : WalkState) (st : RebuildState) (i : Nat)
    (hinv : RebuildInv gdp0 org nml st) (hnp : NewPrimsWired gdp0 st)
    (hN : 0 < w.vert0s.length)
    (hw : ∀ idx < w.vert0s.length, EntryOK gdp0 org nml pr
      (w.vert0s.getD idx 0, w.vert1s.getD idx none, w.dists.getD idx 0)) :
    RebuildInv gdp0 org nml (createPoly w st i) ∧ NewPrimsWired gdp0 (createPoly w st i) ∧
    (createPoly w st i).gdp.primitives.length = st.gdp.primitives.length + 1 ∧
    (∀ kv ∈ (createPoly w st i).cuts, kv ∈ st.cuts ∨ kv.1 ∈ crossedEdges gdp0 org nml pr) ∧
    ∀ v < newPolyVertexCount w i, ∀ v1,
      w.vert1s.getD ((w.poly_start_pos.getD i 0 + v) % w.vert0s.length) none = some v1 →
      CutWired st.gdp.primitives.length (st.gdp.primitives.length + 1) (createPoly w st i)
        (gdp0.vertexPoint
          (w.vert0s.getD ((w.poly_start_pos.getD i 0 + v) % w.vert0s.length) 0),
         gdp0.vertexPoint v1) := by
  have hlen0 : gdp0.vertices.length ≤ st.gdp.vertices.length := hinv.vertices_ext.length_le
  have key := foldl_range_induction
    (setVertex w (w.poly_start_pos.getD i 0) w.vert0s.length st.gdp.vertices.length)
    (⟨st.gdp.appendPrimitivesAndVertices (newPolyVertexCount w i), st.cuts⟩ : RebuildState)
    (newPolyVertexCount w i)
    (fun k s => RebuildInv gdp0 org nml s ∧
      s.gdp.primitives = st.gdp.primitives ++
        [some ⟨GA_PRIMPOLY, true,
          (List.range (newPolyVertexCount w i)).map (st.gdp.vertices.length + ·)⟩] ∧
      s.gdp.vertices.length = st.gdp.vertices.length + newPolyVertexCount w i ∧
      st.gdp.vertices <+: s.gdp.vertices ∧
      (∀ kv ∈ s.cuts, kv ∈ st.cuts ∨ kv.1 ∈ crossedEdges gdp0 org nml pr) ∧
      ∀ j < k, ∃ p, s.gdp.vertices.getD (st.gdp.vertices.length + j) none = some p ∧
        ∀ v1, w.vert1s.getD ((w.poly_start_pos.getD i 0 + j) % w.vert0s.length) none = some v1 →
          s.cuts.lookup (gdp0.vertexPoint
            (w.vert0s.getD ((w.poly_start_pos.getD i 0 + j) % w.vert0s.length) 0),
            gdp0.vertexPoint v1) = some p)
    ?_ ?_
  · obtain ⟨h1, h2, h3, h4, h5, h6⟩ := key
    have hcp : createPoly w st i = (List.range (newPolyVertexCount w i)).foldl
        (setVertex w (w.poly_start_pos.getD i 0) w.vert0s.length st.gdp.vertices.length)
        (⟨st.gdp.appendPrimitivesAndVertices (newPolyVertexCount w i), st.cuts⟩ :
          RebuildState) := rfl
    rw [hcp]
    refine ⟨h1, ?_, ?_, h5, ?_⟩
    · intro q P hq hP
      rw [h2] at hP
      rcases getD_append_singleton_some _ _ _ _ hP with ⟨_, hold⟩ | ⟨_, hnew⟩
      · obtain ⟨a, b, c⟩ := hnp q P hq hold
        refine ⟨a, b, fun v hv => ?_⟩
        obtain ⟨c1, p, c2⟩ := c v hv
        exact ⟨c1, p, getD_some_of_isPrefix h4 c2⟩
      · cases hnew
        refine ⟨rfl, rfl, fun v hv => ?_⟩
        simp only [List.mem_map, List.mem_range] at hv
        obtain ⟨j, hj, rfl⟩ := hv
        obtain ⟨p, hp, _⟩ := h6 j hj
        exact ⟨le_trans hlen0 (Nat.le_add_right _ _), p, hp⟩
    · rw [h2, List.length_append, List.length_singleton]
    · intro v hv v1 hv1
      obtain ⟨p, hp, hl⟩ := h6 v hv
      refine ⟨st.gdp.primitives.length, st.gdp.vertices.length + v, p, le_refl _,
        Nat.lt_succ_self _, ?_, hp, hl v1 hv1⟩
      unfold GU_Detail.primVertices
      rw [h2, getD_append_length]
      simp only [List.mem_map, List.mem_range]
      exact ⟨v, hv, rfl⟩
  · refine ⟨?_, rfl, ?_, List.prefix_append _ _, fun kv hkv => Or.inl hkv, ?_⟩
    · exact
        { points_ext := hinv.points_ext
          vertices_ext := hinv.vertices_ext.trans (List.prefix_append _ _)
          prims_ext := hinv.prims_ext.trans (List.prefix_append _ _)
          points_length := hinv.points_length
          keys_nodup := hinv.keys_nodup
          vals_nodup := hinv.vals_nodup
          cut_ok := hinv.cut_ok
          new_wired := by
            intro u p hu hup
            exact hinv.new_wired u p hu (getD_append_replicate_none _ _ _ _ hup) }
    · show (st.gdp.vertices ++ List.replicate _ none).length = _
      rw [List.length_append, List.length_replicate]
    · intro j hj
      exact absurd hj (Nat.not_lt_zero _)
  · intro k s hk ⟨h1, h2, h3, h4, h5, h6⟩
    have hidx : (w.poly_start_pos.getD i 0 + k) % w.vert0s.length < w.vert0s.length :=
      Nat.mod_lt _ hN
    obtain ⟨a1, a2, p, a3, a4⟩ := setVertex_inv hwf pr w (w.poly_start_pos.getD i 0)
      w.vert0s.length st.gdp.vertices.length s k h1
      (le_trans hlen0 (Nat.le_add_right _ _)) (by rw [h3]; omega) (hw _ hidx)
    obtain ⟨b1, ⟨p', b2⟩, _, b4⟩ := setVertex_cases w (w.poly_start_pos.getD i 0)
      w.vert0s.length st.gdp.vertices.length s k
    refine ⟨a1, by rw [b1, h2], by rw [b2, List.length_set, h3], ?_, ?_, ?_⟩
    · rw [b2]
      exact prefix_set_of_le h4 (Nat.le_add_right _ _) _
    · intro kv hkv
      rcases a2 kv hkv with h | h
      · exact h5 kv h
      · exact Or.inr h
    · intro j hj
      rcases Nat.lt_succ_iff_lt_or_eq.mp hj with hlt | heq
      · obtain ⟨q, hq, hl⟩ := h6 j hlt
        refine ⟨q, ?_, fun v1 hv1 => lookup_of_isPrefix b4 (hl v1 hv1)⟩
        rw [b2, getD_set_of_ne _ (by omega)]
        exact hq
      · subst heq
        exact ⟨p, a3, a4⟩

theorem CutWired.mono {lo hi lo' hi' : Nat} {s s' : RebuildState} {K : Nat × Nat}
    (h : CutWired lo hi s K) (hext : StExt s s') (hlo : lo' ≤ lo) (hhi : hi ≤ hi') :
    CutWired lo' hi' s' K := by
  obtain ⟨q, v, p, h1, h2, h3, h4, h5⟩ := h
  refine ⟨q, v, p, le_trans hlo h1, lt_of_lt_of_le h2 hhi, ?_,
    getD_some_of_isPrefix hext.vertices h4, lookup_of_isPrefix hext.cuts h5⟩
  rw [primVertices_of_isPrefix hext.primitives (lt_of_mem_primVertices h3)]
  exact h3

theorem getD_map_of_lt {α β : Type} (l : List α) (f : α → β) (i : Nat) (hi : i < l.length)
    (d : β) : (l.map f).getD i d = f (l.get ⟨i, hi⟩) := by
  rw [List.getD_eq_getElem _ _ (by rw [List.length_map]; exact hi)]
  simp

/-- Rebuilding one partially clipped polygon keeps the invariants and wires a vertex
of one of its new polygons to the cut point of each of its crossed edges. -/
theorem rebuildPoly_inv {gdp0 : GU_Detail} {org nml : UT_Vector3} (hwf : gdp0.wellFormed = true)
    (st : RebuildState) (pr : Nat)
    (hinv : RebuildInv gdp0 org nml st) (hnp : NewPrimsWired gdp0 st)
    (hprl : pr < gdp0.primitives.length)
    (h0 : countClipped gdp0 org nml pr ≠ 0)
    (hn : countClipped gdp0 org nml pr ≠ gdp0.getPrimitiveVertexCount pr) :
    RebuildInv gdp0 org nml (rebuildPoly org nml st pr) ∧
    NewPrimsWired gdp0 (rebuildPoly org nml st pr) ∧
    (rebuildPoly org nml st pr).gdp.primitives.length =
      st.gdp.primitives.length + (walk gdp0 org nml pr).poly_start_pos.length ∧
    (∀ kv ∈ (rebuildPoly org nml st pr).cuts,
      kv ∈ st.cuts ∨ kv.1 ∈ crossedEdges gdp0 org nml pr) ∧
    ∀ K ∈ crossedEdges gdp0 org nml pr,
      CutWired st.gdp.primitives.length (rebuildPoly org nml st pr).gdp.primitives.length
        (rebuildPoly org nml st pr) K := by
  have hwalk : walk st.gdp org nml pr = walk gdp0 org nml pr :=
    walk_of_ext org nml hwf hinv.points_ext hinv.vertices_ext hinv.prims_ext pr hprl
  have hrp : rebuildPoly org nml st pr =
      (List.range (walk gdp0 org nml pr).poly_start_pos.length).foldl
        (createPoly (walk gdp0 org nml pr)) st := by
    unfold rebuildPoly
    simp only [hwalk]
  rw [hrp]
  -- the arrays of the walk
  have hE : ∀ idx, idx < (walk gdp0 org nml pr).vert0s.length →
      ∃ e ∈ walkEntries gdp0 org nml pr (gdp0.getPrimitiveVertexCount pr)
          (gdp0.getPrimitiveVertexCount pr),
        ((walk gdp0 org nml pr).vert0s.getD idx 0, (walk gdp0 org nml pr).vert1s.getD idx none,
          (walk gdp0 org nml pr).dists.getD idx 0) = e := by
    intro idx hidx
    rw [walk_eq] at hidx ⊢
    simp only [List.length_map] at hidx
    refine ⟨_, List.get_mem _ idx hidx, ?_⟩
    simp only []
    rw [getD_map_of_lt _ _ _ hidx, getD_map_of_lt _ _ _ hidx, getD_map_of_lt _ _ _ hidx]
  have hw : ∀ idx < (walk gdp0 org nml pr).vert0s.length, EntryOK gdp0 org nml pr
      ((walk gdp0 org nml pr).vert0s.getD idx 0, (walk gdp0 org nml pr).vert1s.getD idx none,
        (walk gdp0 org nml pr).dists.getD idx 0) := by
    intro idx hidx
    obtain ⟨e, he, heq⟩ := hE idx hidx
    rw [heq]
    exact walkEntries_ok gdp0 org nml pr _ (le_refl _) e he
  obtain ⟨iu, hiu, hup⟩ := exists_upCrossing gdp0 org nml pr h0 hn
  have hSne : (walk gdp0 org nml pr).poly_start_pos ≠ [] := by
    rw [walk_eq]
    exact walkStarts_ne_nil gdp0 org nml pr _ _ iu hiu hup
  have hSlt : ∀ s ∈ (walk gdp0 org nml pr).poly_start_pos,
      s < (walk gdp0 org nml pr).vert0s.length := by
    rw [walk_eq]
    simp only [List.length_map]
    exact walkStarts_lt gdp0 org nml pr _ _
  have hSpw : (walk gdp0 org nml pr).poly_start_pos.Pairwise (· < ·) := by
    rw [walk_eq]
    exact walkStarts_pairwise gdp0 org nml pr _ _
  have hN : 0 < (walk gdp0 org nml pr).vert0s.length := by
    obtain ⟨s, hs⟩ := List.exists_mem_of_ne_nil _ hSne
    exact Nat.lt_of_le_of_lt (Nat.zero_le _) (hSlt s hs)
  have key := foldl_range_induction (createPoly (walk gdp0 org nml pr)) st
    (walk gdp0 org nml pr).poly_start_pos.length
    (fun k s => RebuildInv gdp0 org nml s ∧ NewPrimsWired gdp0 s ∧ StExt st s ∧
      s.gdp.primitives.length = st.gdp.primitives.length + k ∧
      (∀ kv ∈ s.cuts, kv ∈ st.cuts ∨ kv.1 ∈ crossedEdges gdp0 org nml pr) ∧
      ∀ i < k, ∀ v < newPolyVertexCount (walk gdp0 org nml pr) i, ∀ v1,
        (walk gdp0 org nml pr).vert1s.getD
          (((walk gdp0 org nml pr).poly_start_pos.getD i 0 + v) %
            (walk gdp0 org nml pr).vert0s.length) none = some v1 →
        CutWired st.gdp.primitives.length s.gdp.primitives.length s
          (gdp0.vertexPoint ((walk gdp0 org nml pr).vert0s.getD
            (((walk gdp0 org nml pr).poly_start_pos.getD i 0 + v) %
              (walk gdp0 org nml pr).vert0s.length) 0),
           gdp0.vertexPoint v1))
    ⟨hinv, hnp, StExt.refl _, rfl, fun kv hkv => Or.inl hkv,
      fun i hi => absurd hi (Nat.not_lt_zero _)⟩ ?_
  · obtain ⟨h1, h2, _, h4, h5, h6⟩ := key
    refine ⟨h1, h2, h4, h5, ?_⟩
    intro K hK
    unfold crossedEdges at hK
    rw [List.mem_map] at hK
    obtain ⟨i0, hi0, rfl⟩ := hK
    rw [List.mem_filter, List.mem_range] at hi0
    obtain ⟨e, he, v1, hv1, hkey⟩ := walkEntries_crossed gdp0 org nml pr i0 hi0.1 hi0.2
    obtain ⟨idx, hidx, hget⟩ := List.getElem_of_mem he
    have hidx' : idx < (walk gdp0 org nml pr).vert0s.length := by
      rw [walk_eq]
      simpa using hidx
    obtain ⟨i, hi, v, hv, hmod⟩ := loop_coverage _ _ hSne hSpw hSlt idx hidx'
    rw [← newPolyVertexCount_eq] at hv
    have e0 : (walk gdp0 org nml pr).vert0s.getD idx 0 = e.1 := by
      rw [walk_eq]
      simp only []
      rw [getD_map_of_lt _ _ _ hidx]
      exact congrArg _ hget
    have e1 : (walk gdp0 org nml pr).vert1s.getD idx none = some v1 := by
      rw [walk_eq]
      simp only []
      rw [getD_map_of_lt _ _ _ hidx, ← hv1]
      exact congrArg (fun e => e.2.1) hget
    have := h6 i hi v hv v1 (by rw [hmod]; exact e1)
    rw [hmod, e0, hkey] at this
    exact this
  · intro k s hk ⟨h1, h2, h3, h4, h5, h6⟩
    obtain ⟨a1, a2, a3, a4, a5⟩ := createPoly_inv hwf pr (walk gdp0 org nml pr) s k h1 h2 hN hw
    have hext := createPoly_ext (walk gdp0 org nml pr) s k
    refine ⟨a1, a2, h3.trans hext, by rw [a3, h4]; omega, ?_, ?_⟩
    · intro kv hkv
      rcases a4 kv hkv with h | h
      · exact h5 kv h
      · exact Or.inr h
    · intro i hi v hv v1 hv1
      rcases Nat.lt_succ_iff_lt_or_eq.mp hi with hlt | heq
      · exact (h6 i hlt v hv v1 hv1).mono hext (le_refl _) (by rw [a3]; omega)
      · subst heq
        exact (a5 v hv v1 hv1).mono (StExt.refl _) (by rw [h4]; omega) (by rw [a3])

theorem lt_of_mem_getPrimitiveRange {gdp : GU_Detail} {group : Option (List Nat)} {pr : Nat}
    (h : pr ∈ gdp.getPrimitiveRange group) : pr < gdp.primitives.length := by
  unfold GU_Detail.getPrimitiveRange at h
  rw [List.mem_filter, List.mem_range] at h
  exact h.1

theorem partialPolys_scan (gdp : GU_Detail) (org nml : UT_Vector3) (group : Option (List Nat)) :
    PartialPolys gdp org nml (scan gdp org nml group).clipped_polys := by
  intro pr h
  rw [mem_clipped_polys] at h
  exact ⟨lt_of_mem_getPrimitiveRange h.1, h.2.2.1, h.2.2.2⟩

theorem foldl_rebuildPoly_inv {gdp0 : GU_Detail} {org nml : UT_Vector3}
    (hwf : gdp0.wellFormed = true) (l : List Nat) (hl : PartialPolys gdp0 org nml l) :
    ∀ st, RebuildInv gdp0 org nml st → NewPrimsWired gdp0 st →
      RebuildInv gdp0 org nml (l.foldl (rebuildPoly org nml) st) ∧
      NewPrimsWired gdp0 (l.foldl (rebuildPoly org nml) st) ∧
      (∀ kv ∈ (l.foldl (rebuildPoly org nml) st).cuts,
        kv ∈ st.cuts ∨ kv.1 ∈ l.flatMap (crossedEdges gdp0 org nml)) ∧
      ∀ K ∈ l.flatMap (crossedEdges gdp0 org nml),
        K ∈ (l.foldl (rebuildPoly org nml) st).cuts.map Prod.fst := by
  induction l with
  | nil =>
    intro st h1 h2
    exact ⟨h1, h2, fun kv hkv => Or.inl hkv, fun K hK => by simp at hK⟩
  | cons pr l ih =>
    intro st h1 h2
    obtain ⟨hprl, hc0, hcn⟩ := hl pr (List.mem_cons_self _ _)
    obtain ⟨a1, a2, _, a4, a5⟩ := rebuildPoly_inv hwf st pr h1 h2 hprl hc0 hcn
    obtain ⟨b1, b2, b3, b4⟩ := ih (fun q hq => hl q (List.mem_cons_of_mem _ hq)) _ a1 a2
    rw [List.foldl_cons]
    refine ⟨b1, b2, ?_, ?_⟩
    · intro kv hkv
      rw [List.flatMap_cons, List.mem_append]
      rcases b3 kv hkv with h | h
      · rcases a4 kv h with h' | h'
        · exact Or.inl h'
        · exact Or.inr (Or.inl h')
      · exact Or.inr (Or.inr h)
    · intro K hK
      rw [List.flatMap_cons, List.mem_append] at hK
      rcases hK with h | h
      · obtain ⟨q, v, p, _, _, _, _, hlook⟩ := a5 K h
        have hext := foldl_rebuildPoly_ext org nml l (rebuildPoly org nml st pr)
        exact lookup_isSome_mem_keys (lookup_of_isPrefix hext.cuts hlook)
      · exact b4 K h

theorem newPrimsWired_init (gdp0 : GU_Detail) : NewPrimsWired gdp0 ⟨gdp0, []⟩ := by
  intro q P hq hP
  exact absurd (lt_length_of_getD_some hP) (not_lt.mpr hq)

theorem rebuild_inv {gdp0 : GU_Detail} {org nml : UT_Vector3}
    (hwf : gdp0.wellFormed = true) (l : List Nat) (hl : PartialPolys gdp0 org nml l) :
    RebuildInv gdp0 org nml (rebuild gdp0 org nml l) ∧
    NewPrimsWired gdp0 (rebuild gdp0 org nml l) ∧
    (∀ kv ∈ (rebuild gdp0 org nml l).cuts, kv.1 ∈ l.flatMap (crossedEdges gdp0 org nml)) ∧
    ∀ K ∈ l.flatMap (crossedEdges gdp0 org nml),
      K ∈ (rebuild gdp0 org nml l).cuts.map Prod.fst := by
  obtain ⟨a, b, c, d⟩ := foldl_rebuildPoly_inv hwf l hl ⟨gdp0, []⟩
    (RebuildInv.init gdp0 org nml) (newPrimsWired_init gdp0)
  refine ⟨a, b, ?_, d⟩
  intro kv hkv
  rcases c kv hkv with h | h
  · exact absurd h (List.not_mem_nil _)
  · exact h

theorem rebuild_append (gdp0 : GU_Detail) (org nml : UT_Vector3) (l1 l2 : List Nat) :
    rebuild gdp0 org nml (l1 ++ l2) =
      l2.foldl (rebuildPoly org nml) (rebuild gdp0 org nml l1) := by
  unfold rebuild
  rw [List.foldl_append]

/-- In the final state, each crossed edge of each rebuilt polygon has a vertex of one
of the polygons created for it wired to the point of its key. -/
theorem rebuild_cutWired {gdp0 : GU_Detail} {org nml : UT_Vector3}
    (hwf : gdp0.wellFormed = true) (l1 l2 : List Nat) (pr : Nat)
    (hl : PartialPolys gdp0 org nml (l1 ++ pr :: l2)) :
    ∀ K ∈ crossedEdges gdp0 org nml pr,
      CutWired (rebuild gdp0 org nml l1).gdp.primitives.length
        (rebuild gdp0 org nml (l1 ++ [pr])).gdp.primitives.length
        (rebuild gdp0 org nml (l1 ++ pr :: l2)) K := by
  intro K hK
  have hl1 : PartialPolys gdp0 org nml l1 := fun q hq => hl q (List.mem_append_left _ hq)
  obtain ⟨a, b, _, _⟩ := rebuild_inv hwf l1 hl1
  obtain ⟨hprl, hc0, hcn⟩ := hl pr (List.mem_append_right _ (List.mem_cons_self _ _))
  obtain ⟨_, _, _, _, a5⟩ := rebuildPoly_inv hwf _ pr a b hprl hc0 hcn
  have e1 : rebuild gdp0 org nml (l1 ++ [pr]) =
      rebuildPoly org nml (rebuild gdp0 org nml l1) pr := by
    rw [rebuild_append]; rfl
  have e2 : rebuild gdp0 org nml (l1 ++ pr :: l2) =
      l2.foldl (rebuildPoly org nml) (rebuildPoly org nml (rebuild gdp0 org nml l1) pr) := by
    rw [rebuild_append]; rfl
  rw [e1, e2]
  exact (a5 K hK).mono (foldl_rebuildPoly_ext org nml l2 _) (le_refl _) (le_refl _)

/-- One point is appended per distinct unordered pair of a crossed edge. -/
theorem rebuild_points_length {gdp0 : GU_Detail} {org nml : UT_Vector3}
    (hwf : gdp0.wellFormed = true) (l : List Nat) (hl : PartialPolys gdp0 org nml l) :
    (rebuild gdp0 org nml l).gdp.points.length =
      gdp0.points.length + (l.flatMap (crossedEdges gdp0 org nml)).toFinset.card := by
  obtain ⟨a, _, c, d⟩ := rebuild_inv hwf l hl
  rw [a.points_length]
  congr 1
  have e : (l.flatMap (crossedEdges gdp0 org nml)).toFinset =
      ((rebuild gdp0 org nml l).cuts.map Prod.fst).toFinset := by
    ext K
    rw [List.mem_toFinset, List.mem_toFinset]
    constructor
    · exact d K
    · intro h
      obtain ⟨kv, hkv, rfl⟩ := List.mem_map.1 h
      exact c kv hkv
  rw [e, List.toFinset_card_of_nodup a.keys_nodup, List.length_map]

theorem getD_enum_map_none {α : Type} (l : List (Option α)) (c : Nat → Prop) [DecidablePred c]
    (i : Nat) :
    (l.enum.map fun ia => if c ia.1 then none else ia.2).getD i none =
      if c i then none else l.getD i none := by
  rw [getD_enum_map, List.getD_eq_getElem?_getD]
  cases l[i]? with
  | none => simp
  | some a => rfl

theorem destroy_primitives_getD (g : GU_Detail) (rm : List Nat) (q : Nat) :
    (g.destroyPrimitiveOffsets rm).primitives.getD q none =
      if q ∈ rm then none else g.primitives.getD q none :=
  getD_enum_map_none g.primitives (· ∈ rm) q

theorem destroy_vertices_getD (g : GU_Detail) (rm : List Nat) (v : Nat) :
    (g.destroyPrimitiveOffsets rm).vertices.getD v none =
      if v ∈ g.deadVertices rm then none else g.vertices.getD v none :=
  getD_enum_map_none g.vertices (· ∈ g.deadVertices rm) v

theorem destroy_points_getD (g : GU_Detail) (rm : List Nat) (p : Nat) :
    (g.destroyPrimitiveOffsets rm).points.getD p none =
      if p ∈ g.deadPointCandidates rm ∧ some p ∉ g.verticesAfterDestroy rm then none
      else g.points.getD p none :=
  getD_enum_map_none g.points
    (fun p => p ∈ g.deadPointCandidates rm ∧ some p ∉ g.verticesAfterDestroy rm) p

theorem destroy_points_length (g : GU_Detail) (rm : List Nat) :
    (g.destroyPrimitiveOffsets rm).points.length = g.points.length := by
  simp [GU_Detail.destroyPrimitiveOffsets]

theorem destroy_primitives_length (g : GU_Detail) (rm : List Nat) :
    (g.destroyPrimitiveOffsets rm).primitives.length = g.primitives.length := by
  simp [GU_Detail.destroyPrimitiveOffsets]

theorem mem_of_getD_some {α : Type} {l : List (Option α)} {i : Nat} {x : α}
    (h : l.getD i none = some x) : some x ∈ l := by
  have hi := lt_length_of_getD_some h
  rw [List.getD_eq_getElem _ _ hi] at h
  rw [← h]
  exact List.getElem_mem _

theorem exists_getD_of_mem {α : Type} {l : List (Option α)} {x : α} (h : some x ∈ l) :
    ∃ i, l.getD i none = some x := by
  obtain ⟨i, hi, hx⟩ := List.getElem_of_mem h
  exact ⟨i, by rw [List.getD_eq_getElem _ _ hi, hx]⟩

theorem mem_verticesAfterDestroy (g : GU_Detail) (rm : List Nat) (p : Nat) :
    some p ∈ g.verticesAfterDestroy rm ↔
      ∃ v, v ∉ g.deadVertices rm ∧ g.vertices.getD v none = some p := by
  have e : ∀ v, (g.verticesAfterDestroy rm).getD v none =
      if v ∈ g.deadVertices rm then none else g.vertices.getD v none :=
    fun v => getD_enum_map_none g.vertices (· ∈ g.deadVertices rm) v
  constructor
  · intro h
    obtain ⟨v, hv⟩ := exists_getD_of_mem h
    rw [e] at hv
    by_cases hd : v ∈ g.deadVertices rm
    · rw [if_pos hd] at hv; cases hv
    · rw [if_neg hd] at hv; exact ⟨v, hd, hv⟩
  · rintro ⟨v, hd, hv⟩
    apply mem_of_getD_some (i := v)
    rw [e, if_neg hd]
    exact hv

theorem mem_deadVertices (g : GU_Detail) (rm : List Nat) (v : Nat) :
    v ∈ g.deadVertices rm ↔ ∃ pr ∈ rm, v ∈ g.primVertices pr := by
  unfold GU_Detail.deadVertices
  rw [List.mem_flatMap]

theorem mem_deadPointCandidates (g : GU_Detail) (rm : List Nat) (p : Nat) :
    p ∈ g.deadPointCandidates rm ↔
      ∃ v ∈ g.deadVertices rm, g.vertices.getD v none = some p := by
  unfold GU_Detail.deadPointCandidates
  rw [List.mem_filterMap]

/-- A point survives the destruction exactly when it was not used by a destroyed
primitive or is still referenced by a remaining vertex. -/
theorem destroy_points_getD_eq (g : GU_Detail) (rm : List Nat) (p : Nat)
    (h : p ∉ g.deadPointCandidates rm ∨
      ∃ v, v ∉ g.deadVertices rm ∧ g.vertices.getD v none = some p) :
    (g.destroyPrimitiveOffsets rm).points.getD p none = g.points.getD p none := by
  rw [destroy_points_getD, if_neg]
  rintro ⟨h1, h2⟩
  rcases h with h | h
  · exact h h1
  · exact h2 ((mem_verticesAfterDestroy g rm p).2 h)

theorem destroy_vertexPoint (g : GU_Detail) (rm : List Nat) (v : Nat)
    (h : v ∉ g.deadVertices rm) :
    (g.destroyPrimitiveOffsets rm).vertexPoint v = g.vertexPoint v := by
  unfold GU_Detail.vertexPoint
  rw [destroy_vertices_getD, if_neg h]

theorem destroy_primVertices (g : GU_Detail) (rm : List Nat) (q : Nat) (h : q ∉ rm) :
    (g.destroyPrimitiveOffsets rm).primVertices q = g.primVertices q := by
  unfold GU_Detail.primVertices
  rw [destroy_primitives_getD, if_neg h]

theorem lt_of_mem_rm_polys {gdp : GU_Detail} {org nml : UT_Vector3} {group : Option (List Nat)}
    {pr : Nat} (h : pr ∈ (scan gdp org nml group).rm_polys) : pr < gdp.primitives.length :=
  lt_of_mem_getPrimitiveRange (mem_rm_polys.1 h).1

/-- The vertices the cook destroys are the vertices of the removed primitives of the
input detail. -/
theorem cook_mem_deadVertices {gdp : GU_Detail} {org nml : UT_Vector3}
    {group : Option (List Nat)} {st : RebuildState}
    (hext : gdp.primitives <+: st.gdp.primitives) (v : Nat) :
    v ∈ st.gdp.deadVertices (scan gdp org nml group).rm_polys ↔
      ∃ pr ∈ (scan gdp org nml group).rm_polys, v ∈ gdp.primVertices pr := by
  rw [mem_deadVertices]
  constructor
  · rintro ⟨pr, hpr, hv⟩
    rw [primVertices_of_isPrefix hext (lt_of_mem_rm_polys hpr)] at hv
    exact ⟨pr, hpr, hv⟩
  · rintro ⟨pr, hpr, hv⟩
    refine ⟨pr, hpr, ?_⟩
    rw [primVertices_of_isPrefix hext (lt_of_mem_rm_polys hpr)]
    exact hv

theorem cook_dead_lt {gdp : GU_Detail} {org nml : UT_Vector3}
    {group : Option (List Nat)} {st : RebuildState} (hwf : gdp.wellFormed = true)
    (hext : gdp.primitives <+: st.gdp.primitives) {v : Nat}
    (hv : v ∈ st.gdp.deadVertices (scan gdp org nml group).rm_polys) :
    v < gdp.vertices.length := by
  obtain ⟨pr, _, h⟩ := (cook_mem_deadVertices hext v).1 hv
  exact wf_vertex_lt hwf h

theorem cook_deadPoint_lt {gdp : GU_Detail} {org nml : UT_Vector3}
    {group : Option (List Nat)} {st : RebuildState} (hwf : gdp.wellFormed = true)
    (hext : gdp.primitives <+: st.gdp.primitives) (hvext : gdp.vertices <+: st.gdp.vertices)
    {p : Nat} (hp : p ∈ st.gdp.deadPointCandidates (scan gdp org nml group).rm_polys) :
    p < gdp.points.length := by
  obtain ⟨v, hv, hvp⟩ := (mem_deadPointCandidates _ _ _).1 hp
  obtain ⟨pr, _, h⟩ := (cook_mem_deadVertices hext v).1 hv
  obtain ⟨pt, hpt, hlt⟩ := wf_vertex hwf h
  rw [getD_some_of_isPrefix hvext hpt] at hvp
  cases hvp
  exact hlt

theorem lookup_of_mem_keys {α β : Type} [BEq α] [LawfulBEq α] {l : List (α × β)} {k : α}
    (h : k ∈ l.map Prod.fst) : ∃ c, l.lookup k = some c := by
  cases hl : l.lookup k with
  | none => exact absurd h (lookup_none_not_mem hl)
  | some c => exact ⟨c, rfl⟩

theorem key_eq_of_vals_nodup {α β : Type} {l : List (α × β)} (hnd : (l.map Prod.snd).Nodup)
    {k k' : α} {c : β} (h : (k, c) ∈ l) (h' : (k', c) ∈ l) : k = k' := by
  have := List.inj_on_of_nodup_map hnd h h' rfl
  exact congrArg Prod.fst this

/-- C1: a well-formed detail is clipped with one new point per distinct unordered
pair of points of a crossed edge of a reconstructed polygon: the point table grows
by the number of these pairs; each pair `K` has its own new point `cutOf K`, present
in the output at the position of the cut; and for every reconstructed polygon and
each of its crossed edges, one of the polygons created for it has a vertex wired to
the point of the pair of that edge, whichever polygon the edge is met in and in
whichever direction. -/
theorem C1_shared_edge_consistency (gdp : GU_Detail) (org nml : UT_Vector3)
    (group : Option (List Nat)) (hwf : gdp.wellFormed = true) :
    ∃ cutOf : Nat × Nat → Nat,
      (cookWithGroup gdp org nml group).points.length =
        gdp.points.length +
          ((scan gdp org nml group).clipped_polys.flatMap
            (crossedEdges gdp org nml)).toFinset.card ∧
      (∀ K ∈ (scan gdp org nml group).clipped_polys.flatMap (crossedEdges gdp org nml),
        gdp.points.length ≤ cutOf K ∧
        (cookWithGroup gdp org nml group).points.getD (cutOf K) none =
          some (cutPos gdp org nml K)) ∧
      (∀ K ∈ (scan gdp org nml group).clipped_polys.flatMap (crossedEdges gdp org nml),
        ∀ K' ∈ (scan gdp org nml group).clipped_polys.flatMap (crossedEdges gdp org nml),
          cutOf K = cutOf K' → K = K') ∧
      ∀ l1 pr l2, (scan gdp org nml group).clipped_polys = l1 ++ pr :: l2 →
        ∀ i < gdp.getPrimitiveVertexCount pr, isCrossed gdp org nml pr i = true →
          ∃ q v, (rebuild gdp org nml l1).gdp.primitives.length ≤ q ∧
            q < (rebuild gdp org nml (l1 ++ [pr])).gdp.primitives.length ∧
            v ∈ (cookWithGroup gdp org nml group).primVertices q ∧
            (cookWithGroup gdp org nml group).vertices.getD v none =
              some (cutOf (edgeKey (primPoint gdp pr i)
                (primPoint gdp pr ((i + 1) % gdp.getPrimitiveVertexCount pr)))) := by
  have hl := partialPolys_scan gdp org nml group
  obtain ⟨hinv, hnp, hsub, hsup⟩ := rebuild_inv hwf _ hl
  have hout : cookWithGroup gdp org nml group =
      (rebuild gdp org nml (scan gdp org nml group).clipped_polys).gdp.destroyPrimitiveOffsets
        (scan gdp org nml group).rm_polys := rfl
  have hnewpt : ∀ p, gdp.points.length ≤ p →
      (cookWithGroup gdp org nml group).points.getD p none =
        (rebuild gdp org nml (scan gdp org nml group).clipped_polys).gdp.points.getD p none := by
    intro p hp
    rw [hout]
    apply destroy_points_getD_eq
    left
    intro hc
    exact absurd (cook_deadPoint_lt hwf hinv.prims_ext hinv.vertices_ext hc) (not_lt.mpr hp)
  refine ⟨fun K => ((rebuild gdp org nml (scan gdp org nml group).clipped_polys).cuts.lookup
    K).getD 0, ?_, ?_, ?_, ?_⟩
  · rw [hout, destroy_points_length]
    exact rebuild_points_length hwf _ hl
  · intro K hK
    obtain ⟨c, hc⟩ := lookup_of_mem_keys (hsup K hK)
    obtain ⟨h1, h2, _⟩ := hinv.cut_ok _ (lookup_mem hc)
    simp only [hc, Option.getD_some]
    exact ⟨h1, by rw [hnewpt c h1]; exact h2⟩
  · intro K hK K' hK' heq
    obtain ⟨c, hc⟩ := lookup_of_mem_keys (hsup K hK)
    obtain ⟨c', hc'⟩ := lookup_of_mem_keys (hsup K' hK')
    simp only [hc, hc', Option.getD_some] at heq
    subst heq
    exact key_eq_of_vals_nodup hinv.vals_nodup (lookup_mem hc) (lookup_mem hc')
  · intro l1 pr l2 hdec i hi hcr
    have hl' : PartialPolys gdp org nml (l1 ++ pr :: l2) := by rw [← hdec]; exact hl
    have hK := mem_crossedEdges_of_crossed gdp org nml pr i hi hcr
    obtain ⟨q, v, p, h1, h2, h3, h4, h5⟩ := rebuild_cutWired hwf l1 l2 pr hl' _ hK
    rw [← hdec] at h3 h4 h5
    have hq0 : gdp.primitives.length ≤ q := by
      have := (rebuild_inv hwf l1 (fun x hx => hl' x (List.mem_append_left _ hx))).1.prims_ext
      exact le_trans this.length_le h1
    have hqrm : q ∉ (scan gdp org nml group).rm_polys :=
      fun h => absurd (lt_of_mem_rm_polys h) (not_lt.mpr hq0)
    have hv0 : gdp.vertices.length ≤ v := by
      unfold GU_Detail.primVertices at h3
      cases hP : (rebuild gdp org nml (scan gdp org nml group).clipped_polys).gdp.primitives.getD
          q none with
      | none => rw [hP] at h3; exact absurd h3 (List.not_mem_nil _)
      | some P =>
        rw [hP] at h3
        exact ((hnp q P hq0 hP).2.2 v h3).1
    have hvd : v ∉ (rebuild gdp org nml (scan gdp org nml group).clipped_polys).gdp.deadVertices
        (scan gdp org nml group).rm_polys :=
      fun h => absurd (cook_dead_lt hwf hinv.prims_ext h) (not_lt.mpr hv0)
    refine ⟨q, v, h1, h2, ?_, ?_⟩
    · rw [hout, destroy_primVertices _ _ _ hqrm]
      exact h3
    · rw [hout, destroy_vertices_getD, if_neg hvd, h4]
      simp only [h5, Option.getD_some]

theorem countClipped_ne_zero_of_vertex {gdp : GU_Detail} {org nml : UT_Vector3} {pr v : Nat}
    (hv : v ∈ gdp.primVertices pr) (hc : isClipped gdp org nml (gdp.vertexPoint v) = true) :
    countClipped gdp org nml pr ≠ 0 := by
  intro h0
  rw [countClipped_eq_zero_iff] at h0
  obtain ⟨i, hi, rfl⟩ := (mem_primVertices_iff gdp pr v).1 hv
  rw [h0 i hi] at hc
  cases hc

theorem vertexPoint_of_getD {gdp : GU_Detail} {v p : Nat}
    (h : gdp.vertices.getD v none = some p) : gdp.vertexPoint v = p := by
  unfold GU_Detail.vertexPoint
  rw [h]
  rfl

theorem getPos3_of_getD {gdp : GU_Detail} {p : Nat} {pos : UT_Vector3}
    (h : gdp.points.getD p none = some pos) : gdp.getPos3 p = pos := by
  unfold GU_Detail.getPos3
  rw [h]
  rfl

theorem isClipped_eq_false_iff (gdp : GU_Detail) (org nml : UT_Vector3) (p : Nat) :
    isClipped gdp org nml p = false ↔ 0 ≤ dot nml (gdp.getPos3 p - org) := by
  unfold isClipped isClippedPos
  simp

/-- A point created for a cut is not clipped. -/
theorem cut_point_not_clipped {gdp0 : GU_Detail} {org nml : UT_Vector3} {st : RebuildState}
    (hinv : RebuildInv gdp0 org nml st) {p : Nat} (hp : p ∈ st.cuts.map Prod.snd) :
    isClipped st.gdp org nml p = false := by
  obtain ⟨kv, hkv, rfl⟩ := List.mem_map.1 hp
  obtain ⟨_, h2, h3⟩ := hinv.cut_ok kv hkv
  rw [isClipped_eq_false_iff, getPos3_of_getD h2]
  unfold cutPos clippedDist
  rw [dot_lerp_clippedDistPos]
  exact h3

/-- Every vertex created by the reconstruction is wired, if at all, to a point that
is not clipped. -/
theorem new_vertex_not_clipped {gdp0 : GU_Detail} {org nml : UT_Vector3} {st : RebuildState}
    (hinv : RebuildInv gdp0 org nml st) {v p : Nat} (hv : gdp0.vertices.length ≤ v)
    (hvp : st.gdp.vertices.getD v none = some p) :
    isClipped st.gdp org nml p = false := by
  rcases hinv.new_wired v p hv hvp with ⟨h1, h2⟩ | h
  · rw [isClipped_of_isPrefix org nml hinv.points_ext h1]
    exact h2
  · exact cut_point_not_clipped hinv h

/-- After the cook of a well-formed detail, a point that is present and on the
negative side of the plane either is referenced by no candidate closed polygon of
the input, or is still referenced by a vertex of the input that belongs to no
candidate closed polygon. -/
theorem cook_negative_point (gdp : GU_Detail) (org nml : UT_Vector3)
    (group : Option (List Nat)) (hwf : gdp.wellFormed = true) (p : Nat) (pos : UT_Vector3)
    (hp : (cookWithGroup gdp org nml group).points.getD p none = some pos) :
    0 ≤ dot nml (pos - org) ∨
    (∀ pr ∈ gdp.getPrimitiveRange group, isClosedPoly gdp pr = true →
      ∀ v ∈ gdp.primVertices pr, gdp.vertices.getD v none ≠ some p) ∨
    ∃ v, gdp.vertices.getD v none = some p ∧
      (cookWithGroup gdp org nml group).vertices.getD v none = some p ∧
      ∀ pr ∈ gdp.getPrimitiveRange group, isClosedPoly gdp pr = true →
        v ∉ gdp.primVertices pr := by
  have hl := partialPolys_scan gdp org nml group
  obtain ⟨hinv, hnp, _, _⟩ := rebuild_inv hwf _ hl
  have hout : cookWithGroup gdp org nml group =
      (rebuild gdp org nml (scan gdp org nml group).clipped_polys).gdp.destroyPrimitiveOffsets
        (scan gdp org nml group).rm_polys := rfl
  by_cases hdot : 0 ≤ dot nml (pos - org)
  · exact Or.inl hdot
  right
  by_cases href : ∀ pr ∈ gdp.getPrimitiveRange group, isClosedPoly gdp pr = true →
      ∀ v ∈ gdp.primVertices pr, gdp.vertices.getD v none ≠ some p
  · exact Or.inl href
  right
  push_neg at href
  obtain ⟨pr, hpr, hcl, u, hu, hup⟩ := href
  -- the point is a point of the input, with the same position
  have hplt : p < gdp.points.length := by
    obtain ⟨pt, hpt, hlt⟩ := wf_vertex hwf hu
    rw [hup] at hpt
    cases hpt
    exact hlt
  rw [hout, destroy_points_getD] at hp
  split_ifs at hp with hdead
  have hp0 : gdp.points.getD p none = some pos := by
    rw [← getD_of_isPrefix hinv.points_ext hplt]
    exact hp
  have hclip : isClipped gdp org nml p = true := by
    by_contra hc
    rw [Bool.not_eq_true, isClipped_eq_false_iff, getPos3_of_getD hp0] at hc
    exact hdot hc
  -- a candidate closed polygon with a vertex wired to it is removed
  have hrm : ∀ pr' ∈ gdp.getPrimitiveRange group, isClosedPoly gdp pr' = true →
      ∀ v ∈ gdp.primVertices pr', gdp.vertices.getD v none = some p →
        v ∈ (rebuild gdp org nml (scan gdp org nml group).clipped_polys).gdp.deadVertices
          (scan gdp org nml group).rm_polys := by
    intro pr' hpr' hcl' v hv hvp
    rw [cook_mem_deadVertices hinv.prims_ext]
    refine ⟨pr', mem_rm_polys.2 ⟨hpr', hcl', ?_⟩, hv⟩
    apply countClipped_ne_zero_of_vertex hv
    rw [vertexPoint_of_getD hvp]
    exact hclip
  have hcand : p ∈ (rebuild gdp org nml (scan gdp org nml group).clipped_polys).gdp.deadPointCandidates
      (scan gdp org nml group).rm_polys := by
    rw [mem_deadPointCandidates]
    exact ⟨u, hrm pr hpr hcl u hu hup, getD_some_of_isPrefix hinv.vertices_ext hup⟩
  have hsurv : some p ∈ (rebuild gdp org nml
      (scan gdp org nml group).clipped_polys).gdp.verticesAfterDestroy
        (scan gdp org nml group).rm_polys := by
    by_contra hc
    exact hdead ⟨hcand, hc⟩
  obtain ⟨v, hvd, hvp⟩ := (mem_verticesAfterDestroy _ _ _).1 hsurv
  have hvlt : v < gdp.vertices.length := by
    by_contra hc
    have h1 := new_vertex_not_clipped hinv (not_lt.mp hc) hvp
    rw [isClipped_of_isPrefix org nml hinv.points_ext hplt, hclip] at h1
    cases h1
  have hv0 : gdp.vertices.getD v none = some p := by
    rw [← getD_of_isPrefix hinv.vertices_ext hvlt]
    exact hvp
  refine ⟨v, hv0, ?_, ?_⟩
  · rw [hout, destroy_vertices_getD, if_neg hvd]
    exact hvp
  · intro pr' hpr' hcl' hv
    exact hvd (hrm pr' hpr' hcl' v hv hv0)

/-- A detail without clipped vertex is left as it is. -/
theorem cook_noop (gdp : GU_Detail) (org nml : UT_Vector3) (group : Option (List Nat))
    (h : ∀ pr ∈ gdp.getPrimitiveRange group, isClosedPoly gdp pr = true →
      ∀ v ∈ gdp.primVertices pr, isClipped gdp org nml (gdp.vertexPoint v) = false) :
    scan gdp org nml group = ⟨[], []⟩ ∧ cookWithGroup gdp org nml group = gdp := by
  have h0 : ∀ pr ∈ gdp.getPrimitiveRange group, isClosedPoly gdp pr = true →
      countClipped gdp org nml pr = 0 := by
    intro pr hpr hcl
    rw [countClipped_eq_zero_iff]
    intro i hi
    exact h pr hpr hcl _ (getPrimitiveVertexOffset_mem gdp pr i hi)
  have hs : scan gdp org nml group = ⟨[], []⟩ := by
    rw [scan_eq]
    congr 1
    · rw [List.filter_eq_nil_iff]
      intro pr hpr hc
      rw [Bool.and_eq_true] at hc
      have := h0 pr hpr hc.1
      simp [this] at hc
    · rw [List.filter_eq_nil_iff]
      intro pr hpr hc
      rw [Bool.and_eq_true, Bool.and_eq_true] at hc
      have := h0 pr hpr hc.1.1
      simp [this] at hc
  refine ⟨hs, ?_⟩
  unfold cookWithGroup
  simp only [hs]
  exact destroy_nil gdp

theorem isClipped_congr {g g' : GU_Detail} (org nml : UT_Vector3) {p : Nat}
    (h : g'.points.getD p none = g.points.getD p none) :
    isClipped g' org nml p = isClipped g org nml p := by
  unfold isClipped GU_Detail.getPos3
  rw [h]

/-- A vertex that survives the destruction keeps its point, and the point its
position. -/
theorem destroy_surviving_vertex (g : GU_Detail) (rm : List Nat) (org nml : UT_Vector3)
    {v p : Nat} (hvd : v ∉ g.deadVertices rm) (hvp : g.vertices.getD v none = some p) :
    (g.destroyPrimitiveOffsets rm).vertexPoint v = p ∧
      (g.destroyPrimitiveOffsets rm).points.getD p none = g.points.getD p none ∧
      isClipped (g.destroyPrimitiveOffsets rm) org nml p = isClipped g org nml p := by
  have hpts := destroy_points_getD_eq g rm p (Or.inr ⟨v, hvd, hvp⟩)
  refine ⟨?_, hpts, isClipped_congr org nml hpts⟩
  rw [destroy_vertexPoint g rm v hvd]
  exact vertexPoint_of_getD hvp

/-- The vertices of a primitive the cook does not remove are not destroyed. -/
theorem cook_not_dead {gdp : GU_Detail} {org nml : UT_Vector3}
    (group : Option (List Nat)) {st : RebuildState} (hwf : gdp.wellFormed = true)
    (hext : gdp.primitives <+: st.gdp.primitives) {pr v : Nat}
    (hpr : pr ∉ (scan gdp org nml group).rm_polys) (hv : v ∈ gdp.primVertices pr) :
    v ∉ st.gdp.deadVertices (scan gdp org nml group).rm_polys := by
  intro hd
  obtain ⟨pr', hpr', hv'⟩ := (cook_mem_deadVertices hext v).1 hd
  have := wf_disjoint hwf hv hv'
  subst this
  exact hpr hpr'

theorem isClosedPoly_congr {g g' : GU_Detail} {pr : Nat}
    (h : g'.primitives.getD pr none = g.primitives.getD pr none) :
    isClosedPoly g' pr = isClosedPoly g pr := by
  unfold isClosedPoly GU_Detail.getPrimitiveTypeId GU_Detail.getPrimitiveClosedFlag
  rw [h]

theorem primVertices_congr {g g' : GU_Detail} {pr : Nat}
    (h : g'.primitives.getD pr none = g.primitives.getD pr none) :
    g'.primVertices pr = g.primVertices pr := by
  unfold GU_Detail.primVertices
  rw [h]

/-- The output of the cook of a well-formed detail has no clipped vertex on the closed
polygons of a group that holds no primitive of the input outside the first group. -/
theorem cook_output_inside (gdp : GU_Detail) (org nml : UT_Vector3)
    (group group' : Option (List Nat)) (hwf : gdp.wellFormed = true)
    (hsub : ∀ pr < gdp.primitives.length,
      pr ∈ (cookWithGroup gdp org nml group).getPrimitiveRange group' →
        pr ∈ gdp.getPrimitiveRange group) :
    ∀ pr ∈ (cookWithGroup gdp org nml group).getPrimitiveRange group',
      isClosedPoly (cookWithGroup gdp org nml group) pr = true →
      ∀ v ∈ (cookWithGroup gdp org nml group).primVertices pr,
        isClipped (cookWithGroup gdp org nml group) org nml
          ((cookWithGroup gdp org nml group).vertexPoint v) = false := by
  have hl := partialPolys_scan gdp org nml group
  obtain ⟨hinv, hnp, _, _⟩ := rebuild_inv hwf _ hl
  have hout : cookWithGroup gdp org nml group =
      (rebuild gdp org nml (scan gdp org nml group).clipped_polys).gdp.destroyPrimitiveOffsets
        (scan gdp org nml group).rm_polys := rfl
  intro pr hpr hcl v hv
  obtain ⟨⟨P, hP⟩, _⟩ := mem_getPrimitiveRange.1 hpr
  have hprm : pr ∉ (scan gdp org nml group).rm_polys := by
    intro hc
    rw [hout, destroy_primitives_getD, if_pos hc] at hP
    cases hP
  have hPst : (cookWithGroup gdp org nml group).primitives.getD pr none =
      (rebuild gdp org nml (scan gdp org nml group).clipped_polys).gdp.primitives.getD
        pr none := by
    rw [hout, destroy_primitives_getD, if_neg hprm]
  rw [primVertices_congr hPst] at hv
  by_cases hlt : pr < gdp.primitives.length
  · have hP0 : (rebuild gdp org nml (scan gdp org nml group).clipped_polys).gdp.primitives.getD
        pr none = gdp.primitives.getD pr none := getD_of_isPrefix hinv.prims_ext hlt _
    rw [primVertices_congr hP0] at hv
    rw [isClosedPoly_congr (hPst.trans hP0)] at hcl
    have hc0 : countClipped gdp org nml pr = 0 := by
      by_contra hc
      exact hprm (mem_rm_polys.2 ⟨hsub pr hlt hpr, hcl, hc⟩)
    have hvd := cook_not_dead group hwf hinv.prims_ext hprm hv
    have hvp := getD_some_of_isPrefix hinv.vertices_ext (wf_vertex_eq hwf hv)
    obtain ⟨e1, _, e3⟩ := destroy_surviving_vertex _ _ org nml hvd hvp
    rw [hout, e1, e3, isClipped_of_isPrefix org nml hinv.points_ext (wf_vertexPoint_lt hwf hv)]
    rw [countClipped_eq_zero_iff] at hc0
    obtain ⟨i, hi, rfl⟩ := (mem_primVertices_iff gdp pr v).1 hv
    exact hc0 i hi
  · rw [hPst] at hP
    obtain ⟨_, _, hvs⟩ := hnp pr P (not_lt.mp hlt) hP
    have hvP : v ∈ P.vertices := by
      unfold GU_Detail.primVertices at hv
      rw [hP] at hv
      exact hv
    obtain ⟨hv0, p, hvp⟩ := hvs v hvP
    have hvd : v ∉ (rebuild gdp org nml (scan gdp org nml group).clipped_polys).gdp.deadVertices
        (scan gdp org nml group).rm_polys :=
      fun h => absurd (cook_dead_lt hwf hinv.prims_ext h) (not_lt.mpr hv0)
    obtain ⟨e1, _, e3⟩ := destroy_surviving_vertex _ _ org nml hvd hvp
    rw [hout, e1, e3]
    exact new_vertex_not_clipped hinv hv0 hvp

/-! ## Claims on the cook -/

/-- Witness of C1 on two triangles that share a crossed edge: the point table grows
by the number of distinct pairs of crossed edges. -/
theorem C1_shared_edge_consistency_witness :
    sharedEdge.wellFormed = true ∧
      (cookWithGroup sharedEdge ⟨0, 0, 0⟩ ⟨1, 0, 0⟩ none).points.length =
        sharedEdge.points.length +
          ((scan sharedEdge ⟨0, 0, 0⟩ ⟨1, 0, 0⟩ none).clipped_polys.flatMap
            (crossedEdges sharedEdge ⟨0, 0, 0⟩ ⟨1, 0, 0⟩)).toFinset.card :=
  ⟨by decide,
    match C1_shared_edge_consistency sharedEdge ⟨0, 0, 0⟩ ⟨1, 0, 0⟩ none (by decide) with
    | ⟨_, h, _⟩ => h⟩

/-- Counterexample to C2 as stated: after the cook of `sharedPoint`, point `0` is
present at `(-1,0,0)`, on the negative side of the plane `x = 0`, although it is
referenced by the closed polygon `0`, which was a clip candidate. -/
theorem C2_counterexample :
    (cookWithGroup sharedPoint ⟨0, 0, 0⟩ ⟨1, 0, 0⟩ none).points.getD 0 none =
        some ⟨-1, 0, 0⟩ ∧
      dot ⟨1, 0, 0⟩ ((⟨-1, 0, 0⟩ : UT_Vector3) - ⟨0, 0, 0⟩) < 0 ∧
      0 ∈ sharedPoint.getPrimitiveRange none ∧ isClosedPoly sharedPoint 0 = true ∧
      0 ∈ sharedPoint.primVertices 0 ∧ sharedPoint.vertices.getD 0 none = some 0 := by
  decide!

/-- Counterexample to C7 as stated: the closed polygon without vertices is a
candidate all of whose vertices are clipped, yet the scan does not put it in the
removal set and the cook keeps it. -/
theorem C7_counterexample :
    0 ∈ emptyPolygon.getPrimitiveRange none ∧ isClosedPoly emptyPolygon 0 = true ∧
      (∀ v ∈ emptyPolygon.primVertices 0,
        isClipped emptyPolygon ⟨0, 0, 0⟩ ⟨0, 1, 0⟩ (emptyPolygon.vertexPoint v) = true) ∧
      0 ∉ (scan emptyPolygon ⟨0, 0, 0⟩ ⟨0, 1, 0⟩ none).rm_polys ∧
      (cookWithGroup emptyPolygon ⟨0, 0, 0⟩ ⟨0, 1, 0⟩ none).primitives.getD 0 none ≠ none := by
  decide!

/-- C7 (amended): a candidate closed polygon with at least one vertex, all of whose
vertices are wired to clipped points, is put in the removal set and not in the
reconstruction set, and is destroyed by the cook. -/
theorem C7_fully_outside_removed (gdp : GU_Detail) (org nml : UT_Vector3)
    (group : Option (List Nat)) (pr : Nat) (hpr : pr ∈ gdp.getPrimitiveRange group)
    (hcl : isClosedPoly gdp pr = true) (hn : 0 < gdp.getPrimitiveVertexCount pr)
    (hall : ∀ v ∈ gdp.primVertices pr, isClipped gdp org nml (gdp.vertexPoint v) = true) :
    pr ∈ (scan gdp org nml group).rm_polys ∧ pr ∉ (scan gdp org nml group).clipped_polys ∧
      (cookWithGroup gdp org nml group).primitives.getD pr none = none := by
  have hc : countClipped gdp org nml pr = gdp.getPrimitiveVertexCount pr := by
    rw [countClipped_eq_length_iff]
    intro i hi
    exact hall _ (getPrimitiveVertexOffset_mem gdp pr i hi)
  have hrm : pr ∈ (scan gdp org nml group).rm_polys :=
    mem_rm_polys.2 ⟨hpr, hcl, by rw [hc]; exact Nat.pos_iff_ne_zero.mp hn⟩
  refine ⟨hrm, fun h => (mem_clipped_polys.1 h).2.2.2 hc, ?_⟩
  unfold cookWithGroup
  simp only []
  rw [destroy_primitives_getD, if_pos hrm]

/-- Witness of the amended C7 on the triangle on the negative side of `x = 0`. -/
theorem C7_fully_outside_removed_witness :
    0 ∈ (scan outsideTriangle ⟨0, 0, 0⟩ ⟨1, 0, 0⟩ none).rm_polys ∧
      0 ∉ (scan outsideTriangle ⟨0, 0, 0⟩ ⟨1, 0, 0⟩ none).clipped_polys ∧
      (cookWithGroup outsideTriangle ⟨0, 0, 0⟩ ⟨1, 0, 0⟩ none).primitives.getD 0 none = none :=
  C7_fully_outside_removed outsideTriangle ⟨0, 0, 0⟩ ⟨1, 0, 0⟩ none 0 (by decide)
    (by decide) (by decide) (by decide!)

/-- C8: a candidate primitive of a well-formed detail that is not a closed polygon
is put in neither group, and is in the output with its vertex list, the wiring of
its vertices and the points they are wired to unchanged, wherever its points lie. -/
theorem C8_ineligible_passthrough (gdp : GU_Detail) (org nml : UT_Vector3)
    (group : Option (List Nat)) (hwf : gdp.wellFormed = true) (pr : Nat)
    (hpr : pr ∈ gdp.getPrimitiveRange group) (hcl : isClosedPoly gdp pr = false) :
    pr ∉ (scan gdp org nml group).rm_polys ∧ pr ∉ (scan gdp org nml group).clipped_polys ∧
      (cookWithGroup gdp org nml group).primitives.getD pr none =
        gdp.primitives.getD pr none ∧
      ∀ v ∈ gdp.primVertices pr,
        (cookWithGroup gdp org nml group).vertices.getD v none = gdp.vertices.getD v none ∧
        (cookWithGroup gdp org nml group).points.getD (gdp.vertexPoint v) none =
          gdp.points.getD (gdp.vertexPoint v) none := by
  have hl := partialPolys_scan gdp org nml group
  obtain ⟨hinv, _, _, _⟩ := rebuild_inv hwf _ hl
  have hout : cookWithGroup gdp org nml group =
      (rebuild gdp org nml (scan gdp org nml group).clipped_polys).gdp.destroyPrimitiveOffsets
        (scan gdp org nml group).rm_polys := rfl
  have hrm : pr ∉ (scan gdp org nml group).rm_polys := by
    intro h
    rw [(mem_rm_polys.1 h).2.1] at hcl
    cases hcl
  refine ⟨hrm, fun h => hrm (clipped_polys_sublist gdp org nml group pr h), ?_, ?_⟩
  · rw [hout, destroy_primitives_getD, if_neg hrm]
    exact getD_of_isPrefix hinv.prims_ext (lt_of_mem_getPrimitiveRange hpr) _
  · intro v hv
    have hvd := cook_not_dead group hwf hinv.prims_ext hrm hv
    have hvp := getD_some_of_isPrefix hinv.vertices_ext (wf_vertex_eq hwf hv)
    obtain ⟨_, e2, _⟩ := destroy_surviving_vertex _ _ org nml hvd hvp
    refine ⟨?_, ?_⟩
    · rw [hout, destroy_vertices_getD, if_neg hvd]
      exact getD_of_isPrefix hinv.vertices_ext (wf_vertex_lt hwf hv) _
    · rw [hout, e2]
      exact getD_of_isPrefix hinv.points_ext (wf_vertexPoint_lt hwf hv) _

/-- Witness of C8 on the open polygon of `sharedPoint`, both of whose points are
clipped by the plane `x = 0`. -/
theorem C8_ineligible_passthrough_witness :
    (sharedPoint.wellFormed = true ∧ 1 ∈ sharedPoint.getPrimitiveRange none ∧
      isClosedPoly sharedPoint 1 = false) ∧
    (1 ∉ (scan sharedPoint ⟨0, 0, 0⟩ ⟨1, 0, 0⟩ none).rm_polys ∧
      1 ∉ (scan sharedPoint ⟨0, 0, 0⟩ ⟨1, 0, 0⟩ none).clipped_polys ∧
      (cookWithGroup sharedPoint ⟨0, 0, 0⟩ ⟨1, 0, 0⟩ none).primitives.getD 1 none =
        sharedPoint.primitives.getD 1 none ∧
      ∀ v ∈ sharedPoint.primVertices 1,
        (cookWithGroup sharedPoint ⟨0, 0, 0⟩ ⟨1, 0, 0⟩ none).vertices.getD v none =
          sharedPoint.vertices.getD v none ∧
        (cookWithGroup sharedPoint ⟨0, 0, 0⟩ ⟨1, 0, 0⟩ none).points.getD
          (sharedPoint.vertexPoint v) none =
            sharedPoint.points.getD (sharedPoint.vertexPoint v) none) :=
  ⟨⟨by decide, by decide, by decide⟩,
    C8_ineligible_passthrough sharedPoint ⟨0, 0, 0⟩ ⟨1, 0, 0⟩ none (by decide) 1
      (by decide) (by decide)⟩

/-- Counterexample to C9 as stated: with a group parameter the parser yields no group
for, the cook of `outsideTriangle` does not leave the detail unchanged: it destroys
the triangle and its points. -/
theorem C9_counterexample :
    cookGroup (fun _ _ => none) "missing" outsideTriangle = none ∧
      cook (fun _ _ => none) "missing" ⟨0, 0, 0⟩ ⟨1, 0, 0⟩ outsideTriangle ≠ outsideTriangle ∧
      cook (fun _ _ => none) "missing" ⟨0, 0, 0⟩ ⟨1, 0, 0⟩ outsideTriangle =
        ⟨[none, none, none], [none, none, none], [none]⟩ := by
  decide!

/-! ## The Flatten cook -/

theorem modifyAttr_length (attribs : List GA_Attribute) (i pt : Nat)
    (f : UT_Vector3 → UT_Vector3) : (modifyAttr attribs i pt f).length = attribs.length := by
  unfold modifyAttr
  rw [List.length_set]

theorem modifyAttr_val (attribs : List GA_Attribute) (i pt : Nat) (f : UT_Vector3 → UT_Vector3)
    (hi : i < attribs.length) (j pt' : Nat) :
    attrVal (modifyAttr attribs i pt f) j pt' =
      if j = i ∧ pt' = pt then f (attrVal attribs i pt) else attrVal attribs j pt' := by
  unfold attrVal modifyAttr
  by_cases hji : j = i
  · subst hji
    rw [getD_set_self _ hi]
    by_cases hp : pt' = pt
    · subst hp
      simp
    · simp [hp, Function.update_noteq hp]
  · rw [getD_set_of_ne _ (fun h => hji h.symm)]
    simp [hji]

theorem foldl_modifyAttr_length (hs : List Nat) (pt : Nat) (f : UT_Vector3 → UT_Vector3) :
    ∀ attribs : List GA_Attribute,
      (hs.foldl (fun as i => modifyAttr as i pt f) attribs).length = attribs.length := by
  induction hs with
  | nil => intro attribs; rfl
  | cons i hs ih =>
    intro attribs
    rw [List.foldl_cons, ih, modifyAttr_length]

theorem foldl_modifyAttr_val (hs : List Nat) (pt : Nat) (f : UT_Vector3 → UT_Vector3)
    (hnd : hs.Nodup) :
    ∀ attribs : List GA_Attribute, (∀ i ∈ hs, i < attribs.length) → ∀ j pt',
      attrVal (hs.foldl (fun as i => modifyAttr as i pt f) attribs) j pt' =
        if j ∈ hs ∧ pt' = pt then f (attrVal attribs j pt) else attrVal attribs j pt' := by
  induction hs with
  | nil => intro attribs _ j pt'; simp
  | cons i hs ih =>
    intro attribs hlt j pt'
    rw [List.nodup_cons] at hnd
    have hi := hlt i (List.mem_cons_self _ _)
    rw [List.foldl_cons, ih hnd.2 _ (fun k hk => by
      rw [modifyAttr_length]; exact hlt k (List.mem_cons_of_mem _ hk))]
    rw [modifyAttr_val _ _ _ _ hi, modifyAttr_val _ _ _ _ hi]
    by_cases hj : j ∈ hs
    · have hji : j ≠ i := fun h => hnd.1 (h ▸ hj)
      by_cases hp : pt' = pt <;> simp [hj, hji, hp]
    · by_cases hji : j = i
      · subst hji
        by_cases hp : pt' = pt <;> simp [hj, hp]
      · simp [hj, hji]

theorem handles_lt {attribs : List GA_Attribute} {p : Nat → Bool} {i : Nat}
    (h : i ∈ (List.range attribs.length).filter p) : i < attribs.length := by
  rw [List.mem_filter, List.mem_range] at h
  exact h.1

theorem handles_nodup (n : Nat) (p : Nat → Bool) : ((List.range n).filter p).Nodup :=
  (List.nodup_range n).filter _

/-- The value of every attribute after the body of the point loop. -/
theorem flattenPoint_val (parms : FlattenParms) (normalize : UT_Vector3 → UT_Vector3)
    (uninit : UT_Vector3) (pos nrm vec : List Nat) (attribs : List GA_Attribute) (pt : Nat)
    (hp : pos.Nodup) (hn : nrm.Nodup) (hv : vec.Nodup)
    (hpl : ∀ i ∈ pos, i < attribs.length) (hnl : ∀ i ∈ nrm, i < attribs.length)
    (hvl : ∀ i ∈ vec, i < attribs.length)
    (hpn : ∀ i ∈ pos, i ∉ nrm) (hpv : ∀ i ∈ pos, i ∉ vec) (hnv : ∀ i ∈ nrm, i ∉ vec)
    (j pt' : Nat) :
    (flattenPoint parms normalize uninit pos nrm vec attribs pt).length = attribs.length ∧
    attrVal (flattenPoint parms normalize uninit pos nrm vec attribs pt) j pt' =
      if pt' = pt then
        flatT pos nrm vec (planeNormal parms normalize uninit pt) (parms.DIST pt) j
          (attrVal attribs j pt)
      else attrVal attribs j pt' := by
  unfold flattenPoint
  simp only []
  refine ⟨by rw [foldl_modifyAttr_length, foldl_modifyAttr_length, foldl_modifyAttr_length], ?_⟩
  rw [foldl_modifyAttr_val vec pt _ hv _ (fun i hi => by
      rw [foldl_modifyAttr_length, foldl_modifyAttr_length]; exact hvl i hi),
    foldl_modifyAttr_val nrm pt _ hn _ (fun i hi => by
      rw [foldl_modifyAttr_length]; exact hnl i hi),
    foldl_modifyAttr_val nrm pt _ hn _ (fun i hi => by
      rw [foldl_modifyAttr_length]; exact hnl i hi),
    foldl_modifyAttr_val pos pt _ hp _ hpl, foldl_modifyAttr_val pos pt _ hp _ hpl]
  unfold flatT
  by_cases hpt : pt' = pt
  · subst hpt
    by_cases h1 : j ∈ pos
    · simp [h1, hpn j h1, hpv j h1]
    · by_cases h2 : j ∈ nrm
      · simp [h1, h2, hnv j h2]
      · by_cases h3 : j ∈ vec <;> simp [h1, h2, h3]
  · simp [hpt]

theorem UT_Vector3.eq_of_components {a b : UT_Vector3} (hx : a.x = b.x) (hy : a.y = b.y)
    (hz : a.z = b.z) : a = b := by
  cases a
  cases b
  simp only [UT_Vector3.mk.injEq]
  exact ⟨hx, hy, hz⟩

theorem mem_positionattribs (attribs : List GA_Attribute) (j : Nat) :
    j ∈ positionattribs attribs ↔ j < attribs.length ∧
      (attribs.getD j default).needsTransform = true ∧
      ((attribs.getD j default).typeInfo = GA_TypeInfo.GA_TYPE_POINT ∨
        (attribs.getD j default).typeInfo = GA_TypeInfo.GA_TYPE_HPOINT) ∧
      (attribs.getD j default).isV3 = true := by
  unfold positionattribs
  rw [List.mem_filter, List.mem_range]
  simp [and_assoc]

theorem mem_normalattribs (attribs : List GA_Attribute) (j : Nat) :
    j ∈ normalattribs attribs ↔ j < attribs.length ∧
      (attribs.getD j default).needsTransform = true ∧
      (attribs.getD j default).typeInfo = GA_TypeInfo.GA_TYPE_NORMAL ∧
      (attribs.getD j default).isV3 = true := by
  unfold normalattribs
  rw [List.mem_filter, List.mem_range]
  simp [and_assoc]

theorem mem_vectorattribs (attribs : List GA_Attribute) (j : Nat) :
    j ∈ vectorattribs attribs ↔ j < attribs.length ∧
      (attribs.getD j default).needsTransform = true ∧
      (attribs.getD j default).typeInfo = GA_TypeInfo.GA_TYPE_VECTOR ∧
      (attribs.getD j default).isV3 = true := by
  unfold vectorattribs
  rw [List.mem_filter, List.mem_range]
  simp [and_assoc]

/-- The loop over points, when the plane normal `N` and the distance `D` are the
same at every point and one pass `T` of the handle loops is idempotent: every
processed point holds `T` of its first value. -/
theorem foldl_flattenPoint_val (parms : FlattenParms) (normalize : UT_Vector3 → UT_Vector3)
    (uninit : UT_Vector3) (attribs0 : List GA_Attribute) (N : UT_Vector3) (D : ℚ)
    (hN : ∀ pt, planeNormal parms normalize uninit pt = N) (hD : ∀ pt, parms.DIST pt = D)
    (hTT : ∀ j v, flatT (positionattribs attribs0) (normalattribs attribs0)
      (vectorattribs attribs0) N D j (flatT (positionattribs attribs0) (normalattribs attribs0)
        (vectorattribs attribs0) N D j v) =
      flatT (positionattribs attribs0) (normalattribs attribs0) (vectorattribs attribs0) N D j v)
    (pts : List Nat) :
    ∀ (done : List Nat) (attribs : List GA_Attribute),
      (attribs.length = attribs0.length ∧ ∀ j pt, attrVal attribs j pt =
        if pt ∈ done then flatT (positionattribs attribs0) (normalattribs attribs0)
          (vectorattribs attribs0) N D j (attrVal attribs0 j pt) else attrVal attribs0 j pt) →
      (pts.foldl (flattenPoint parms normalize uninit (positionattribs attribs0)
          (normalattribs attribs0) (vectorattribs attribs0)) attribs).length = attribs0.length ∧
      ∀ j pt, attrVal (pts.foldl (flattenPoint parms normalize uninit
          (positionattribs attribs0) (normalattribs attribs0) (vectorattribs attribs0))
            attribs) j pt =
        if pt ∈ done ++ pts then flatT (positionattribs attribs0) (normalattribs attribs0)
          (vectorattribs attribs0) N D j (attrVal attribs0 j pt) else attrVal attribs0 j pt := by
  induction pts with
  | nil =>
    intro done attribs h
    simpa using h
  | cons p pts ih =>
    intro done attribs ⟨hlen, hval⟩
    rw [List.foldl_cons]
    have hstep := flattenPoint_val parms normalize uninit (positionattribs attribs0)
      (normalattribs attribs0) (vectorattribs attribs0) attribs p
      (handles_nodup _ _) (handles_nodup _ _) (handles_nodup _ _)
      (fun i hi => by rw [hlen]; exact handles_lt hi)
      (fun i hi => by rw [hlen]; exact handles_lt hi)
      (fun i hi => by rw [hlen]; exact handles_lt hi)
      (fun i hi h => by
        rw [mem_positionattribs] at hi
        rw [mem_normalattribs] at h
        rcases hi.2.2.1 with e | e <;> rw [e] at h <;> exact absurd h.2.2.1 (by decide))
      (fun i hi h => by
        rw [mem_positionattribs] at hi
        rw [mem_vectorattribs] at h
        rcases hi.2.2.1 with e | e <;> rw [e] at h <;> exact absurd h.2.2.1 (by decide))
      (fun i hi h => by
        rw [mem_normalattribs] at hi
        rw [mem_vectorattribs] at h
        rw [hi.2.2.1] at h
        exact absurd h.2.2.1 (by decide))
    have h' := ih (done ++ [p]) (flattenPoint parms normalize uninit
      (positionattribs attribs0) (normalattribs attribs0) (vectorattribs attribs0) attribs p)
      ⟨by rw [(hstep 0 0).1, hlen], ?_⟩
    · simpa [List.append_assoc] using h'
    · intro j pt
      rw [(hstep j pt).2, hN, hD, hval j p, hval j pt]
      by_cases hpt : pt = p
      · subst hpt
        by_cases hd : pt ∈ done
        · simp [hd, hTT]
        · simp [hd]
      · by_cases hd : pt ∈ done <;> simp [hpt, hd]

theorem flattenBlocks_val (parms : FlattenParms) (normalize : UT_Vector3 → UT_Vector3)
    (uninit : UT_Vector3) (attribs0 : List GA_Attribute) (N : UT_Vector3) (D : ℚ)
    (hN : ∀ pt, planeNormal parms normalize uninit pt = N) (hD : ∀ pt, parms.DIST pt = D)
    (hTT : ∀ j v, flatT (positionattribs attribs0) (normalattribs attribs0)
      (vectorattribs attribs0) N D j (flatT (positionattribs attribs0) (normalattribs attribs0)
        (vectorattribs attribs0) N D j v) =
      flatT (positionattribs attribs0) (normalattribs attribs0) (vectorattribs attribs0) N D j v)
    (wasInterrupted : Nat → Bool) (hint : ∀ k, wasInterrupted k = false)
    (blocks : List (Nat × Nat)) :
    ∀ (k : Nat) (done : List Nat) (attribs : List GA_Attribute),
      (attribs.length = attribs0.length ∧ ∀ j pt, attrVal attribs j pt =
        if pt ∈ done then flatT (positionattribs attribs0) (normalattribs attribs0)
          (vectorattribs attribs0) N D j (attrVal attribs0 j pt) else attrVal attribs0 j pt) →
      ∀ j pt, attrVal (flattenBlocks (flattenPoint parms normalize uninit
          (positionattribs attribs0) (normalattribs attribs0) (vectorattribs attribs0))
          wasInterrupted k blocks attribs) j pt =
        if pt ∈ done ++ blocks.flatMap (fun b => List.range' b.1 (b.2 - b.1)) then
          flatT (positionattribs attribs0) (normalattribs attribs0)
            (vectorattribs attribs0) N D j (attrVal attribs0 j pt)
        else attrVal attribs0 j pt := by
  induction blocks with
  | nil =>
    intro k done attribs h j pt
    simpa [flattenBlocks] using h.2 j pt
  | cons b bs ih =>
    intro k done attribs h j pt
    unfold flattenBlocks
    rw [if_neg (by rw [hint k]; exact Bool.false_ne_true)]
    have h1 := foldl_flattenPoint_val parms normalize uninit attribs0 N D hN hD hTT
      (List.range' b.1 (b.2 - b.1)) done attribs h
    have h2 := ih (k + 1) (done ++ List.range' b.1 (b.2 - b.1)) _ h1 j pt
    rw [h2, List.flatMap_cons, List.append_assoc]

theorem mem_blocks_of_inBlocks {blocks : List (Nat × Nat)} {pt : Nat} (h : inBlocks blocks pt) :
    pt ∈ blocks.flatMap (fun b => List.range' b.1 (b.2 - b.1)) := by
  obtain ⟨b, hb, h1, h2⟩ := h
  rw [List.mem_flatMap]
  refine ⟨b, hb, ?_⟩
  rw [List.mem_range'_1]
  omega

theorem planeNormal_xy (parms : FlattenParms) (normalize : UT_Vector3 → UT_Vector3)
    (uninit : UT_Vector3) (hdir : ∀ pt, parms.DIRPOP pt = 0) (hor : ∀ pt, parms.ORIENT pt = 0)
    (pt : Nat) : planeNormal parms normalize uninit pt = ⟨0, 0, 1⟩ := by
  unfold planeNormal
  rw [if_pos (hdir pt), hor pt]
  rfl

theorem flatT_xy_position (v : UT_Vector3) :
    v - (⟨0, 0, 1⟩ : UT_Vector3) * (dot ⟨0, 0, 1⟩ v - 2) = ⟨v.x, v.y, 2⟩ := by
  apply UT_Vector3.eq_of_components <;> simp [dot]

theorem flatT_xy_vector (v : UT_Vector3) :
    v - (⟨0, 0, 1⟩ : UT_Vector3) * dot ⟨0, 0, 1⟩ v = ⟨v.x, v.y, 0⟩ := by
  apply UT_Vector3.eq_of_components <;> simp [dot]

theorem flatT_xy_idem (pos nrm vec : List Nat) (j : Nat) (v : UT_Vector3) :
    flatT pos nrm vec ⟨0, 0, 1⟩ 2 j (flatT pos nrm vec ⟨0, 0, 1⟩ 2 j v) =
      flatT pos nrm vec ⟨0, 0, 1⟩ 2 j v := by
  unfold flatT
  by_cases h1 : j ∈ pos
  · simp only [h1, if_true, flatT_xy_position]
  · by_cases h2 : j ∈ nrm
    · simp only [h1, h2, if_true, if_false]
      by_cases h3 : dot ⟨0, 0, 1⟩ v < 0
      · simp only [h3, if_true]
        rw [if_pos]
        simp [dot]
      · simp only [h3, if_false]
        rw [if_neg]
        simp [dot]
    · by_cases h3 : j ∈ vec
      · simp only [h1, h2, h3, if_true, if_false, flatT_xy_vector]
      · simp only [h1, h2, h3, if_false]

/-- C10 (amended): in exact arithmetic, with the direction toggle off, the XY plane
and distance `2`, a cook that is neither refused nor interrupted maps, at every
selected point, the value `(x,y,z)` of a position attribute to `(x,y,2)`, the value
of a normal attribute to `(0,0,-1)` when its dot product with `(0,0,1)` is negative
and to `(0,0,1)` otherwise, and the value `(vx,vy,vz)` of a vector attribute to
`(vx,vy,0)`. -/
theorem C10_flatten_xy (parms : FlattenParms) (normalize : UT_Vector3 → UT_Vector3)
    (uninit : UT_Vector3) (ctx : FlattenContext) (attribs : List GA_Attribute)
    (hlock : ctx.lockOk = true) (hgrp : ctx.groupOk = true)
    (hsel : ctx.myGroup = none ∨ ctx.myGroup ≠ some [])
    (hint : ∀ k, ctx.wasInterrupted k = false)
    (hdir : ∀ pt, parms.DIRPOP pt = 0) (hor : ∀ pt, parms.ORIENT pt = 0)
    (hdist : ∀ pt, parms.DIST pt = 2)
    (pt : Nat) (hpt : inBlocks ctx.blocks pt) (j : Nat) (hj : j < attribs.length)
    (hnt : (attribs.getD j default).needsTransform = true)
    (hv3 : (attribs.getD j default).isV3 = true) :
    (((attribs.getD j default).typeInfo = GA_TypeInfo.GA_TYPE_POINT ∨
        (attribs.getD j default).typeInfo = GA_TypeInfo.GA_TYPE_HPOINT) →
      ((cookMySop parms normalize uninit ctx attribs).getD j default).values pt =
        ⟨((attribs.getD j default).values pt).x, ((attribs.getD j default).values pt).y, 2⟩) ∧
    ((attribs.getD j default).typeInfo = GA_TypeInfo.GA_TYPE_NORMAL →
      ((cookMySop parms normalize uninit ctx attribs).getD j default).values pt =
        if dot ((attribs.getD j default).values pt) ⟨0, 0, 1⟩ < 0 then ⟨0, 0, -1⟩
        else ⟨0, 0, 1⟩) ∧
    ((attribs.getD j default).typeInfo = GA_TypeInfo.GA_TYPE_VECTOR →
      ((cookMySop parms normalize uninit ctx attribs).getD j default).values pt =
        ⟨((attribs.getD j default).values pt).x, ((attribs.getD j default).values pt).y, 0⟩) := by
  have hcook : cookMySop parms normalize uninit ctx attribs =
      flattenBlocks (flattenPoint parms normalize uninit (positionattribs attribs)
        (normalattribs attribs) (vectorattribs attribs)) ctx.wasInterrupted 0 ctx.blocks
        attribs := by
    unfold cookMySop
    rw [if_neg (by rw [hlock]; decide), if_pos ⟨hgrp, hsel⟩]
  have hval := flattenBlocks_val parms normalize uninit attribs ⟨0, 0, 1⟩ 2
    (planeNormal_xy parms normalize uninit hdir hor) hdist
    (flatT_xy_idem _ _ _) ctx.wasInterrupted hint ctx.blocks 0 [] attribs
    ⟨rfl, fun j pt => by simp⟩ j pt
  rw [List.nil_append, if_pos (mem_blocks_of_inBlocks hpt)] at hval
  unfold attrVal at hval
  rw [hcook, hval]
  unfold flatT
  refine ⟨fun ht => ?_, fun ht => ?_, fun ht => ?_⟩
  · rw [if_pos ((mem_positionattribs attribs j).2 ⟨hj, hnt, ht, hv3⟩)]
    exact flatT_xy_position _
  · have h1 : j ∉ positionattribs attribs := by
      intro h
      rw [mem_positionattribs, ht] at h
      rcases h.2.2.1 with e | e <;> cases e
    rw [if_neg h1, if_pos ((mem_normalattribs attribs j).2 ⟨hj, hnt, ht, hv3⟩)]
    have e : dot ⟨0, 0, 1⟩ ((attribs.getD j default).values pt) =
        dot ((attribs.getD j default).values pt) ⟨0, 0, 1⟩ := by
      simp [dot]
    rw [e]
    by_cases hneg : dot ((attribs.getD j default).values pt) ⟨0, 0, 1⟩ < 0
    · rw [if_pos hneg, if_pos hneg]
      apply UT_Vector3.eq_of_components <;> simp
    · rw [if_neg hneg, if_neg hneg]
  · have h1 : j ∉ positionattribs attribs := by
      intro h
      rw [mem_positionattribs, ht] at h
      rcases h.2.2.1 with e | e <;> cases e
    have h2 : j ∉ normalattribs attribs := by
      intro h
      rw [mem_normalattribs, ht] at h
      cases h.2.2.1
    rw [if_neg h1, if_neg h2, if_pos ((mem_vectorattribs attribs j).2 ⟨hj, hnt, ht, hv3⟩)]
    exact flatT_xy_vector _

/-- Witness of C10 on the normal attribute of `xyAttribs`: the normal `(1,0,-1)` of
point `1` becomes `(0,0,-1)`. -/
theorem C10_flatten_xy_witness :
    inBlocks xyContext.blocks 1 ∧
    (((xyAttribs.getD 1 default).typeInfo = GA_TypeInfo.GA_TYPE_POINT ∨
        (xyAttribs.getD 1 default).typeInfo = GA_TypeInfo.GA_TYPE_HPOINT) →
      ((cookMySop xyParms id default xyContext xyAttribs).getD 1 default).values 1 =
        ⟨((xyAttribs.getD 1 default).values 1).x, ((xyAttribs.getD 1 default).values 1).y, 2⟩) ∧
    ((xyAttribs.getD 1 default).typeInfo = GA_TypeInfo.GA_TYPE_NORMAL →
      ((cookMySop xyParms id default xyContext xyAttribs).getD 1 default).values 1 =
        if dot ((xyAttribs.getD 1 default).values 1) ⟨0, 0, 1⟩ < 0 then ⟨0, 0, -1⟩
        else ⟨0, 0, 1⟩) ∧
    ((xyAttribs.getD 1 default).typeInfo = GA_TypeInfo.GA_TYPE_VECTOR →
      ((cookMySop xyParms id default xyContext xyAttribs).getD 1 default).values 1 =
        ⟨((xyAttribs.getD 1 default).values 1).x, ((xyAttribs.getD 1 default).values 1).y, 0⟩) :=
  ⟨⟨(0, 4), List.mem_singleton.2 rfl, by decide, by decide⟩,
    C10_flatten_xy xyParms id default xyContext xyAttribs rfl rfl (Or.inl rfl)
      (fun _ => rfl) (fun _ => rfl) (fun _ => rfl) (fun _ => rfl) 1
      ⟨(0, 4), List.mem_singleton.2 rfl, by decide, by decide⟩ 1 (by decide) rfl rfl⟩

/-! ## Claims on the intersection fraction -/

/-- C3: for every plane and every two positions of which exactly one is clipped,
the position `p0 + t * (p1 - p0)` at `t = clippedDist(p0, p1)` has
`dot(n, position - o) = 0`. -/
theorem C3_cut_point_on_plane (org nml p0 p1 : UT_Vector3)
    (h : isClippedPos org nml p0 ≠ isClippedPos org nml p1) :
    dot nml (p0 + (p1 - p0) * clippedDistPos org nml p0 p1 - org) = 0 :=
  dot_lerp_clippedDistPos org nml p0 p1 h

/-- Witness of C3 on the edge from `(0,0,0)` to `(1,0,0)` and the plane `x = 1/2`. -/
theorem C3_cut_point_on_plane_witness :
    dot ⟨1, 0, 0⟩ ((⟨0, 0, 0⟩ : UT_Vector3) + ((⟨1, 0, 0⟩ : UT_Vector3) - ⟨0, 0, 0⟩) *
      clippedDistPos ⟨1/2, 0, 0⟩ ⟨1, 0, 0⟩ ⟨0, 0, 0⟩ ⟨1, 0, 0⟩ - ⟨1/2, 0, 0⟩) = 0 :=
  C3_cut_point_on_plane ⟨1/2, 0, 0⟩ ⟨1, 0, 0⟩ ⟨0, 0, 0⟩ ⟨1, 0, 0⟩ (by decide!)

/-! ## The unit-square scenario -/

/-- C4: clipping the unit square by the plane through `(1/2,0,0)` with normal
`(1,0,0)` appends the two points `(1/2,0,0)` and `(1/2,1,0)`, creates one new
closed quad wired to `(1/2,0,0), (1,0,0), (1,1,0), (1/2,1,0)` in that order,
destroys the original primitive and frees the points `0` and `3`. -/
theorem C4_unit_square (parse : String → GU_Detail → Option (List Nat)) :
    cook parse "" ⟨1/2, 0, 0⟩ ⟨1, 0, 0⟩ unitSquare =
      { points := [none, some ⟨1, 0, 0⟩, some ⟨1, 1, 0⟩, none,
                   some ⟨1/2, 0, 0⟩, some ⟨1/2, 1, 0⟩]
        vertices := [none, none, none, none, some 4, some 1, some 2, some 5]
        primitives := [none, some ⟨GA_PRIMPOLY, true, [4, 5, 6, 7]⟩] } := by
  have hg : cookGroup parse "" unitSquare = none := by simp [cookGroup]
  unfold cook
  rw [hg]
  decide!

/-! ## Claims on the cut entries and the two groups -/

/-- An iteration of the walk over a crossed edge appends, last, the cut of the edge:
the vertex of the lower point first, then the vertex of the higher point, with the
fraction measured from the lower point. -/
theorem walkStep_cut (gdp : GU_Detail) (org nml : UT_Vector3) (pr nvtx i0 : Nat) (s : WalkState)
    (hc : isClipped gdp org nml (primPoint gdp pr i0) ≠
      isClipped gdp org nml (primPoint gdp pr ((i0 + 1) % nvtx))) :
    ∃ v0 v1, (walkStep gdp org nml pr nvtx s i0).vert0s.getLast? = some v0 ∧
      (walkStep gdp org nml pr nvtx s i0).vert1s.getLast? = some (some v1) ∧
      (walkStep gdp org nml pr nvtx s i0).dists.getLast? =
        some (clippedDist gdp org nml
          (min (primPoint gdp pr i0) (primPoint gdp pr ((i0 + 1) % nvtx)))
          (max (primPoint gdp pr i0) (primPoint gdp pr ((i0 + 1) % nvtx)))) ∧
      gdp.vertexPoint v0 = min (primPoint gdp pr i0) (primPoint gdp pr ((i0 + 1) % nvtx)) ∧
      gdp.vertexPoint v1 = max (primPoint gdp pr i0) (primPoint gdp pr ((i0 + 1) % nvtx)) := by
  unfold primPoint at hc ⊢
  by_cases hlt : gdp.vertexPoint (gdp.getPrimitiveVertexOffset pr ((i0 + 1) % nvtx)) <
      gdp.vertexPoint (gdp.getPrimitiveVertexOffset pr i0)
  · refine ⟨gdp.getPrimitiveVertexOffset pr ((i0 + 1) % nvtx),
      gdp.getPrimitiveVertexOffset pr i0, ?_, ?_, ?_, ?_, ?_⟩
    · unfold walkStep
      simp only [hc, hlt, ne_eq, not_false_eq_true, if_true]
      exact List.getLast?_concat _
    · unfold walkStep
      simp only [hc, hlt, ne_eq, not_false_eq_true, if_true]
      exact List.getLast?_concat _
    · unfold walkStep
      simp only [hc, hlt, ne_eq, not_false_eq_true, if_true]
      rw [min_eq_right hlt.le, max_eq_left hlt.le]
      exact List.getLast?_concat _
    · rw [min_eq_right hlt.le]
    · rw [max_eq_left hlt.le]
  · refine ⟨gdp.getPrimitiveVertexOffset pr i0,
      gdp.getPrimitiveVertexOffset pr ((i0 + 1) % nvtx), ?_, ?_, ?_, ?_, ?_⟩
    · unfold walkStep
      simp only [hc, hlt, ne_eq, not_false_eq_true, if_true, if_false]
      exact List.getLast?_concat _
    · unfold walkStep
      simp only [hc, hlt, ne_eq, not_false_eq_true, if_true, if_false]
      exact List.getLast?_concat _
    · unfold walkStep
      simp only [hc, hlt, ne_eq, not_false_eq_true, if_true, if_false]
      rw [min_eq_left (not_lt.mp hlt), max_eq_right (not_lt.mp hlt)]
      exact List.getLast?_concat _
    · rw [min_eq_left (not_lt.mp hlt)]
    · rw [max_eq_right (not_lt.mp hlt)]

/-- C11: the cut an iteration of the walk records for a crossed edge does not depend
on the direction of the traversal: whether the edge is met from `a` to `b` (polygon
`pr`, iteration `i0`) or from `b` to `a` (polygon `pr'`, iteration `i0'`), the entry
appended last holds the vertex of the lower point first and the vertex of the higher
point second, with the fraction `clippedDist(min(a,b), max(a,b))`; the two entries
have the same fraction and the same interpolated position. -/
theorem C11_order_independent_cut (gdp : GU_Detail) (org nml : UT_Vector3)
    (pr nvtx i0 pr' nvtx' i0' : Nat) (s s' : WalkState)
    (hc : isClipped gdp org nml (primPoint gdp pr i0) ≠
      isClipped gdp org nml (primPoint gdp pr ((i0 + 1) % nvtx)))
    (h1 : primPoint gdp pr' i0' = primPoint gdp pr ((i0 + 1) % nvtx))
    (h2 : primPoint gdp pr' ((i0' + 1) % nvtx') = primPoint gdp pr i0) :
    ∃ v0 v1 w0 w1 t,
      (walkStep gdp org nml pr nvtx s i0).vert0s.getLast? = some v0 ∧
      (walkStep gdp org nml pr nvtx s i0).vert1s.getLast? = some (some v1) ∧
      (walkStep gdp org nml pr nvtx s i0).dists.getLast? = some t ∧
      (walkStep gdp org nml pr' nvtx' s' i0').vert0s.getLast? = some w0 ∧
      (walkStep gdp org nml pr' nvtx' s' i0').vert1s.getLast? = some (some w1) ∧
      (walkStep gdp org nml pr' nvtx' s' i0').dists.getLast? = some t ∧
      t = clippedDist gdp org nml
        (min (primPoint gdp pr i0) (primPoint gdp pr ((i0 + 1) % nvtx)))
        (max (primPoint gdp pr i0) (primPoint gdp pr ((i0 + 1) % nvtx))) ∧
      gdp.vertexPoint v0 = min (primPoint gdp pr i0) (primPoint gdp pr ((i0 + 1) % nvtx)) ∧
      gdp.vertexPoint v1 = max (primPoint gdp pr i0) (primPoint gdp pr ((i0 + 1) % nvtx)) ∧
      gdp.vertexPoint w0 = gdp.vertexPoint v0 ∧ gdp.vertexPoint w1 = gdp.vertexPoint v1 ∧
      lerp (gdp.getPos3 (gdp.vertexPoint v0)) (gdp.getPos3 (gdp.vertexPoint v1)) t =
        lerp (gdp.getPos3 (gdp.vertexPoint w0)) (gdp.getPos3 (gdp.vertexPoint w1)) t := by
  have hc' : isClipped gdp org nml (primPoint gdp pr' i0') ≠
      isClipped gdp org nml (primPoint gdp pr' ((i0' + 1) % nvtx')) := by
    rw [h1, h2]
    exact fun h => hc h.symm
  obtain ⟨v0, v1, a1, a2, a3, a4, a5⟩ := walkStep_cut gdp org nml pr nvtx i0 s hc
  obtain ⟨w0, w1, b1, b2, b3, b4, b5⟩ := walkStep_cut gdp org nml pr' nvtx' i0' s' hc'
  rw [h1, h2] at b3 b4 b5
  rw [min_comm, max_comm] at b3
  rw [min_comm] at b4
  rw [max_comm] at b5
  refine ⟨v0, v1, w0, w1, _, a1, a2, a3, b1, b2, b3, rfl, a4, a5, ?_, ?_, ?_⟩
  · rw [a4, b4]
  · rw [a5, b5]
  · rw [a4, a5, b4, b5]

/-- Witness of C11 on the edge the two triangles of `sharedEdge` share. -/
theorem C11_order_independent_cut_witness :
    ∃ v0 v1 w0 w1 t,
      (walkStep sharedEdge ⟨0, 0, 0⟩ ⟨1, 0, 0⟩ 0 3 ⟨[], [], [], []⟩ 0).vert0s.getLast? =
        some v0 ∧
      (walkStep sharedEdge ⟨0, 0, 0⟩ ⟨1, 0, 0⟩ 0 3 ⟨[], [], [], []⟩ 0).vert1s.getLast? =
        some (some v1) ∧
      (walkStep sharedEdge ⟨0, 0, 0⟩ ⟨1, 0, 0⟩ 0 3 ⟨[], [], [], []⟩ 0).dists.getLast? =
        some t ∧
      (walkStep sharedEdge ⟨0, 0, 0⟩ ⟨1, 0, 0⟩ 1 3 ⟨[], [], [], []⟩ 0).vert0s.getLast? =
        some w0 ∧
      (walkStep sharedEdge ⟨0, 0, 0⟩ ⟨1, 0, 0⟩ 1 3 ⟨[], [], [], []⟩ 0).vert1s.getLast? =
        some (some w1) ∧
      (walkStep sharedEdge ⟨0, 0, 0⟩ ⟨1, 0, 0⟩ 1 3 ⟨[], [], [], []⟩ 0).dists.getLast? =
        some t ∧
      t = clippedDist sharedEdge ⟨0, 0, 0⟩ ⟨1, 0, 0⟩
        (min (primPoint sharedEdge 0 0) (primPoint sharedEdge 0 ((0 + 1) % 3)))
        (max (primPoint sharedEdge 0 0) (primPoint sharedEdge 0 ((0 + 1) % 3))) ∧
      sharedEdge.vertexPoint v0 =
        min (primPoint sharedEdge 0 0) (primPoint sharedEdge 0 ((0 + 1) % 3)) ∧
      sharedEdge.vertexPoint v1 =
        max (primPoint sharedEdge 0 0) (primPoint sharedEdge 0 ((0 + 1) % 3)) ∧
      sharedEdge.vertexPoint w0 = sharedEdge.vertexPoint v0 ∧
      sharedEdge.vertexPoint w1 = sharedEdge.vertexPoint v1 ∧
      lerp (sharedEdge.getPos3 (sharedEdge.vertexPoint v0))
          (sharedEdge.getPos3 (sharedEdge.vertexPoint v1)) t =
        lerp (sharedEdge.getPos3 (sharedEdge.vertexPoint w0))
          (sharedEdge.getPos3 (sharedEdge.vertexPoint w1)) t :=
  C11_order_independent_cut sharedEdge ⟨0, 0, 0⟩ ⟨1, 0, 0⟩ 0 3 0 1 3 0 ⟨[], [], [], []⟩
    ⟨[], [], [], []⟩ (by decide!) (by decide) (by decide)

/-- Counterexample to C13 as stated: after the scan of the unit square with the plane
`x = 1/2`, primitive `0` is in the removal set and in the reconstruction set. -/
theorem C13_counterexample :
    0 ∈ (scan unitSquare ⟨1/2, 0, 0⟩ ⟨1, 0, 0⟩ none).rm_polys ∧
      0 ∈ (scan unitSquare ⟨1/2, 0, 0⟩ ⟨1, 0, 0⟩ none).clipped_polys := by
  decide!

/-- C13 (amended): after the scan every primitive of the reconstruction set is in the
removal set, and a primitive of the removal set is outside the reconstruction set
exactly when all of its vertices are clipped. -/
theorem C13_reconstruction_subset_removal (gdp : GU_Detail) (org nml : UT_Vector3)
    (group : Option (List Nat)) (pr : Nat) :
    (pr ∈ (scan gdp org nml group).clipped_polys → pr ∈ (scan gdp org nml group).rm_polys) ∧
    (pr ∈ (scan gdp org nml group).rm_polys →
      (pr ∉ (scan gdp org nml group).clipped_polys ↔
        countClipped gdp org nml pr = gdp.getPrimitiveVertexCount pr)) := by
  refine ⟨clipped_polys_sublist gdp org nml group pr, fun hrm => ?_⟩
  obtain ⟨h1, h2, h3⟩ := mem_rm_polys.1 hrm
  constructor
  · intro hn
    by_contra hc
    exact hn (mem_clipped_polys.2 ⟨h1, h2, h3, hc⟩)
  · intro hc hcl
    exact (mem_clipped_polys.1 hcl).2.2.2 hc

/-- Witness of the amended C13 on the unit square and the plane `x = 1/2`. -/
theorem C13_reconstruction_subset_removal_witness :
    0 ∈ (scan unitSquare ⟨1/2, 0, 0⟩ ⟨1, 0, 0⟩ none).rm_polys ∧
    ((0 ∉ (scan unitSquare ⟨1/2, 0, 0⟩ ⟨1, 0, 0⟩ none).clipped_polys ↔
      countClipped unitSquare ⟨1/2, 0, 0⟩ ⟨1, 0, 0⟩ 0 =
        unitSquare.getPrimitiveVertexCount 0)) :=
  ⟨(C13_reconstruction_subset_removal unitSquare ⟨1/2, 0, 0⟩ ⟨1, 0, 0⟩ none 0).1 (by decide!),
    (C13_reconstruction_subset_removal unitSquare ⟨1/2, 0, 0⟩ ⟨1, 0, 0⟩ none 0).2
      (by decide!)⟩

/-- C14: when exactly one of two positions is clipped, the denominator of
`clippedDist` is not zero, in either order of the two positions, so the fraction is
the quotient itself and not the value of the zero-denominator branch. -/
theorem C14_degenerate_unreachable (org nml p0 p1 : UT_Vector3)
    (h : isClippedPos org nml p0 ≠ isClippedPos org nml p1) :
    dot nml (p1 - p0) ≠ 0 ∧ dot nml (p0 - p1) ≠ 0 ∧
      clippedDistPos org nml p0 p1 = dot nml (org - p0) / dot nml (p1 - p0) ∧
      clippedDistPos org nml p1 p0 = dot nml (org - p1) / dot nml (p0 - p1) := by
  obtain ⟨a1, a2⟩ := clippedDistPos_of_crossing org nml p0 p1 h
  obtain ⟨b1, b2⟩ := clippedDistPos_of_crossing org nml p1 p0 (fun e => h e.symm)
  exact ⟨a1, b1, a2, b2⟩

/-- Witness of C14 on the positions `(0,0,0)` and `(1,0,0)` and the plane `x = 1/2`. -/
theorem C14_degenerate_unreachable_witness :
    dot ⟨1, 0, 0⟩ ((⟨1, 0, 0⟩ : UT_Vector3) - ⟨0, 0, 0⟩) ≠ 0 ∧
      dot ⟨1, 0, 0⟩ ((⟨0, 0, 0⟩ : UT_Vector3) - ⟨1, 0, 0⟩) ≠ 0 ∧
      clippedDistPos ⟨1/2, 0, 0⟩ ⟨1, 0, 0⟩ ⟨0, 0, 0⟩ ⟨1, 0, 0⟩ =
        dot ⟨1, 0, 0⟩ ((⟨1/2, 0, 0⟩ : UT_Vector3) - ⟨0, 0, 0⟩) /
          dot ⟨1, 0, 0⟩ ((⟨1, 0, 0⟩ : UT_Vector3) - ⟨0, 0, 0⟩) ∧
      clippedDistPos ⟨1/2, 0, 0⟩ ⟨1, 0, 0⟩ ⟨1, 0, 0⟩ ⟨0, 0, 0⟩ =
        dot ⟨1, 0, 0⟩ ((⟨1/2, 0, 0⟩ : UT_Vector3) - ⟨1, 0, 0⟩) /
          dot ⟨1, 0, 0⟩ ((⟨0, 0, 0⟩ : UT_Vector3) - ⟨1, 0, 0⟩) :=
  C14_degenerate_unreachable ⟨1/2, 0, 0⟩ ⟨1, 0, 0⟩ ⟨0, 0, 0⟩ ⟨1, 0, 0⟩ (by decide!)

/-- C15: in the output of the cook of a well-formed detail, every vertex of every
primitive created by the cook is wired to a point on the kept side of the plane:
either a point of the input that is not clipped, at its input position, or a point
appended for the cut of a crossed edge, which lies on the plane. -/
theorem C15_new_polygons_kept_side (gdp : GU_Detail) (org nml : UT_Vector3)
    (group : Option (List Nat)) (hwf : gdp.wellFormed = true) (q : Nat)
    (hq : gdp.primitives.length ≤ q) (v : Nat)
    (hv : v ∈ (cookWithGroup gdp org nml group).primVertices q) :
    ∃ p, (cookWithGroup gdp org nml group).vertices.getD v none = some p ∧
      0 ≤ dot nml ((cookWithGroup gdp org nml group).getPos3 p - org) ∧
      ((p < gdp.points.length ∧ isClipped gdp org nml p = false ∧
          (cookWithGroup gdp org nml group).getPos3 p = gdp.getPos3 p) ∨
        (gdp.points.length ≤ p ∧
          dot nml ((cookWithGroup gdp org nml group).getPos3 p - org) = 0 ∧
          ∃ K ∈ (scan gdp org nml group).clipped_polys.flatMap (crossedEdges gdp org nml),
            (cookWithGroup gdp org nml group).points.getD p none =
              some (cutPos gdp org nml K))) := by
  have hl := partialPolys_scan gdp org nml group
  obtain ⟨hinv, hnp, hsub, _⟩ := rebuild_inv hwf _ hl
  have hout : cookWithGroup gdp org nml group =
      (rebuild gdp org nml (scan gdp org nml group).clipped_polys).gdp.destroyPrimitiveOffsets
        (scan gdp org nml group).rm_polys := rfl
  have hqrm : q ∉ (scan gdp org nml group).rm_polys :=
    fun h => absurd (lt_of_mem_rm_polys h) (not_lt.mpr hq)
  rw [hout, destroy_primVertices _ _ _ hqrm] at hv
  unfold GU_Detail.primVertices at hv
  cases hP : (rebuild gdp org nml (scan gdp org nml group).clipped_polys).gdp.primitives.getD
      q none with
  | none => rw [hP] at hv; exact absurd hv (List.not_mem_nil _)
  | some P =>
    rw [hP] at hv
    obtain ⟨hv0, p, hvp⟩ := (hnp q P hq hP).2.2 v hv
    have hvd : v ∉ (rebuild gdp org nml (scan gdp org nml group).clipped_polys).gdp.deadVertices
        (scan gdp org nml group).rm_polys :=
      fun h => absurd (cook_dead_lt hwf hinv.prims_ext h) (not_lt.mpr hv0)
    obtain ⟨_, e2, e3⟩ := destroy_surviving_vertex _ _ org nml hvd hvp
    have hnc := new_vertex_not_clipped hinv hv0 hvp
    rw [← e3, ← hout] at hnc
    have hpos : (cookWithGroup gdp org nml group).getPos3 p =
        (rebuild gdp org nml (scan gdp org nml group).clipped_polys).gdp.getPos3 p := by
      unfold GU_Detail.getPos3
      rw [hout, e2]
    refine ⟨p, ?_, (isClipped_eq_false_iff _ _ _ _).1 hnc, ?_⟩
    · rw [hout, destroy_vertices_getD, if_neg hvd]
      exact hvp
    · rcases hinv.new_wired v p hv0 hvp with ⟨h1, h2⟩ | h
      · exact Or.inl ⟨h1, h2, by rw [hpos, getPos3_of_isPrefix hinv.points_ext h1]⟩
      · right
        obtain ⟨kv, hkv, rfl⟩ := List.mem_map.1 h
        obtain ⟨c1, c2, c3⟩ := hinv.cut_ok kv hkv
        refine ⟨c1, ?_, kv.1, hsub kv hkv, by rw [hout, e2]; exact c2⟩
        rw [hpos, getPos3_of_getD c2]
        unfold cutPos clippedDist
        exact dot_lerp_clippedDistPos _ _ _ _ c3

/-- Witness of C15 on the first vertex of the quad the clip of the unit square
creates. -/
theorem C15_new_polygons_kept_side_witness :
    unitSquare.wellFormed = true ∧
    ∃ p, (cookWithGroup unitSquare ⟨1/2, 0, 0⟩ ⟨1, 0, 0⟩ none).vertices.getD 4 none = some p ∧
      0 ≤ dot ⟨1, 0, 0⟩
        ((cookWithGroup unitSquare ⟨1/2, 0, 0⟩ ⟨1, 0, 0⟩ none).getPos3 p - ⟨1/2, 0, 0⟩) ∧
      ((p < unitSquare.points.length ∧ isClipped unitSquare ⟨1/2, 0, 0⟩ ⟨1, 0, 0⟩ p = false ∧
          (cookWithGroup unitSquare ⟨1/2, 0, 0⟩ ⟨1, 0, 0⟩ none).getPos3 p =
            unitSquare.getPos3 p) ∨
        (unitSquare.points.length ≤ p ∧
          dot ⟨1, 0, 0⟩
            ((cookWithGroup unitSquare ⟨1/2, 0, 0⟩ ⟨1, 0, 0⟩ none).getPos3 p - ⟨1/2, 0, 0⟩) =
              0 ∧
          ∃ K ∈ (scan unitSquare ⟨1/2, 0, 0⟩ ⟨1, 0, 0⟩ none).clipped_polys.flatMap
              (crossedEdges unitSquare ⟨1/2, 0, 0⟩ ⟨1, 0, 0⟩),
            (cookWithGroup unitSquare ⟨1/2, 0, 0⟩ ⟨1, 0, 0⟩ none).points.getD p none =
              some (cutPos unitSquare ⟨1/2, 0, 0⟩ ⟨1, 0, 0⟩ K))) :=
  ⟨by decide,
    C15_new_polygons_kept_side unitSquare ⟨1/2, 0, 0⟩ ⟨1, 0, 0⟩ none (by decide) 1
      (by decide) 4 (by decide!)⟩

/-! ## The kinds of the entries -/

theorem walkKinds_succ (c : Nat → Bool) (n k : Nat) :
    walkKinds c n (k + 1) = walkKinds c n k ++ stepKinds c n k := by
  simp [walkKinds, List.range_succ, List.flatMap_append]

/-- The invariant of the list of kinds after `k` iterations. -/
theorem walkKinds_inv (c : Nat → Bool) (n k : Nat) (hk : k ≤ n) :
    List.Chain' (KindSucc n) (walkKinds c n k) ∧
    (∀ a, (walkKinds c n k).getLast? = some a →
      (a.1 ≠ EntryKind.down → a.2 + 1 = k ∧ c (k % n) = false) ∧
      (a.1 = EntryKind.down → c (k % n) = true)) ∧
    (walkKinds c n k = [] → k = 0 ∨ (c 0 = true ∧ c (k % n) = true)) ∧
    (∀ a, (walkKinds c n k).head? = some a →
      (c 0 = false → a = (EntryKind.kept, 0)) ∧ (c 0 = true → a.1 = EntryKind.up)) := by
  induction k with
  | zero =>
    simp [walkKinds]
  | succ k ih =>
    have hkn : k < n := hk
    obtain ⟨h1, h2, h3, h4⟩ := ih (Nat.le_of_lt hkn)
    have hkmod : k % n = k := Nat.mod_eq_of_lt hkn
    rw [hkmod] at h2 h3
    rw [walkKinds_succ]
    rcases Bool.eq_false_or_eq_true (c k) with hc0 | hc0 <;>
    rcases Bool.eq_false_or_eq_true (c ((k + 1) % n)) with hc1 | hc1
    · -- clipped, clipped: nothing is appended
      have hs : stepKinds c n k = [] := by simp [stepKinds, hc0, hc1]
      rw [hs, List.append_nil]
      refine ⟨h1, ?_, ?_, h4⟩
      · intro a ha
        obtain ⟨a1, a2⟩ := h2 a ha
        refine ⟨fun hnd => ?_, fun _ => hc1⟩
        have := (a1 hnd).2
        rw [hc0] at this
        cases this
      · intro hnil
        right
        rcases h3 hnil with h | h
        · subst h; exact ⟨hc0, hc1⟩
        · exact ⟨h.1, hc1⟩
    · -- clipped, kept: an up cut
      have hs : stepKinds c n k = [(EntryKind.up, k)] := by simp [stepKinds, hc0, hc1]
      rw [hs]
      refine ⟨?_, ?_, ?_, ?_⟩
      · refine List.Chain'.append h1 (List.chain'_singleton _) ?_
        intro a ha b hb
        simp only [List.head?_cons, Option.mem_def, Option.some.injEq] at hb
        subst hb
        obtain ⟨a1, a2⟩ := h2 a ha
        by_cases hd : a.1 = EntryKind.down
        · unfold KindSucc
          rw [hd]
        · have := (a1 hd).2
          rw [hc0] at this
          cases this
      · intro a ha
        rw [List.getLast?_concat] at ha
        cases ha
        exact ⟨fun _ => ⟨rfl, hc1⟩, fun h => (by cases h)⟩
      · intro hnil
        simp at hnil
      · intro a ha
        rw [List.head?_append] at ha
        cases hL : (walkKinds c n k).head? with
        | some b =>
          rw [hL] at ha
          cases ha
          exact h4 _ hL
        | none =>
          rw [hL] at ha
          cases ha
          rw [List.head?_eq_none_iff] at hL
          rcases h3 hL with h | h
          · subst h
            exact ⟨fun h => (by rw [hc0] at h; cases h), fun _ => rfl⟩
          · exact ⟨fun h' => (by rw [h.1] at h'; cases h'), fun _ => rfl⟩
    · -- kept, clipped: the vertex, then a down cut
      have hs : stepKinds c n k = [(EntryKind.kept, k), (EntryKind.down, k)] := by
        simp [stepKinds, hc0, hc1]
      rw [hs]
      refine ⟨?_, ?_, ?_, ?_⟩
      · refine List.Chain'.append h1 ?_ ?_
        · rw [List.chain'_pair]
          exact Or.inr rfl
        · intro a ha b hb
          simp only [List.head?_cons, Option.mem_def, Option.some.injEq] at hb
          subst hb
          obtain ⟨a1, a2⟩ := h2 a ha
          by_cases hd : a.1 = EntryKind.down
          · have := a2 hd
            rw [hc0] at this
            cases this
          · have hk' := (a1 hd).1
            unfold KindSucc
            have hmod : (a.2 + 1) % n = k := by rw [hk', hkmod]
            cases hk1 : a.1 with
            | kept => simp only []; left; rw [hmod]
            | up => simp only []; rw [hmod]
            | down => exact absurd hk1 hd
      · intro a ha
        have : (walkKinds c n k ++ [(EntryKind.kept, k), (EntryKind.down, k)]).getLast? =
            some (EntryKind.down, k) := by
          simp [List.getLast?_append]
        rw [this] at ha
        cases ha
        exact ⟨fun h => absurd rfl h, fun _ => hc1⟩
      · intro hnil
        simp at hnil
      · intro a ha
        rw [List.head?_append] at ha
        cases hL : (walkKinds c n k).head? with
        | some b =>
          rw [hL] at ha
          cases ha
          exact h4 _ hL
        | none =>
          rw [hL] at ha
          cases ha
          rw [List.head?_eq_none_iff] at hL
          rcases h3 hL with h | h
          · subst h
            exact ⟨fun _ => rfl, fun h => (by rw [hc0] at h; cases h)⟩
          · have := h.2
            rw [hc0] at this
            cases this
    · -- kept, kept: the vertex
      have hs : stepKinds c n k = [(EntryKind.kept, k)] := by simp [stepKinds, hc0, hc1]
      rw [hs]
      refine ⟨?_, ?_, ?_, ?_⟩
      · refine List.Chain'.append h1 (List.chain'_singleton _) ?_
        intro a ha b hb
        simp only [List.head?_cons, Option.mem_def, Option.some.injEq] at hb
        subst hb
        obtain ⟨a1, a2⟩ := h2 a ha
        by_cases hd : a.1 = EntryKind.down
        · have := a2 hd
          rw [hc0] at this
          cases this
        · have hk' := (a1 hd).1
          unfold KindSucc
          have hmod : (a.2 + 1) % n = k := by rw [hk', hkmod]
          cases hk1 : a.1 with
          | kept => simp only []; left; rw [hmod]
          | up => simp only []; rw [hmod]
          | down => exact absurd hk1 hd
      · intro a ha
        rw [List.getLast?_concat] at ha
        cases ha
        exact ⟨fun _ => ⟨rfl, hc1⟩, fun h => (by cases h)⟩
      · intro hnil
        simp at hnil
      · intro a ha
        rw [List.head?_append] at ha
        cases hL : (walkKinds c n k).head? with
        | some b =>
          rw [hL] at ha
          cases ha
          exact h4 _ hL
        | none =>
          rw [hL] at ha
          cases ha
          rw [List.head?_eq_none_iff] at hL
          rcases h3 hL with h | h
          · subst h
            exact ⟨fun _ => rfl, fun h => (by rw [hc0] at h; cases h)⟩
          · have := h.2
            rw [hc0] at this
            cases this

theorem getD_eq_get_of_lt {α : Type} (l : List α) (i : Nat) (h : i < l.length) (d : α) :
    l.getD i d = l.get ⟨i, h⟩ := by
  rw [List.getD_eq_getElem _ _ h]
  rfl

theorem getLast?_eq_getD {α : Type} (l : List α) (h : 0 < l.length) (d : α) :
    l.getLast? = some (l.getD (l.length - 1) d) := by
  rw [List.getLast?_eq_getElem?, List.getD_eq_getElem?_getD]
  have : l.length - 1 < l.length := by omega
  rw [List.getElem?_eq_getElem this]
  rfl

theorem head?_eq_getD {α : Type} (l : List α) (h : 0 < l.length) (d : α) :
    l.head? = some (l.getD 0 d) := by
  cases l with
  | nil => simp at h
  | cons a t => rfl

/-- In the cyclic list of the kinds of all entries every entry is followed by an entry
it may be followed by. -/
theorem walkKinds_cyclic (c : Nat → Bool) (n : Nat) (idx : Nat)
    (hidx : idx < (walkKinds c n n).length) :
    KindSucc n ((walkKinds c n n).getD idx (EntryKind.kept, 0))
      ((walkKinds c n n).getD ((idx + 1) % (walkKinds c n n).length) (EntryKind.kept, 0)) := by
  obtain ⟨h1, h2, _, h4⟩ := walkKinds_inv c n n (le_refl _)
  have hpos : 0 < (walkKinds c n n).length := Nat.lt_of_le_of_lt (Nat.zero_le _) hidx
  by_cases hlast : idx + 1 < (walkKinds c n n).length
  · rw [Nat.mod_eq_of_lt hlast, getD_eq_get_of_lt _ _ hidx, getD_eq_get_of_lt _ _ hlast]
    exact List.chain'_iff_get.1 h1 idx (by omega)
  · have hi : idx = (walkKinds c n n).length - 1 := by omega
    have hwrap : (idx + 1) % (walkKinds c n n).length = 0 := by
      rw [hi, Nat.sub_add_cancel hpos, Nat.mod_self]
    rw [hwrap, hi]
    have hl := getLast?_eq_getD (walkKinds c n n) hpos (EntryKind.kept, 0)
    have hh := head?_eq_getD (walkKinds c n n) hpos (EntryKind.kept, 0)
    obtain ⟨a1, a2⟩ := h2 _ hl
    obtain ⟨b1, b2⟩ := h4 _ hh
    rw [Nat.mod_self] at a1 a2
    generalize (walkKinds c n n).getD ((walkKinds c n n).length - 1) (EntryKind.kept, 0) = a
      at a1 a2 ⊢
    generalize (walkKinds c n n).getD 0 (EntryKind.kept, 0) = b at b1 b2 ⊢
    unfold KindSucc
    cases hk : a.1 with
    | kept =>
      simp only []
      left
      have := a1 (by rw [hk]; decide)
      rw [this.1, Nat.mod_self]
      exact b1 this.2
    | up =>
      simp only []
      have := a1 (by rw [hk]; decide)
      rw [this.1, Nat.mod_self]
      exact b1 this.2
    | down =>
      simp only []
      exact b2 (a2 hk)

theorem mod_window {a N : Nat} (h : a < N + N) :
    a % N = if a < N then a else a - N := by
  split_ifs with h1
  · exact Nat.mod_eq_of_lt h1
  · rw [Nat.mod_eq_sub_mod (not_lt.mp h1), Nat.mod_eq_of_lt (by omega)]

theorem succ_mod_mod (a N : Nat) : (a % N + 1) % N = (a + 1) % N := by
  rw [Nat.add_mod (a % N) 1 N, Nat.mod_mod, ← Nat.add_mod]

theorem exists_getD_of_mem_nat {S : List Nat} {x : Nat} (h : x ∈ S) :
    ∃ j < S.length, S.getD j 0 = x := by
  obtain ⟨j, hj, hx⟩ := List.getElem_of_mem h
  exact ⟨j, hj, by rw [List.getD_eq_getElem _ _ hj, hx]⟩

theorem getD_mem_of_lt {S : List Nat} {j : Nat} (hj : j < S.length) : S.getD j 0 ∈ S := by
  rw [List.getD_eq_getElem _ _ hj]
  exact List.getElem_mem _

/-- The next start position is reached after `loopCount` entries, and no start
position lies strictly between. -/
theorem loop_next_start (S : List Nat) (N : Nat) (hS : S.Pairwise (· < ·))
    (hlt : ∀ s ∈ S, s < N) (i : Nat) (hi : i < S.length) :
    1 ≤ loopCount S N i ∧ loopCount S N i ≤ N ∧
    (S.getD i 0 + loopCount S N i) % N = S.getD ((i + 1) % S.length) 0 ∧
    ∀ v, 0 < v → v < loopCount S N i → (S.getD i 0 + v) % N ∉ S := by
  have hsi : S.getD i 0 < N := hlt _ (getD_mem_of_lt hi)
  have hle : ∀ j, j < S.length → i ≤ j → S.getD i 0 ≤ S.getD j 0 :=
    fun j hj hij => pairwise_getD_le S hS i j hij hj
  have hle' : ∀ j, j ≤ i → S.getD j 0 ≤ S.getD i 0 :=
    fun j hji => pairwise_getD_le S hS j i hji hi
  by_cases hnext : i + 1 < S.length
  · have hs' : S.getD (i + 1) 0 < N := hlt _ (getD_mem_of_lt hnext)
    have hlt' : S.getD i 0 < S.getD (i + 1) 0 := by
      rw [List.getD_eq_getElem _ _ hi, List.getD_eq_getElem _ _ hnext]
      exact List.pairwise_iff_getElem.mp hS i (i + 1) hi hnext (Nat.lt_succ_self i)
    have hm : loopCount S N i = S.getD (i + 1) 0 - S.getD i 0 := by
      unfold loopCount
      rw [Nat.mod_eq_of_lt hnext]
      split_ifs with hc <;> omega
    rw [hm, Nat.mod_eq_of_lt hnext]
    refine ⟨by omega, by omega, ?_, ?_⟩
    · rw [Nat.add_sub_cancel' hlt'.le, Nat.mod_eq_of_lt hs']
    · intro v hv0 hv hmem
      rw [Nat.mod_eq_of_lt (by omega)] at hmem
      obtain ⟨j, hj, hx⟩ := exists_getD_of_mem_nat hmem
      rcases Nat.lt_or_ge i j with hij | hij
      · have := pairwise_getD_le S hS (i + 1) j hij hj
        omega
      · have := hle' j hij
        omega
  · have hik : i = S.length - 1 := by omega
    have hwrap : (i + 1) % S.length = 0 := by
      rw [hik, Nat.sub_add_cancel (by omega), Nat.mod_self]
    have h0 : S.getD 0 0 ≤ S.getD i 0 := hle' 0 (Nat.zero_le _)
    have hm : loopCount S N i = S.getD 0 0 + N - S.getD i 0 := by
      unfold loopCount
      rw [hwrap]
      split_ifs with hc <;> omega
    rw [hm, hwrap]
    refine ⟨by omega, by omega, ?_, ?_⟩
    · have : S.getD i 0 + (S.getD 0 0 + N - S.getD i 0) = S.getD 0 0 + N := by omega
      rw [this, Nat.add_mod_right, Nat.mod_eq_of_lt (by omega)]
    · intro v hv0 hv hmem
      rw [mod_window (by omega)] at hmem
      obtain ⟨j, hj, hx⟩ := exists_getD_of_mem_nat hmem
      have hj0 : S.getD 0 0 ≤ S.getD j 0 := pairwise_getD_le S hS 0 j (Nat.zero_le _) hj
      have hji : S.getD j 0 ≤ S.getD i 0 := hle' j (by omega)
      split_ifs at hx with hc <;> omega

/-- The shape of a loop: in a cyclic list of kinds in which every entry is followed
by an entry it may be followed by, the entries from a start position up to the next
one are an `up` cut, then kept vertices of consecutive iterations, at least one,
then a `down` cut. -/
theorem loop_shape (n : Nat) (A : List (EntryKind × Nat)) (S : List Nat)
    (hcyc : ∀ idx < A.length, KindSucc n (A.getD idx (EntryKind.kept, 0))
      (A.getD ((idx + 1) % A.length) (EntryKind.kept, 0)))
    (hS : S.Pairwise (· < ·))
    (hSmem : ∀ idx, idx ∈ S ↔ idx < A.length ∧ (A.getD idx (EntryKind.kept, 0)).1 = EntryKind.up)
    (i : Nat) (hi : i < S.length) :
    3 ≤ loopCount S A.length i ∧
    (A.getD (S.getD i 0) (EntryKind.kept, 0)).1 = EntryKind.up ∧
    (∀ v, 0 < v → v + 1 < loopCount S A.length i →
      A.getD ((S.getD i 0 + v) % A.length) (EntryKind.kept, 0) =
        (EntryKind.kept, ((A.getD (S.getD i 0) (EntryKind.kept, 0)).2 + v) % n)) ∧
    (A.getD ((S.getD i 0 + (loopCount S A.length i - 1)) % A.length)
      (EntryKind.kept, 0)).1 = EntryKind.down := by
  have hlt : ∀ s ∈ S, s < A.length := fun s hs => ((hSmem s).1 hs).1
  obtain ⟨hm1, hmN, hnext, hfree⟩ := loop_next_start S A.length hS hlt i hi
  have hs := (hSmem _).1 (getD_mem_of_lt hi)
  have hNpos : 0 < A.length := Nat.lt_of_le_of_lt (Nat.zero_le _) hs.1
  have hs' : (A.getD ((S.getD i 0 + loopCount S A.length i) % A.length)
      (EntryKind.kept, 0)).1 = EntryKind.up := by
    rw [hnext]
    exact ((hSmem _).1 (getD_mem_of_lt (Nat.mod_lt _ (Nat.lt_of_le_of_lt (Nat.zero_le _) hi)))).2
  -- the position after `v` entries and its successor
  have hpos : ∀ v, (S.getD i 0 + v) % A.length < A.length := fun v => Nat.mod_lt _ hNpos
  have hsucc : ∀ v, KindSucc n (A.getD ((S.getD i 0 + v) % A.length) (EntryKind.kept, 0))
      (A.getD ((S.getD i 0 + (v + 1)) % A.length) (EntryKind.kept, 0)) := by
    intro v
    have := hcyc _ (hpos v)
    rw [succ_mod_mod, Nat.add_assoc] at this
    exact this
  have hnotup : ∀ v, 0 < v → v < loopCount S A.length i →
      (A.getD ((S.getD i 0 + v) % A.length) (EntryKind.kept, 0)).1 ≠ EntryKind.up := by
    intro v hv0 hv hup
    exact hfree v hv0 hv ((hSmem _).2 ⟨hpos v, hup⟩)
  have h0 : A.getD ((S.getD i 0 + 0) % A.length) (EntryKind.kept, 0) =
      A.getD (S.getD i 0) (EntryKind.kept, 0) := by
    rw [Nat.add_zero, Nat.mod_eq_of_lt hs.1]
  -- the entry after the start is kept
  have hfirst : A.getD ((S.getD i 0 + 1) % A.length) (EntryKind.kept, 0) =
      (EntryKind.kept, ((A.getD (S.getD i 0) (EntryKind.kept, 0)).2 + 1) % n) := by
    have := hsucc 0
    rw [h0] at this
    unfold KindSucc at this
    rw [hs.2] at this
    exact this
  -- an entry followed by an `up` cut is a `down` cut
  have hpred : ∀ v, (A.getD ((S.getD i 0 + (v + 1)) % A.length) (EntryKind.kept, 0)).1 =
      EntryKind.up →
      (A.getD ((S.getD i 0 + v) % A.length) (EntryKind.kept, 0)).1 = EntryKind.down := by
    intro v hup
    have := hsucc v
    unfold KindSucc at this
    cases hk : (A.getD ((S.getD i 0 + v) % A.length) (EntryKind.kept, 0)).1 with
    | kept =>
      rw [hk] at this
      simp only [] at this
      rcases this with h | h <;> rw [h] at hup <;> cases hup
    | up =>
      rw [hk] at this
      simp only [] at this
      rw [this] at hup
      cases hup
    | down => rfl
  have hm2 : 2 ≤ loopCount S A.length i := by
    by_contra hc
    have h1 : loopCount S A.length i = 1 := by omega
    rw [h1, hfirst] at hs'
    cases hs'
  have hlast : (A.getD ((S.getD i 0 + (loopCount S A.length i - 1)) % A.length)
      (EntryKind.kept, 0)).1 = EntryKind.down := by
    apply hpred
    rw [Nat.sub_add_cancel hm1]
    exact hs'
  have hm3 : 3 ≤ loopCount S A.length i := by
    by_contra hc
    have h2 : loopCount S A.length i = 2 := by omega
    rw [h2, hfirst] at hlast
    cases hlast
  have hkept : ∀ v, 0 < v → v + 1 < loopCount S A.length i →
      (A.getD ((S.getD i 0 + v) % A.length) (EntryKind.kept, 0)).1 = EntryKind.kept := by
    intro v hv0 hv
    cases hk : (A.getD ((S.getD i 0 + v) % A.length) (EntryKind.kept, 0)).1 with
    | kept => rfl
    | up => exact absurd hk (hnotup v hv0 (by omega))
    | down =>
      exfalso
      have := hsucc v
      unfold KindSucc at this
      rw [hk] at this
      exact hnotup (v + 1) (by omega) hv this
  refine ⟨hm3, hs.2, ?_, hlast⟩
  intro v hv0 hv
  induction v with
  | zero => exact absurd hv0 (Nat.lt_irrefl 0)
  | succ v ih =>
    rcases Nat.eq_zero_or_pos v with hz | hvpos
    · subst hz
      exact hfirst
    · have hprev := ih hvpos (by omega)
      have := hsucc v
      unfold KindSucc at this
      rw [hprev] at this
      simp only [] at this
      have hk := hkept (v + 1) (by omega) hv
      rcases this with h | h
      · rw [h, succ_mod_mod, Nat.add_assoc]
      · rw [h] at hk
        cases hk

/-! ## Counting the crossings -/

/-- Around a cycle there are as many changes from true to false as from false to
true, and the changes are the ones and the others. -/
theorem cyclic_changes (c : Nat → Bool) (n k : Nat) (hk : k ≤ n) :
    (List.range k).countP (fun i => c i && !c ((i + 1) % n)) + (if c (k % n) then 1 else 0) =
      (List.range k).countP (fun i => !c i && c ((i + 1) % n)) + (if c 0 then 1 else 0) ∧
    (List.range k).countP (fun i => c i != c ((i + 1) % n)) =
      (List.range k).countP (fun i => c i && !c ((i + 1) % n)) +
        (List.range k).countP (fun i => !c i && c ((i + 1) % n)) := by
  induction k with
  | zero => simp
  | succ k ih =>
    have hkn : k < n := hk
    obtain ⟨h1, h2⟩ := ih (Nat.le_of_lt hkn)
    rw [Nat.mod_eq_of_lt hkn] at h1
    simp only [List.range_succ, List.countP_append, List.countP_cons, List.countP_nil]
    rcases Bool.eq_false_or_eq_true (c k) with hc0 | hc0 <;>
    rcases Bool.eq_false_or_eq_true (c ((k + 1) % n)) with hc1 | hc1 <;>
    simp [hc0, hc1] at h1 ⊢ <;> omega

theorem upCrossings_eq (gdp : GU_Detail) (org nml : UT_Vector3) (pr : Nat) :
    2 * ((List.range (gdp.getPrimitiveVertexCount pr)).filter
        (isUpCrossing gdp org nml pr (gdp.getPrimitiveVertexCount pr))).length =
      ((List.range (gdp.getPrimitiveVertexCount pr)).filter (isCrossed gdp org nml pr)).length := by
  obtain ⟨h1, h2⟩ := cyclic_changes (clippedAt gdp org nml pr) (gdp.getPrimitiveVertexCount pr)
    (gdp.getPrimitiveVertexCount pr) (le_refl _)
  rw [Nat.mod_self] at h1
  rw [← List.countP_eq_length_filter, ← List.countP_eq_length_filter]
  have e1 : isUpCrossing gdp org nml pr (gdp.getPrimitiveVertexCount pr) =
      fun i => clippedAt gdp org nml pr i &&
        !clippedAt gdp org nml pr ((i + 1) % gdp.getPrimitiveVertexCount pr) := rfl
  have e2 : isCrossed gdp org nml pr =
      fun i => clippedAt gdp org nml pr i !=
        clippedAt gdp org nml pr ((i + 1) % gdp.getPrimitiveVertexCount pr) := rfl
  rw [e1, e2, h2]
  omega

theorem walkStarts_length (gdp : GU_Detail) (org nml : UT_Vector3) (pr nvtx k : Nat) :
    (walkStarts gdp org nml pr nvtx k).length =
      ((List.range k).filter (isUpCrossing gdp org nml pr nvtx)).length := by
  unfold walkStarts
  rw [List.length_map]

/-- C12: for a well-formed detail, the reconstruction of a partially clipped polygon
creates as many polygons as the polygon has edges from a clipped vertex to a vertex
that is not clipped, which is half the number of its crossed edges and at least
one; so more than two crossed edges give more than one polygon and exactly two
give exactly one. -/
theorem C12_number_of_loops (gdp : GU_Detail) (org nml : UT_Vector3)
    (group : Option (List Nat)) (hwf : gdp.wellFormed = true) (l1 l2 : List Nat) (pr : Nat)
    (hdec : (scan gdp org nml group).clipped_polys = l1 ++ pr :: l2) :
    (rebuild gdp org nml (l1 ++ [pr])).gdp.primitives.length =
      (rebuild gdp org nml l1).gdp.primitives.length +
        ((List.range (gdp.getPrimitiveVertexCount pr)).filter
          (isUpCrossing gdp org nml pr (gdp.getPrimitiveVertexCount pr))).length ∧
    2 * ((List.range (gdp.getPrimitiveVertexCount pr)).filter
        (isUpCrossing gdp org nml pr (gdp.getPrimitiveVertexCount pr))).length =
      ((List.range (gdp.getPrimitiveVertexCount pr)).filter (isCrossed gdp org nml pr)).length ∧
    1 ≤ ((List.range (gdp.getPrimitiveVertexCount pr)).filter
        (isUpCrossing gdp org nml pr (gdp.getPrimitiveVertexCount pr))).length ∧
    (2 < ((List.range (gdp.getPrimitiveVertexCount pr)).filter
        (isCrossed gdp org nml pr)).length →
      1 < ((List.range (gdp.getPrimitiveVertexCount pr)).filter
        (isUpCrossing gdp org nml pr (gdp.getPrimitiveVertexCount pr))).length) ∧
    (((List.range (gdp.getPrimitiveVertexCount pr)).filter
        (isCrossed gdp org nml pr)).length = 2 →
      ((List.range (gdp.getPrimitiveVertexCount pr)).filter
        (isUpCrossing gdp org nml pr (gdp.getPrimitiveVertexCount pr))).length = 1) := by
  have hl : PartialPolys gdp org nml (l1 ++ pr :: l2) := by
    rw [← hdec]; exact partialPolys_scan gdp org nml group
  have hl1 : PartialPolys gdp org nml l1 := fun q hq => hl q (List.mem_append_left _ hq)
  obtain ⟨a, b, _, _⟩ := rebuild_inv hwf l1 hl1
  obtain ⟨hprl, hc0, hcn⟩ := hl pr (List.mem_append_right _ (List.mem_cons_self _ _))
  obtain ⟨_, _, hlen, _, _⟩ := rebuildPoly_inv hwf _ pr a b hprl hc0 hcn
  have e1 : rebuild gdp org nml (l1 ++ [pr]) =
      rebuildPoly org nml (rebuild gdp org nml l1) pr := by
    rw [rebuild_append]; rfl
  have hup := upCrossings_eq gdp org nml pr
  obtain ⟨iu, hiu, hupc⟩ := exists_upCrossing gdp org nml pr hc0 hcn
  have hpos : 1 ≤ ((List.range (gdp.getPrimitiveVertexCount pr)).filter
      (isUpCrossing gdp org nml pr (gdp.getPrimitiveVertexCount pr))).length := by
    apply List.length_pos_of_mem (a := iu)
    rw [List.mem_filter, List.mem_range]
    exact ⟨hiu, hupc⟩
  refine ⟨?_, hup, hpos, fun h => by omega, fun h => by omega⟩
  rw [e1, hlen, walk_eq]
  simp only []
  rw [walkStarts_length]

/-- Witness of C12 on the unit square and the plane `x = 1/2`. -/
theorem C12_number_of_loops_witness :
    (rebuild unitSquare ⟨1/2, 0, 0⟩ ⟨1, 0, 0⟩ ([] ++ [0])).gdp.primitives.length =
      (rebuild unitSquare ⟨1/2, 0, 0⟩ ⟨1, 0, 0⟩ []).gdp.primitives.length +
        ((List.range (unitSquare.getPrimitiveVertexCount 0)).filter
          (isUpCrossing unitSquare ⟨1/2, 0, 0⟩ ⟨1, 0, 0⟩ 0
            (unitSquare.getPrimitiveVertexCount 0))).length ∧
    2 * ((List.range (unitSquare.getPrimitiveVertexCount 0)).filter
        (isUpCrossing unitSquare ⟨1/2, 0, 0⟩ ⟨1, 0, 0⟩ 0
          (unitSquare.getPrimitiveVertexCount 0))).length =
      ((List.range (unitSquare.getPrimitiveVertexCount 0)).filter
        (isCrossed unitSquare ⟨1/2, 0, 0⟩ ⟨1, 0, 0⟩ 0)).length ∧
    1 ≤ ((List.range (unitSquare.getPrimitiveVertexCount 0)).filter
        (isUpCrossing unitSquare ⟨1/2, 0, 0⟩ ⟨1, 0, 0⟩ 0
          (unitSquare.getPrimitiveVertexCount 0))).length ∧
    (2 < ((List.range (unitSquare.getPrimitiveVertexCount 0)).filter
        (isCrossed unitSquare ⟨1/2, 0, 0⟩ ⟨1, 0, 0⟩ 0)).length →
      1 < ((List.range (unitSquare.getPrimitiveVertexCount 0)).filter
        (isUpCrossing unitSquare ⟨1/2, 0, 0⟩ ⟨1, 0, 0⟩ 0
          (unitSquare.getPrimitiveVertexCount 0))).length) ∧
    (((List.range (unitSquare.getPrimitiveVertexCount 0)).filter
        (isCrossed unitSquare ⟨1/2, 0, 0⟩ ⟨1, 0, 0⟩ 0)).length = 2 →
      ((List.range (unitSquare.getPrimitiveVertexCount 0)).filter
        (isUpCrossing unitSquare ⟨1/2, 0, 0⟩ ⟨1, 0, 0⟩ 0
          (unitSquare.getPrimitiveVertexCount 0))).length = 1) :=
  C12_number_of_loops unitSquare ⟨1/2, 0, 0⟩ ⟨1, 0, 0⟩ none (by decide) [] [] 0 (by decide!)

/-! ## The kinds of the entries of the walk -/

theorem stepEntries_tags (gdp : GU_Detail) (org nml : UT_Vector3) (pr nvtx i : Nat) :
    (stepEntries gdp org nml pr nvtx i).map entryTag =
      (stepKinds (clippedAt gdp org nml pr) nvtx i).map (kindTag gdp pr) := by
  unfold stepEntries stepKinds clippedAt primPoint
  rcases Bool.eq_false_or_eq_true
      (isClipped gdp org nml (gdp.vertexPoint (gdp.getPrimitiveVertexOffset pr i))) with h0 | h0 <;>
  rcases Bool.eq_false_or_eq_true (isClipped gdp org nml
      (gdp.vertexPoint (gdp.getPrimitiveVertexOffset pr ((i + 1) % nvtx)))) with h1 | h1 <;>
  by_cases h2 : gdp.vertexPoint (gdp.getPrimitiveVertexOffset pr ((i + 1) % nvtx)) <
      gdp.vertexPoint (gdp.getPrimitiveVertexOffset pr i) <;>
  simp [h0, h1, h2, entryTag, kindTag]

theorem walkEntries_tags (gdp : GU_Detail) (org nml : UT_Vector3) (pr nvtx k : Nat) :
    (walkEntries gdp org nml pr nvtx k).map entryTag =
      (walkKinds (clippedAt gdp org nml pr) nvtx k).map (kindTag gdp pr) := by
  induction k with
  | zero => rfl
  | succ k ih =>
    rw [walkEntries_succ, walkKinds_succ, List.map_append, List.map_append, ih,
      stepEntries_tags]

theorem walkKinds_length (gdp : GU_Detail) (org nml : UT_Vector3) (pr nvtx k : Nat) :
    (walkKinds (clippedAt gdp org nml pr) nvtx k).length =
      (walkEntries gdp org nml pr nvtx k).length := by
  have := congrArg List.length (walkEntries_tags gdp org nml pr nvtx k)
  rw [List.length_map, List.length_map] at this
  exact this.symm

theorem getD_append_left_of_lt {α : Type} (l l' : List α) {i : Nat} (h : i < l.length) (d : α) :
    (l ++ l').getD i d = l.getD i d :=
  getD_of_isPrefix (List.prefix_append l l') h d

theorem getD_append_right_of_ge {α : Type} (l l' : List α) {i : Nat} (h : l.length ≤ i)
    (d : α) : (l ++ l').getD i d = l'.getD (i - l.length) d := by
  rw [List.getD_eq_getElem?_getD, List.getD_eq_getElem?_getD, List.getElem?_append_right h]

theorem stepKinds_up_iff (c : Nat → Bool) (n k j : Nat) :
    (j < (stepKinds c n k).length ∧
      ((stepKinds c n k).getD j (EntryKind.kept, 0)).1 = EntryKind.up) ↔
      (j = 0 ∧ (c k && !c ((k + 1) % n)) = true) := by
  unfold stepKinds
  rcases Bool.eq_false_or_eq_true (c k) with h0 | h0 <;>
  rcases Bool.eq_false_or_eq_true (c ((k + 1) % n)) with h1 | h1 <;>
  rcases j with _ | _ | j <;>
  simp [h0, h1]

/-- The start positions the walk records are the positions of the `up` cuts. -/
theorem mem_walkStarts_iff (gdp : GU_Detail) (org nml : UT_Vector3) (pr nvtx k idx : Nat) :
    idx ∈ walkStarts gdp org nml pr nvtx k ↔
      idx < (walkKinds (clippedAt gdp org nml pr) nvtx k).length ∧
        ((walkKinds (clippedAt gdp org nml pr) nvtx k).getD idx (EntryKind.kept, 0)).1 =
          EntryKind.up := by
  induction k with
  | zero => simp [walkStarts, walkKinds]
  | succ k ih =>
    rw [walkStarts_succ, walkKinds_succ, List.mem_append, ih, List.length_append]
    have hlen := walkKinds_length gdp org nml pr nvtx k
    have hup : isUpCrossing gdp org nml pr nvtx k =
        (clippedAt gdp org nml pr k && !clippedAt gdp org nml pr ((k + 1) % nvtx)) := rfl
    by_cases hidx : idx < (walkKinds (clippedAt gdp org nml pr) nvtx k).length
    · rw [getD_append_left_of_lt _ _ hidx]
      constructor
      · rintro (h | h)
        · exact ⟨by omega, h.2⟩
        · exfalso
          split_ifs at h
          · rw [List.mem_singleton] at h
            omega
          · exact List.not_mem_nil _ h
      · intro h
        exact Or.inl ⟨hidx, h.2⟩
    · rw [getD_append_right_of_ge _ _ (not_lt.mp hidx)]
      have key := stepKinds_up_iff (clippedAt gdp org nml pr) nvtx k
        (idx - (walkKinds (clippedAt gdp org nml pr) nvtx k).length)
      constructor
      · rintro (h | h)
        · exact absurd h.1 hidx
        · split_ifs at h with hu
          · rw [List.mem_singleton] at h
            have := key.2 ⟨by omega, by rw [← hup]; exact hu⟩
            exact ⟨by omega, this.2⟩
          · exact absurd h (List.not_mem_nil _)
      · rintro ⟨h, h'⟩
        right
        have := key.1 ⟨by omega, h'⟩
        rw [if_pos (by rw [hup]; exact this.2), List.mem_singleton]
        omega

/-! ## The shape of the new polygons -/

theorem walk_vert0s_length (gdp : GU_Detail) (org nml : UT_Vector3) (pr : Nat) :
    (walk gdp org nml pr).vert0s.length =
      (walkKinds (clippedAt gdp org nml pr) (gdp.getPrimitiveVertexCount pr)
        (gdp.getPrimitiveVertexCount pr)).length := by
  rw [walk_eq, walkKinds_length]
  simp

theorem walk_starts_eq (gdp : GU_Detail) (org nml : UT_Vector3) (pr : Nat) :
    (walk gdp org nml pr).poly_start_pos =
      walkStarts gdp org nml pr (gdp.getPrimitiveVertexCount pr)
        (gdp.getPrimitiveVertexCount pr) := by
  rw [walk_eq]

/-- The arrays of the walk at an index, from the kind of the entry. -/
theorem walk_entry_of_kind (gdp : GU_Detail) (org nml : UT_Vector3) (pr idx : Nat)
    (hidx : idx < (walk gdp org nml pr).vert0s.length) :
    (∀ j, (walkKinds (clippedAt gdp org nml pr) (gdp.getPrimitiveVertexCount pr)
        (gdp.getPrimitiveVertexCount pr)).getD idx (EntryKind.kept, 0) = (EntryKind.kept, j) →
      (walk gdp org nml pr).vert1s.getD idx none = none ∧
        (walk gdp org nml pr).vert0s.getD idx 0 = gdp.getPrimitiveVertexOffset pr j) ∧
    (((walkKinds (clippedAt gdp org nml pr) (gdp.getPrimitiveVertexCount pr)
        (gdp.getPrimitiveVertexCount pr)).getD idx (EntryKind.kept, 0)).1 ≠ EntryKind.kept →
      ∃ v1, (walk gdp org nml pr).vert1s.getD idx none = some v1) := by
  have hN := walk_vert0s_length gdp org nml pr
  have hidxA : idx < (walkKinds (clippedAt gdp org nml pr) (gdp.getPrimitiveVertexCount pr)
      (gdp.getPrimitiveVertexCount pr)).length := by rw [← hN]; exact hidx
  have hidxE : idx < (walkEntries gdp org nml pr (gdp.getPrimitiveVertexCount pr)
      (gdp.getPrimitiveVertexCount pr)).length := by
    rw [← walkKinds_length]; exact hidxA
  have htag := walkEntries_tags gdp org nml pr (gdp.getPrimitiveVertexCount pr)
    (gdp.getPrimitiveVertexCount pr)
  have hget := congrArg (fun l => l.getD idx none) htag
  simp only [] at hget
  rw [getD_map_of_lt _ _ _ hidxE, getD_map_of_lt _ _ _ hidxA] at hget
  rw [← getD_eq_get_of_lt _ _ hidxA (EntryKind.kept, 0)] at hget
  have h0 : (walk gdp org nml pr).vert0s.getD idx 0 =
      ((walkEntries gdp org nml pr (gdp.getPrimitiveVertexCount pr)
        (gdp.getPrimitiveVertexCount pr)).get ⟨idx, hidxE⟩).1 := by
    rw [walk_eq]
    simp only []
    rw [getD_map_of_lt _ _ _ hidxE]
  have h1 : (walk gdp org nml pr).vert1s.getD idx none =
      ((walkEntries gdp org nml pr (gdp.getPrimitiveVertexCount pr)
        (gdp.getPrimitiveVertexCount pr)).get ⟨idx, hidxE⟩).2.1 := by
    rw [walk_eq]
    simp only []
    rw [getD_map_of_lt _ _ _ hidxE]
  rw [h0, h1]
  generalize (walkEntries gdp org nml pr (gdp.getPrimitiveVertexCount pr)
    (gdp.getPrimitiveVertexCount pr)).get ⟨idx, hidxE⟩ = e at hget ⊢
  generalize (walkKinds (clippedAt gdp org nml pr) (gdp.getPrimitiveVertexCount pr)
    (gdp.getPrimitiveVertexCount pr)).getD idx (EntryKind.kept, 0) = a at hget ⊢
  unfold entryTag kindTag at hget
  constructor
  · intro j ha
    rw [ha] at hget
    simp only [if_true] at hget
    cases he : e.2.1 with
    | none =>
      rw [he] at hget
      simp only [Option.some.injEq] at hget
      exact ⟨rfl, hget⟩
    | some x =>
      rw [he] at hget
      cases hget
  · intro ha
    rw [if_neg ha] at hget
    cases he : e.2.1 with
    | none =>
      rw [he] at hget
      cases hget
    | some x => exact ⟨x, rfl⟩

/-- The entries of a new polygon: a cut, then kept vertices of consecutive iterations
of the walk, at least one, then a cut. -/
theorem walk_loop_shape (gdp : GU_Detail) (org nml : UT_Vector3) (pr i : Nat)
    (hi : i < (walk gdp org nml pr).poly_start_pos.length) :
    3 ≤ newPolyVertexCount (walk gdp org nml pr) i ∧
    (∃ v1, (walk gdp org nml pr).vert1s.getD
      ((walk gdp org nml pr).poly_start_pos.getD i 0) none = some v1) ∧
    (∃ j0, ∀ v, 0 < v → v + 1 < newPolyVertexCount (walk gdp org nml pr) i →
      (walk gdp org nml pr).vert1s.getD
        (((walk gdp org nml pr).poly_start_pos.getD i 0 + v) %
          (walk gdp org nml pr).vert0s.length) none = none ∧
      (walk gdp org nml pr).vert0s.getD
        (((walk gdp org nml pr).poly_start_pos.getD i 0 + v) %
          (walk gdp org nml pr).vert0s.length) 0 =
        gdp.getPrimitiveVertexOffset pr ((j0 + v) % gdp.getPrimitiveVertexCount pr)) ∧
    (∃ v1, (walk gdp org nml pr).vert1s.getD
      (((walk gdp org nml pr).poly_start_pos.getD i 0 +
        (newPolyVertexCount (walk gdp org nml pr) i - 1)) %
          (walk gdp org nml pr).vert0s.length) none = some v1) := by
  have hN := walk_vert0s_length gdp org nml pr
  have hS := walk_starts_eq gdp org nml pr
  have hshape := loop_shape (gdp.getPrimitiveVertexCount pr)
    (walkKinds (clippedAt gdp org nml pr) (gdp.getPrimitiveVertexCount pr)
      (gdp.getPrimitiveVertexCount pr))
    (walk gdp org nml pr).poly_start_pos
    (walkKinds_cyclic _ _)
    (by rw [hS]; exact walkStarts_pairwise gdp org nml pr _ _)
    (by rw [hS]; exact mem_walkStarts_iff gdp org nml pr _ _)
    i hi
  rw [← hN, ← newPolyVertexCount_eq (walk gdp org nml pr) i] at hshape
  obtain ⟨h3, hup, hkept, hdown⟩ := hshape
  have hNpos : 0 < (walk gdp org nml pr).vert0s.length := by
    have : (walk gdp org nml pr).poly_start_pos.getD i 0 ∈
        walkStarts gdp org nml pr (gdp.getPrimitiveVertexCount pr)
          (gdp.getPrimitiveVertexCount pr) := by
      rw [← hS]; exact getD_mem_of_lt hi
    have := ((mem_walkStarts_iff gdp org nml pr _ _ _).1 this).1
    rw [← hN] at this
    exact Nat.lt_of_le_of_lt (Nat.zero_le _) this
  have hs : (walk gdp org nml pr).poly_start_pos.getD i 0 <
      (walk gdp org nml pr).vert0s.length := by
    have : (walk gdp org nml pr).poly_start_pos.getD i 0 ∈
        walkStarts gdp org nml pr (gdp.getPrimitiveVertexCount pr)
          (gdp.getPrimitiveVertexCount pr) := by
      rw [← hS]; exact getD_mem_of_lt hi
    rw [hN]
    exact ((mem_walkStarts_iff gdp org nml pr _ _ _).1 this).1
  refine ⟨h3, ?_, ⟨((walkKinds (clippedAt gdp org nml pr) (gdp.getPrimitiveVertexCount pr)
    (gdp.getPrimitiveVertexCount pr)).getD
      ((walk gdp org nml pr).poly_start_pos.getD i 0) (EntryKind.kept, 0)).2,
    fun v hv0 hv => ?_⟩, ?_⟩
  · exact (walk_entry_of_kind gdp org nml pr _ hs).2 (by rw [hup]; decide)
  · exact (walk_entry_of_kind gdp org nml pr _ (Nat.mod_lt _ hNpos)).1 _ (hkept v hv0 hv)
  · exact (walk_entry_of_kind gdp org nml pr _ (Nat.mod_lt _ hNpos)).2 (by rw [hdown]; decide)

/-- The primitive `createPoly` appends, and the wiring of its vertices. -/
theorem createPoly_shape (w : WalkState) (st : RebuildState) (i : Nat)
    (hN : 0 < w.vert0s.length)
    (h0 : ∀ idx < w.vert0s.length, w.vert0s.getD idx 0 < st.gdp.vertices.length) :
    (createPoly w st i).gdp.primitives = st.gdp.primitives ++
      [some ⟨GA_PRIMPOLY, true,
        (List.range (newPolyVertexCount w i)).map (st.gdp.vertices.length + ·)⟩] ∧
    ∀ v < newPolyVertexCount w i,
      ∃ p, (createPoly w st i).gdp.vertices.getD (st.gdp.vertices.length + v) none = some p ∧
      (w.vert1s.getD ((w.poly_start_pos.getD i 0 + v) % w.vert0s.length) none = none →
        p = st.gdp.vertexPoint
          (w.vert0s.getD ((w.poly_start_pos.getD i 0 + v) % w.vert0s.length) 0)) := by
  have key := foldl_range_induction
    (setVertex w (w.poly_start_pos.getD i 0) w.vert0s.length st.gdp.vertices.length)
    (⟨st.gdp.appendPrimitivesAndVertices (newPolyVertexCount w i), st.cuts⟩ : RebuildState)
    (newPolyVertexCount w i)
    (fun k s =>
      s.gdp.primitives = st.gdp.primitives ++
        [some ⟨GA_PRIMPOLY, true,
          (List.range (newPolyVertexCount w i)).map (st.gdp.vertices.length + ·)⟩] ∧
      s.gdp.vertices.length = st.gdp.vertices.length + newPolyVertexCount w i ∧
      st.gdp.vertices <+: s.gdp.vertices ∧
      ∀ j < k, ∃ p, s.gdp.vertices.getD (st.gdp.vertices.length + j) none = some p ∧
        (w.vert1s.getD ((w.poly_start_pos.getD i 0 + j) % w.vert0s.length) none = none →
          p = st.gdp.vertexPoint
            (w.vert0s.getD ((w.poly_start_pos.getD i 0 + j) % w.vert0s.length) 0)))
    ?_ ?_
  · exact ⟨key.1, key.2.2.2⟩
  · refine ⟨rfl, ?_, List.prefix_append _ _, fun j hj => absurd hj (Nat.not_lt_zero _)⟩
    simp [GU_Detail.appendPrimitivesAndVertices]
  · intro k s hk ⟨hp, hl, hpre, hw⟩
    obtain ⟨cp, ⟨p, cv⟩, _, _⟩ :=
      setVertex_cases w (w.poly_start_pos.getD i 0) w.vert0s.length st.gdp.vertices.length s k
    refine ⟨by rw [cp, hp], by rw [cv, List.length_set, hl], ?_, ?_⟩
    · rw [cv]
      exact prefix_set_of_le hpre (Nat.le_add_right _ _) _
    · intro j hj
      rcases Nat.lt_or_ge j k with hjk | hjk
      · obtain ⟨p', hp', hk'⟩ := hw j hjk
        refine ⟨p', ?_, hk'⟩
        rw [cv, getD_set_of_ne _ (by omega)]
        exact hp'
      · have hjeq : j = k := by omega
        subst hjeq
        refine ⟨p, ?_, ?_⟩
        · rw [cv]
          exact getD_set_self _ (by omega) _ _
        · intro hkept
          have hsk := setVertex_kept w (w.poly_start_pos.getD i 0) w.vert0s.length
            st.gdp.vertices.length s j hkept
          rw [hsk] at cv
          simp only [GU_Detail.wireVertexPoint] at cv
          have e := congrArg (fun l => l.getD (st.gdp.vertices.length + j) none) cv
          simp only [] at e
          rw [getD_set_self _ (by omega), getD_set_self _ (by omega)] at e
          have e' : s.gdp.vertexPoint
              (w.vert0s.getD ((w.poly_start_pos.getD i 0 + j) % w.vert0s.length) 0) = p :=
            Option.some.inj e
          rw [← e']
          exact vertexPoint_of_isPrefix hpre (h0 _ (Nat.mod_lt _ hN))

theorem LoopPoly.of_ext {gdp0 : GU_Detail} {w : WalkState} {i q : Nat} {s s' : RebuildState}
    (h : LoopPoly gdp0 w i q s) (hext : StExt s s') : LoopPoly gdp0 w i q s' := by
  obtain ⟨vs, h1, h2, h3, h4⟩ := h
  refine ⟨vs, getD_some_of_isPrefix hext.primitives h1, h2, h3, fun v hv => ?_⟩
  obtain ⟨a, p, b, c⟩ := h4 v hv
  exact ⟨a, p, getD_some_of_isPrefix hext.vertices b, c⟩

theorem createPoly_loopPoly {gdp0 : GU_Detail} (w : WalkState) (st : RebuildState) (i : Nat)
    (hv : gdp0.vertices <+: st.gdp.vertices)
    (hN : 0 < w.vert0s.length)
    (h0 : ∀ idx < w.vert0s.length, w.vert0s.getD idx 0 < gdp0.vertices.length) :
    (createPoly w st i).gdp.primitives.length = st.gdp.primitives.length + 1 ∧
    LoopPoly gdp0 w i st.gdp.primitives.length (createPoly w st i) := by
  obtain ⟨hp, hw⟩ := createPoly_shape w st i hN
    (fun idx hidx => lt_of_lt_of_le (h0 idx hidx) hv.length_le)
  refine ⟨by rw [hp]; simp, _, by rw [hp]; exact getD_append_length _ _ _, by simp, ?_, ?_⟩
  · exact (List.nodup_range _).map (fun a b hab => by simpa using hab)
  · intro v hvm
    have hget : ((List.range (newPolyVertexCount w i)).map
        (st.gdp.vertices.length + ·)).getD v 0 = st.gdp.vertices.length + v := by
      rw [getD_map_of_lt _ _ _ (by simpa using hvm)]
      simp
    rw [hget]
    obtain ⟨p, h1, h2⟩ := hw v hvm
    refine ⟨le_trans hv.length_le (Nat.le_add_right _ _), p, h1, fun hk => ?_⟩
    rw [h2 hk]
    exact vertexPoint_of_isPrefix hv (h0 _ (Nat.mod_lt _ hN))

/-- The vertices the walk names are vertices of the polygon. -/
theorem walk_vert0s_mem (gdp : GU_Detail) (org nml : UT_Vector3) (pr idx : Nat)
    (hidx : idx < (walk gdp org nml pr).vert0s.length) :
    (walk gdp org nml pr).vert0s.getD idx 0 ∈ gdp.primVertices pr := by
  rw [walk_eq] at hidx ⊢
  simp only [List.length_map] at hidx
  simp only []
  rw [getD_map_of_lt _ _ _ hidx]
  exact (walkEntries_ok gdp org nml pr _ (le_refl _) _ (List.get_mem _ _ _)).1

theorem walk_length_pos (gdp : GU_Detail) (org nml : UT_Vector3) (pr i : Nat)
    (hi : i < (walk gdp org nml pr).poly_start_pos.length) :
    0 < (walk gdp org nml pr).vert0s.length := by
  have hS := walk_starts_eq gdp org nml pr
  have hN := walk_vert0s_length gdp org nml pr
  have : (walk gdp org nml pr).poly_start_pos.getD i 0 ∈
      walkStarts gdp org nml pr (gdp.getPrimitiveVertexCount pr)
        (gdp.getPrimitiveVertexCount pr) := by
    rw [← hS]; exact getD_mem_of_lt hi
  have := ((mem_walkStarts_iff gdp org nml pr _ _ _).1 this).1
  rw [← hN] at this
  exact Nat.lt_of_le_of_lt (Nat.zero_le _) this

/-- Rebuilding one polygon appends its new polygons in order, each of the shape of
its loop and of at least three vertices. -/
theorem rebuildPoly_loops {gdp0 : GU_Detail} {org nml : UT_Vector3}
    (hwf : gdp0.wellFormed = true) (st : RebuildState) (pr : Nat)
    (hinv : RebuildInv gdp0 org nml st) (hprl : pr < gdp0.primitives.length)
    (hbig : NewPrimsBig gdp0 st) :
    NewPrimsBig gdp0 (rebuildPoly org nml st pr) ∧
    ∀ i < (walk gdp0 org nml pr).poly_start_pos.length,
      LoopPoly gdp0 (walk gdp0 org nml pr) i (st.gdp.primitives.length + i)
        (rebuildPoly org nml st pr) := by
  have hwalk : walk st.gdp org nml pr = walk gdp0 org nml pr :=
    walk_of_ext org nml hwf hinv.points_ext hinv.vertices_ext hinv.prims_ext pr hprl
  have hrp : rebuildPoly org nml st pr =
      (List.range (walk gdp0 org nml pr).poly_start_pos.length).foldl
        (createPoly (walk gdp0 org nml pr)) st := by
    unfold rebuildPoly
    simp only [hwalk]
  rw [hrp]
  have h0 : ∀ idx < (walk gdp0 org nml pr).vert0s.length,
      (walk gdp0 org nml pr).vert0s.getD idx 0 < gdp0.vertices.length :=
    fun idx hidx => wf_vertex_lt hwf (walk_vert0s_mem gdp0 org nml pr idx hidx)
  have key := foldl_range_induction (createPoly (walk gdp0 org nml pr)) st
    (walk gdp0 org nml pr).poly_start_pos.length
    (fun k s => StExt st s ∧ s.gdp.primitives.length = st.gdp.primitives.length + k ∧
      NewPrimsBig gdp0 s ∧
      ∀ i < k, LoopPoly gdp0 (walk gdp0 org nml pr) i (st.gdp.primitives.length + i) s)
    ⟨StExt.refl _, rfl, hbig, fun i hi => absurd hi (Nat.not_lt_zero _)⟩ ?_
  · exact ⟨key.2.2.1, key.2.2.2⟩
  · intro k s hk ⟨hext, hlen, hb, hl⟩
    have hN := walk_length_pos gdp0 org nml pr k hk
    have hv : gdp0.vertices <+: s.gdp.vertices := hinv.vertices_ext.trans hext.vertices
    obtain ⟨c1, c2⟩ := createPoly_loopPoly (walk gdp0 org nml pr) s k hv hN h0
    have hce := createPoly_ext (walk gdp0 org nml pr) s k
    refine ⟨hext.trans hce, by rw [c1, hlen]; omega, ?_, ?_⟩
    · intro q P hq hP
      rcases Nat.lt_or_ge q s.gdp.primitives.length with hlt | hge
      · apply hb q P hq
        rw [← getD_of_isPrefix hce.primitives hlt]
        exact hP
      · have hql := lt_length_of_getD_some hP
        have hqe : q = s.gdp.primitives.length := by omega
        obtain ⟨vs, e1, e2, _⟩ := c2
        rw [hqe, e1] at hP
        cases hP
        simp only []
        rw [e2]
        exact (walk_loop_shape gdp0 org nml pr k hk).1
    · intro i hi
      rcases Nat.lt_or_ge i k with hlt | hge
      · exact (hl i hlt).of_ext hce
      · have : i = k := by omega
        subst this
        rw [← hlen]
        exact c2

theorem foldl_rebuildPoly_big {gdp0 : GU_Detail} {org nml : UT_Vector3}
    (hwf : gdp0.wellFormed = true) (l : List Nat) (hl : PartialPolys gdp0 org nml l) :
    ∀ st, RebuildInv gdp0 org nml st → NewPrimsWired gdp0 st → NewPrimsBig gdp0 st →
      NewPrimsBig gdp0 (l.foldl (rebuildPoly org nml) st) := by
  induction l with
  | nil => intro st _ _ h; exact h
  | cons pr l ih =>
    intro st h1 h2 h3
    obtain ⟨hprl, hc0, hcn⟩ := hl pr (List.mem_cons_self _ _)
    obtain ⟨a1, a2, _, _, _⟩ := rebuildPoly_inv hwf st pr h1 h2 hprl hc0 hcn
    rw [List.foldl_cons]
    exact ih (fun q hq => hl q (List.mem_cons_of_mem _ hq)) _ a1 a2
      (rebuildPoly_loops hwf st pr h1 hprl h3).1

theorem rebuild_big {gdp0 : GU_Detail} {org nml : UT_Vector3}
    (hwf : gdp0.wellFormed = true) (l : List Nat) (hl : PartialPolys gdp0 org nml l) :
    NewPrimsBig gdp0 (rebuild gdp0 org nml l) :=
  foldl_rebuildPoly_big hwf l hl ⟨gdp0, []⟩ (RebuildInv.init gdp0 org nml)
    (newPrimsWired_init gdp0)
    (fun _ _ hq hP => absurd (lt_length_of_getD_some hP) (not_lt.mpr hq))

/-- In the final state, the `i`-th new polygon of the polygon `pr` is the primitive
`i` offsets after those created before `pr` was rebuilt. -/
theorem rebuild_loops {gdp0 : GU_Detail} {org nml : UT_Vector3}
    (hwf : gdp0.wellFormed = true) (l1 l2 : List Nat) (pr : Nat)
    (hl : PartialPolys gdp0 org nml (l1 ++ pr :: l2)) (i : Nat)
    (hi : i < (walk gdp0 org nml pr).poly_start_pos.length) :
    LoopPoly gdp0 (walk gdp0 org nml pr) i ((rebuild gdp0 org nml l1).gdp.primitives.length + i)
      (rebuild gdp0 org nml (l1 ++ pr :: l2)) := by
  have hl1 : PartialPolys gdp0 org nml l1 := fun q hq => hl q (List.mem_append_left _ hq)
  obtain ⟨a, b, _, _⟩ := rebuild_inv hwf l1 hl1
  obtain ⟨hprl, hc0, hcn⟩ := hl pr (List.mem_append_right _ (List.mem_cons_self _ _))
  have e2 : rebuild gdp0 org nml (l1 ++ pr :: l2) =
      l2.foldl (rebuildPoly org nml) (rebuildPoly org nml (rebuild gdp0 org nml l1) pr) := by
    rw [rebuild_append]; rfl
  rw [e2]
  exact ((rebuildPoly_loops hwf _ pr a hprl (rebuild_big hwf l1 hl1)).2 i hi).of_ext
    (foldl_rebuildPoly_ext org nml l2 _)

/-- C16: for a well-formed detail, a polygon `pr` the scan found partially clipped and
`i` below the number of its start positions, the entries of the `i`-th new polygon,
read from its start position on, cyclically, are a cut, then kept vertices, at least
one, then a cut; its vertex count, also before the conversion to a count, is at
least 3; the cook output holds, `i` offsets after the primitives created before `pr`
was rebuilt, a closed polygon of that many vertices; and every primitive the cook
created has at least 3 vertices. -/
theorem C16_loop_shape (gdp : GU_Detail) (org nml : UT_Vector3)
    (group : Option (List Nat)) (hwf : gdp.wellFormed = true) (l1 l2 : List Nat) (pr : Nat)
    (hdec : (scan gdp org nml group).clipped_polys = l1 ++ pr :: l2) (i : Nat)
    (hi : i < (walk gdp org nml pr).poly_start_pos.length) :
    (∃ v1, (walk gdp org nml pr).vert1s.getD
      ((walk gdp org nml pr).poly_start_pos.getD i 0) none = some v1) ∧
    (∀ v, 0 < v → v + 1 < newPolyVertexCount (walk gdp org nml pr) i →
      (walk gdp org nml pr).vert1s.getD
        (((walk gdp org nml pr).poly_start_pos.getD i 0 + v) %
          (walk gdp org nml pr).vert0s.length) none = none) ∧
    (∃ v1, (walk gdp org nml pr).vert1s.getD
      (((walk gdp org nml pr).poly_start_pos.getD i 0 +
        (newPolyVertexCount (walk gdp org nml pr) i - 1)) %
          (walk gdp org nml pr).vert0s.length) none = some v1) ∧
    3 ≤ newPolyVertexCount (walk gdp org nml pr) i ∧
    (3 : Int) ≤
      (if (((walk gdp org nml pr).poly_start_pos.getD
            ((i + 1) % (walk gdp org nml pr).poly_start_pos.length) 0 : Nat) : Int) -
          ((walk gdp org nml pr).poly_start_pos.getD i 0 : Nat) ≤ 0
       then (((walk gdp org nml pr).poly_start_pos.getD
            ((i + 1) % (walk gdp org nml pr).poly_start_pos.length) 0 : Nat) : Int) -
          ((walk gdp org nml pr).poly_start_pos.getD i 0 : Nat) +
            ((walk gdp org nml pr).vert0s.length : Nat)
       else (((walk gdp org nml pr).poly_start_pos.getD
            ((i + 1) % (walk gdp org nml pr).poly_start_pos.length) 0 : Nat) : Int) -
          ((walk gdp org nml pr).poly_start_pos.getD i 0 : Nat)) ∧
    (∃ P, (cookWithGroup gdp org nml group).primitives.getD
        ((rebuild gdp org nml l1).gdp.primitives.length + i) none = some P ∧
      P.typeId = GA_PRIMPOLY ∧ P.closed = true ∧
      P.vertices.length = newPolyVertexCount (walk gdp org nml pr) i) ∧
    (∀ q P, gdp.primitives.length ≤ q →
      (cookWithGroup gdp org nml group).primitives.getD q none = some P →
        3 ≤ P.vertices.length) := by
  obtain ⟨h3, hfirst, ⟨j0, hkept⟩, hlast⟩ := walk_loop_shape gdp org nml pr i hi
  have hl := partialPolys_scan gdp org nml group
  have hbig := rebuild_big hwf _ hl
  have hl' : PartialPolys gdp org nml (l1 ++ pr :: l2) := by rw [← hdec]; exact hl
  have hl1 : PartialPolys gdp org nml l1 := fun q hq => hl' q (List.mem_append_left _ hq)
  obtain ⟨hinv1, _, _, _⟩ := rebuild_inv hwf l1 hl1
  have hloop := rebuild_loops hwf l1 l2 pr hl' i hi
  rw [← hdec] at hloop
  have hout : cookWithGroup gdp org nml group =
      (rebuild gdp org nml (scan gdp org nml group).clipped_polys).gdp.destroyPrimitiveOffsets
        (scan gdp org nml group).rm_polys := rfl
  have hnew : ∀ q, gdp.primitives.length ≤ q →
      (cookWithGroup gdp org nml group).primitives.getD q none =
        (rebuild gdp org nml (scan gdp org nml group).clipped_polys).gdp.primitives.getD
          q none := by
    intro q hq
    have hqrm : q ∉ (scan gdp org nml group).rm_polys :=
      fun h => absurd (lt_of_mem_rm_polys h) (not_lt.mpr hq)
    rw [hout, destroy_primitives_getD, if_neg hqrm]
  refine ⟨hfirst, fun v hv0 hv => (hkept v hv0 hv).1, hlast, h3, ?_, ?_, ?_⟩
  · have h3' := h3
    unfold newPolyVertexCount at h3'
    simp only [] at h3'
    omega
  · obtain ⟨vs, e1, e2, _⟩ := hloop
    refine ⟨⟨GA_PRIMPOLY, true, vs⟩, ?_, rfl, rfl, e2⟩
    rw [hnew _ (le_trans hinv1.prims_ext.length_le (Nat.le_add_right _ _))]
    exact e1
  · intro q P hq hP
    rw [hnew q hq] at hP
    exact hbig q P hq hP

/-- Witness of C16 on the unit square and the plane `x = 1/2`. -/
theorem C16_loop_shape_witness :
    (∃ v1, (walk unitSquare ⟨1/2, 0, 0⟩ ⟨1, 0, 0⟩ 0).vert1s.getD
      ((walk unitSquare ⟨1/2, 0, 0⟩ ⟨1, 0, 0⟩ 0).poly_start_pos.getD 0 0) none = some v1) ∧
    (∀ v, 0 < v → v + 1 < newPolyVertexCount (walk unitSquare ⟨1/2, 0, 0⟩ ⟨1, 0, 0⟩ 0) 0 →
      (walk unitSquare ⟨1/2, 0, 0⟩ ⟨1, 0, 0⟩ 0).vert1s.getD
        (((walk unitSquare ⟨1/2, 0, 0⟩ ⟨1, 0, 0⟩ 0).poly_start_pos.getD 0 0 + v) %
          (walk unitSquare ⟨1/2, 0, 0⟩ ⟨1, 0, 0⟩ 0).vert0s.length) none = none) ∧
    (∃ v1, (walk unitSquare ⟨1/2, 0, 0⟩ ⟨1, 0, 0⟩ 0).vert1s.getD
      (((walk unitSquare ⟨1/2, 0, 0⟩ ⟨1, 0, 0⟩ 0).poly_start_pos.getD 0 0 +
        (newPolyVertexCount (walk unitSquare ⟨1/2, 0, 0⟩ ⟨1, 0, 0⟩ 0) 0 - 1)) %
          (walk unitSquare ⟨1/2, 0, 0⟩ ⟨1, 0, 0⟩ 0).vert0s.length) none = some v1) ∧
    3 ≤ newPolyVertexCount (walk unitSquare ⟨1/2, 0, 0⟩ ⟨1, 0, 0⟩ 0) 0 ∧
    (3 : Int) ≤
      (if (((walk unitSquare ⟨1/2, 0, 0⟩ ⟨1, 0, 0⟩ 0).poly_start_pos.getD
            ((0 + 1) % (walk unitSquare ⟨1/2, 0, 0⟩ ⟨1, 0, 0⟩ 0).poly_start_pos.length) 0 :
              Nat) : Int) -
          ((walk unitSquare ⟨1/2, 0, 0⟩ ⟨1, 0, 0⟩ 0).poly_start_pos.getD 0 0 : Nat) ≤ 0
       then (((walk unitSquare ⟨1/2, 0, 0⟩ ⟨1, 0, 0⟩ 0).poly_start_pos.getD
            ((0 + 1) % (walk unitSquare ⟨1/2, 0, 0⟩ ⟨1, 0, 0⟩ 0).poly_start_pos.length) 0 :
              Nat) : Int) -
          ((walk unitSquare ⟨1/2, 0, 0⟩ ⟨1, 0, 0⟩ 0).poly_start_pos.getD 0 0 : Nat) +
            ((walk unitSquare ⟨1/2, 0, 0⟩ ⟨1, 0, 0⟩ 0).vert0s.length : Nat)
       else (((walk unitSquare ⟨1/2, 0, 0⟩ ⟨1, 0, 0⟩ 0).poly_start_pos.getD
            ((0 + 1) % (walk unitSquare ⟨1/2, 0, 0⟩ ⟨1, 0, 0⟩ 0).poly_start_pos.length) 0 :
              Nat) : Int) -
          ((walk unitSquare ⟨1/2, 0, 0⟩ ⟨1, 0, 0⟩ 0).poly_start_pos.getD 0 0 : Nat)) ∧
    (∃ P, (cookWithGroup unitSquare ⟨1/2, 0, 0⟩ ⟨1, 0, 0⟩ none).primitives.getD
        ((rebuild unitSquare ⟨1/2, 0, 0⟩ ⟨1, 0, 0⟩ []).gdp.primitives.length + 0) none =
          some P ∧
      P.typeId = GA_PRIMPOLY ∧ P.closed = true ∧
      P.vertices.length = newPolyVertexCount (walk unitSquare ⟨1/2, 0, 0⟩ ⟨1, 0, 0⟩ 0) 0) ∧
    (∀ q P, unitSquare.primitives.length ≤ q →
      (cookWithGroup unitSquare ⟨1/2, 0, 0⟩ ⟨1, 0, 0⟩ none).primitives.getD q none = some P →
        3 ≤ P.vertices.length) :=
  C16_loop_shape unitSquare ⟨1/2, 0, 0⟩ ⟨1, 0, 0⟩ none (by decide) [] [] 0 (by decide!) 0
    (by decide!)

/-! ## The partition of the entries among the new polygons -/

theorem pairwise_getD_lt (S : List Nat) (hS : S.Pairwise (· < ·)) (i j : Nat)
    (hij : i < j) (hj : j < S.length) : S.getD i 0 < S.getD j 0 := by
  rw [List.getD_eq_getElem _ _ hj, List.getD_eq_getElem _ _ (lt_trans hij hj)]
  exact List.pairwise_iff_getElem.mp hS i j (lt_trans hij hj) hj hij

/-- Where the entries of a new polygon lie: between its start position and the next
one, or, for the last start position, from it to the end and from the beginning to
the first start position. -/
theorem loop_window (S : List Nat) (N : Nat) (hS : S.Pairwise (· < ·))
    (hlt : ∀ s ∈ S, s < N) (i : Nat) (hi : i < S.length) (v : Nat)
    (hv : v < loopCount S N i) :
    (i + 1 < S.length → (S.getD i 0 + v) % N = S.getD i 0 + v ∧
      S.getD i 0 + v < S.getD (i + 1) 0) ∧
    (i + 1 = S.length →
      ((S.getD i 0 + v) % N = S.getD i 0 + v ∧ S.getD i 0 + v < N) ∨
      ((S.getD i 0 + v) % N + N = S.getD i 0 + v ∧ (S.getD i 0 + v) % N < S.getD 0 0)) := by
  have hsi : S.getD i 0 < N := hlt _ (getD_mem_of_lt hi)
  constructor
  · intro h1
    have hs1 : S.getD (i + 1) 0 < N := hlt _ (getD_mem_of_lt h1)
    have hlt1 := pairwise_getD_lt S hS i (i + 1) (Nat.lt_succ_self _) h1
    unfold loopCount at hv
    rw [Nat.mod_eq_of_lt h1] at hv
    have hb : S.getD i 0 + v < S.getD (i + 1) 0 := by
      split_ifs at hv <;> omega
    exact ⟨Nat.mod_eq_of_lt (by omega), hb⟩
  · intro h1
    have h0 := pairwise_getD_le S hS 0 i (Nat.zero_le _) hi
    unfold loopCount at hv
    rw [h1, Nat.mod_self] at hv
    have hb : S.getD i 0 + v < S.getD 0 0 + N := by
      split_ifs at hv <;> omega
    rw [mod_window (by omega : S.getD i 0 + v < N + N)]
    split_ifs with hc
    · exact Or.inl ⟨rfl, hc⟩
    · exact Or.inr ⟨by omega, by omega⟩

/-- No entry index is reached twice by the vertices of the new polygons. -/
theorem loop_unique (S : List Nat) (N : Nat) (hS : S.Pairwise (· < ·))
    (hlt : ∀ s ∈ S, s < N) (i i' : Nat) (hi : i < S.length) (hi' : i' < S.length)
    (v v' : Nat) (hv : v < loopCount S N i) (hv' : v' < loopCount S N i')
    (he : (S.getD i 0 + v) % N = (S.getD i' 0 + v') % N) : i = i' ∧ v = v' := by
  obtain ⟨a1, a2⟩ := loop_window S N hS hlt i hi v hv
  obtain ⟨b1, b2⟩ := loop_window S N hS hlt i' hi' v' hv'
  have h0i := pairwise_getD_le S hS 0 i (Nat.zero_le _) hi
  have h0i' := pairwise_getD_le S hS 0 i' (Nat.zero_le _) hi'
  have hii : i = i' := by
    rcases Nat.lt_trichotomy i i' with h | h | h
    · have hle := pairwise_getD_le S hS (i + 1) i' h hi'
      obtain ⟨c1, c2⟩ := a1 (by omega)
      rcases Nat.lt_or_ge (i' + 1) S.length with h' | h'
      · obtain ⟨d1, d2⟩ := b1 h'
        omega
      · rcases b2 (by omega) with ⟨d1, d2⟩ | ⟨d1, d2⟩ <;> omega
    · exact h
    · have hle := pairwise_getD_le S hS (i' + 1) i h hi
      obtain ⟨c1, c2⟩ := b1 (by omega)
      rcases Nat.lt_or_ge (i + 1) S.length with h' | h'
      · obtain ⟨d1, d2⟩ := a1 h'
        omega
      · rcases a2 (by omega) with ⟨d1, d2⟩ | ⟨d1, d2⟩ <;> omega
  subst hii
  refine ⟨rfl, ?_⟩
  rcases Nat.lt_or_ge (i + 1) S.length with h' | h'
  · obtain ⟨c1, _⟩ := a1 h'
    obtain ⟨d1, _⟩ := b1 h'
    omega
  · rcases a2 (by omega) with ⟨c1, c2⟩ | ⟨c1, c2⟩ <;>
      rcases b2 (by omega) with ⟨d1, d2⟩ | ⟨d1, d2⟩ <;> omega

theorem loop_sum_init (S : List Nat) (N : Nat) (hS : S.Pairwise (· < ·))
    (j : Nat) (hj : j < S.length) :
    ((List.range j).map (loopCount S N)).sum + S.getD 0 0 = S.getD j 0 := by
  induction j with
  | zero => simp
  | succ j ih =>
    have ih' := ih (by omega)
    have hlt1 := pairwise_getD_lt S hS j (j + 1) (Nat.lt_succ_self _) hj
    have hc : loopCount S N j + S.getD j 0 = S.getD (j + 1) 0 := by
      unfold loopCount
      rw [Nat.mod_eq_of_lt hj]
      split_ifs <;> omega
    rw [List.range_succ, List.map_append, List.sum_append]
    simp only [List.map_cons, List.map_nil, List.sum_cons, List.sum_nil]
    omega

/-- The vertex counts of the new polygons sum to the number of entries. -/
theorem loop_sum (S : List Nat) (N : Nat) (hne : S ≠ []) (hS : S.Pairwise (· < ·))
    (hlt : ∀ s ∈ S, s < N) :
    ((List.range S.length).map (loopCount S N)).sum = N := by
  have hk : 0 < S.length := List.length_pos.mpr hne
  obtain ⟨k, hk'⟩ : ∃ k, S.length = k + 1 := ⟨S.length - 1, by omega⟩
  have h1 := loop_sum_init S N hS k (by omega)
  have h0 := pairwise_getD_le S hS 0 k (Nat.zero_le _) (by omega)
  have hsk : S.getD k 0 < N := hlt _ (getD_mem_of_lt (by omega))
  have hc : loopCount S N k + S.getD k 0 = S.getD 0 0 + N := by
    unfold loopCount
    rw [hk', Nat.mod_self]
    split_ifs <;> omega
  rw [hk', List.range_succ, List.map_append, List.sum_append]
  simp only [List.map_cons, List.map_nil, List.sum_cons, List.sum_nil]
  omega

theorem stepKinds_snd (c : Nat → Bool) (n i : Nat) :
    ∀ a ∈ stepKinds c n i, a.2 = i := by
  intro a ha
  unfold stepKinds at ha
  rcases Bool.eq_false_or_eq_true (c i) with h0 | h0 <;>
  rcases Bool.eq_false_or_eq_true (c ((i + 1) % n)) with h1 | h1 <;>
  simp [h0, h1] at ha <;>
  first
    | rfl
    | (rcases ha with ha | ha <;> rw [ha])
    | rw [ha]

theorem stepKinds_nodup (c : Nat → Bool) (n i : Nat) : (stepKinds c n i).Nodup := by
  unfold stepKinds
  rcases Bool.eq_false_or_eq_true (c i) with h0 | h0 <;>
  rcases Bool.eq_false_or_eq_true (c ((i + 1) % n)) with h1 | h1 <;>
  simp [h0, h1]

/-- No entry occurs twice in the list of the kinds. -/
theorem walkKinds_nodup (c : Nat → Bool) (n k : Nat) : (walkKinds c n k).Nodup := by
  unfold walkKinds
  rw [List.nodup_flatMap]
  refine ⟨fun i _ => stepKinds_nodup c n i, ?_⟩
  apply (List.nodup_range k).pairwise_of_forall_ne
  intro i _ j _ hij
  intro a ha hb
  exact hij ((stepKinds_snd c n i a ha).symm.trans (stepKinds_snd c n j a hb))

theorem walkKinds_snd_lt (c : Nat → Bool) (n k : Nat) :
    ∀ a ∈ walkKinds c n k, a.2 < k := by
  intro a ha
  unfold walkKinds at ha
  rw [List.mem_flatMap] at ha
  obtain ⟨i, hi, hai⟩ := ha
  rw [stepKinds_snd c n i a hai]
  exact List.mem_range.1 hi

theorem kept_mem_walkKinds (c : Nat → Bool) (n k j : Nat) (hj : j < k) (hc : c j = false) :
    (EntryKind.kept, j) ∈ walkKinds c n k := by
  unfold walkKinds
  rw [List.mem_flatMap]
  refine ⟨j, List.mem_range.2 hj, ?_⟩
  unfold stepKinds
  simp [hc]

theorem stepKinds_length (c : Nat → Bool) (n i : Nat) :
    (stepKinds c n i).length + (if c i then 1 else 0) =
      1 + (if (c i != c ((i + 1) % n)) then 1 else 0) := by
  unfold stepKinds
  rcases Bool.eq_false_or_eq_true (c i) with h0 | h0 <;>
  rcases Bool.eq_false_or_eq_true (c ((i + 1) % n)) with h1 | h1 <;>
  simp [h0, h1]

theorem walkKinds_count (c : Nat → Bool) (n k : Nat) :
    (walkKinds c n k).length + (List.range k).countP c =
      k + (List.range k).countP (fun i => c i != c ((i + 1) % n)) := by
  induction k with
  | zero => rfl
  | succ k ih =>
    have hs := stepKinds_length c n k
    rw [walkKinds_succ, List.length_append, List.range_succ, List.countP_append,
      List.countP_append]
    simp only [List.countP_cons, List.countP_nil, Nat.zero_add]
    omega

/-- The walk records one entry per vertex that is not clipped and one per crossed
edge. -/
theorem walk_length_eq (gdp : GU_Detail) (org nml : UT_Vector3) (pr : Nat) :
    (walk gdp org nml pr).vert0s.length + countClipped gdp org nml pr =
      gdp.getPrimitiveVertexCount pr + (crossedEdges gdp org nml pr).length := by
  rw [walk_vert0s_length]
  have h := walkKinds_count (clippedAt gdp org nml pr) (gdp.getPrimitiveVertexCount pr)
    (gdp.getPrimitiveVertexCount pr)
  have e1 : countClipped gdp org nml pr =
      (List.range (gdp.getPrimitiveVertexCount pr)).countP (clippedAt gdp org nml pr) := rfl
  have e2 : (crossedEdges gdp org nml pr).length =
      (List.range (gdp.getPrimitiveVertexCount pr)).countP
        (fun i => clippedAt gdp org nml pr i !=
          clippedAt gdp org nml pr ((i + 1) % gdp.getPrimitiveVertexCount pr)) := by
    unfold crossedEdges
    rw [List.length_map, ← List.countP_eq_length_filter]
    rfl
  rw [e1, e2]
  exact h

theorem wf_primVertices_nodup {gdp : GU_Detail} (hwf : gdp.wellFormed = true) (pr : Nat) :
    (gdp.primVertices pr).Nodup := by
  rcases Nat.lt_or_ge pr gdp.primitives.length with h | h
  · unfold GU_Detail.wellFormed at hwf
    rw [Bool.and_eq_true] at hwf
    have hnd : gdp.allPrimVertices.Nodup := by simpa using hwf.2
    unfold GU_Detail.allPrimVertices at hnd
    rw [List.nodup_flatMap] at hnd
    exact hnd.1 pr (List.mem_range.2 h)
  · rw [primVertices_eq_nil_of_ge gdp pr h]
    exact List.nodup_nil

theorem wf_vertexOffset_inj {gdp : GU_Detail} (hwf : gdp.wellFormed = true) (pr : Nat)
    {j j' : Nat} (hj : j < gdp.getPrimitiveVertexCount pr)
    (hj' : j' < gdp.getPrimitiveVertexCount pr)
    (h : gdp.getPrimitiveVertexOffset pr j = gdp.getPrimitiveVertexOffset pr j') : j = j' := by
  unfold GU_Detail.getPrimitiveVertexOffset at h
  unfold GU_Detail.getPrimitiveVertexCount at hj hj'
  rw [List.getD_eq_getElem _ _ hj, List.getD_eq_getElem _ _ hj'] at h
  exact (List.Nodup.getElem_inj_iff (wf_primVertices_nodup hwf pr)).1 h

/-- A vertex of the polygon that is not clipped is the vertex of exactly one kept
entry of the walk. -/
theorem walk_kept_unique {gdp : GU_Detail} (hwf : gdp.wellFormed = true)
    (org nml : UT_Vector3) (pr j : Nat) (hj : j < gdp.getPrimitiveVertexCount pr)
    (hc : isClipped gdp org nml (primPoint gdp pr j) = false) :
    (∃ idx < (walk gdp org nml pr).vert0s.length,
      (walk gdp org nml pr).vert1s.getD idx none = none ∧
      (walk gdp org nml pr).vert0s.getD idx 0 = gdp.getPrimitiveVertexOffset pr j) ∧
    ∀ idx idx', idx < (walk gdp org nml pr).vert0s.length →
      idx' < (walk gdp org nml pr).vert0s.length →
      (walk gdp org nml pr).vert1s.getD idx none = none →
      (walk gdp org nml pr).vert0s.getD idx 0 = gdp.getPrimitiveVertexOffset pr j →
      (walk gdp org nml pr).vert1s.getD idx' none = none →
      (walk gdp org nml pr).vert0s.getD idx' 0 = gdp.getPrimitiveVertexOffset pr j →
      idx = idx' := by
  have hN := walk_vert0s_length gdp org nml pr
  have hkind : ∀ idx, idx < (walk gdp org nml pr).vert0s.length →
      (walk gdp org nml pr).vert1s.getD idx none = none →
      (walk gdp org nml pr).vert0s.getD idx 0 = gdp.getPrimitiveVertexOffset pr j →
      (walkKinds (clippedAt gdp org nml pr) (gdp.getPrimitiveVertexCount pr)
        (gdp.getPrimitiveVertexCount pr)).getD idx (EntryKind.kept, 0) =
          (EntryKind.kept, j) := by
    intro idx hidx h1 h0
    obtain ⟨a1, a2⟩ := walk_entry_of_kind gdp org nml pr idx hidx
    have hk : ((walkKinds (clippedAt gdp org nml pr) (gdp.getPrimitiveVertexCount pr)
        (gdp.getPrimitiveVertexCount pr)).getD idx (EntryKind.kept, 0)).1 = EntryKind.kept := by
      by_contra hne
      obtain ⟨v1, hv1⟩ := a2 hne
      rw [h1] at hv1
      cases hv1
    have hmem : (walkKinds (clippedAt gdp org nml pr) (gdp.getPrimitiveVertexCount pr)
        (gdp.getPrimitiveVertexCount pr)).getD idx (EntryKind.kept, 0) ∈
        walkKinds (clippedAt gdp org nml pr) (gdp.getPrimitiveVertexCount pr)
          (gdp.getPrimitiveVertexCount pr) := by
      rw [List.getD_eq_getElem _ _ (by rw [← hN]; exact hidx)]
      exact List.getElem_mem _
    have hlt := walkKinds_snd_lt _ _ _ _ hmem
    generalize (walkKinds (clippedAt gdp org nml pr) (gdp.getPrimitiveVertexCount pr)
        (gdp.getPrimitiveVertexCount pr)).getD idx (EntryKind.kept, 0) = a at hk hlt a1
    obtain ⟨ak, aj⟩ := a
    simp only [] at hk hlt
    subst hk
    have := (a1 aj rfl).2
    rw [h0] at this
    rw [wf_vertexOffset_inj hwf pr hj hlt this]
  constructor
  · have hmem := kept_mem_walkKinds (clippedAt gdp org nml pr) (gdp.getPrimitiveVertexCount pr)
      (gdp.getPrimitiveVertexCount pr) j hj hc
    obtain ⟨idx, hidx, he⟩ := List.getElem_of_mem hmem
    have hidx' : idx < (walk gdp org nml pr).vert0s.length := by rw [hN]; exact hidx
    refine ⟨idx, hidx', ?_⟩
    apply (walk_entry_of_kind gdp org nml pr idx hidx').1 j
    rw [List.getD_eq_getElem _ _ hidx]
    exact he
  · intro idx idx' hidx hidx' h1 h0 h1' h0'
    have e := hkind idx hidx h1 h0
    have e' := hkind idx' hidx' h1' h0'
    rw [hN] at hidx hidx'
    rw [List.getD_eq_getElem _ _ hidx] at e
    rw [List.getD_eq_getElem _ _ hidx'] at e'
    exact (List.Nodup.getElem_inj_iff (walkKinds_nodup _ _ _)).1 (e.trans e'.symm)

/-- C17: for a well-formed detail and a polygon `pr` the scan found partially
clipped: every entry of the walk of `pr` is read for exactly one vertex of exactly
one new polygon; the vertex counts of the new polygons sum to the number of entries,
which is the number of vertices of `pr` that are not clipped plus the number of its
crossed edges; every vertex of `pr` that is not clipped is the vertex of the kept
entry of exactly one vertex of exactly one new polygon; in the cook output the new
polygons of `pr` are closed polygons of pairwise distinct vertices whose vertex for
a kept entry is wired to the point the vertex of the entry is wired to in the input,
a point of the input the cook leaves as it is; and the kept entries of a new polygon,
from its second vertex to the one before the last, are consecutive vertices of `pr`
in its cyclic order. -/
theorem C17_kept_vertices_partitioned (gdp : GU_Detail) (org nml : UT_Vector3)
    (group : Option (List Nat)) (hwf : gdp.wellFormed = true) (l1 l2 : List Nat) (pr : Nat)
    (hdec : (scan gdp org nml group).clipped_polys = l1 ++ pr :: l2) :
    (∀ idx < (walk gdp org nml pr).vert0s.length,
      ∃! iv : Nat × Nat, iv.1 < (walk gdp org nml pr).poly_start_pos.length ∧
        iv.2 < newPolyVertexCount (walk gdp org nml pr) iv.1 ∧
        loopEntry (walk gdp org nml pr) iv.1 iv.2 = idx) ∧
    ((List.range (walk gdp org nml pr).poly_start_pos.length).map
      (newPolyVertexCount (walk gdp org nml pr))).sum = (walk gdp org nml pr).vert0s.length ∧
    (walk gdp org nml pr).vert0s.length =
      (gdp.getPrimitiveVertexCount pr - countClipped gdp org nml pr) +
        (crossedEdges gdp org nml pr).length ∧
    (∀ j < gdp.getPrimitiveVertexCount pr, isClipped gdp org nml (primPoint gdp pr j) = false →
      ∃! iv : Nat × Nat, iv.1 < (walk gdp org nml pr).poly_start_pos.length ∧
        iv.2 < newPolyVertexCount (walk gdp org nml pr) iv.1 ∧
        (walk gdp org nml pr).vert1s.getD (loopEntry (walk gdp org nml pr) iv.1 iv.2) none =
          none ∧
        (walk gdp org nml pr).vert0s.getD (loopEntry (walk gdp org nml pr) iv.1 iv.2) 0 =
          gdp.getPrimitiveVertexOffset pr j) ∧
    (∀ i < (walk gdp org nml pr).poly_start_pos.length,
      ∃ vs, (cookWithGroup gdp org nml group).primitives.getD
          ((rebuild gdp org nml l1).gdp.primitives.length + i) none =
            some ⟨GA_PRIMPOLY, true, vs⟩ ∧
        vs.length = newPolyVertexCount (walk gdp org nml pr) i ∧ vs.Nodup ∧
        ∀ v < newPolyVertexCount (walk gdp org nml pr) i,
          (walk gdp org nml pr).vert1s.getD (loopEntry (walk gdp org nml pr) i v) none = none →
          (cookWithGroup gdp org nml group).vertices.getD (vs.getD v 0) none =
            some (gdp.vertexPoint
              ((walk gdp org nml pr).vert0s.getD (loopEntry (walk gdp org nml pr) i v) 0)) ∧
          gdp.vertexPoint
              ((walk gdp org nml pr).vert0s.getD (loopEntry (walk gdp org nml pr) i v) 0) <
            gdp.points.length ∧
          (cookWithGroup gdp org nml group).points.getD (gdp.vertexPoint
              ((walk gdp org nml pr).vert0s.getD (loopEntry (walk gdp org nml pr) i v) 0)) none =
            gdp.points.getD (gdp.vertexPoint
              ((walk gdp org nml pr).vert0s.getD (loopEntry (walk gdp org nml pr) i v) 0))
                none) ∧
    (∀ i < (walk gdp org nml pr).poly_start_pos.length,
      ∃ j0, ∀ v, 0 < v → v + 1 < newPolyVertexCount (walk gdp org nml pr) i →
        (walk gdp org nml pr).vert1s.getD (loopEntry (walk gdp org nml pr) i v) none = none ∧
        (walk gdp org nml pr).vert0s.getD (loopEntry (walk gdp org nml pr) i v) 0 =
          gdp.getPrimitiveVertexOffset pr ((j0 + v) % gdp.getPrimitiveVertexCount pr)) := by
  have hl := partialPolys_scan gdp org nml group
  have hl' : PartialPolys gdp org nml (l1 ++ pr :: l2) := by rw [← hdec]; exact hl
  have hl1 : PartialPolys gdp org nml l1 := fun q hq => hl' q (List.mem_append_left _ hq)
  obtain ⟨hprl, hc0, hcn⟩ := hl' pr (List.mem_append_right _ (List.mem_cons_self _ _))
  obtain ⟨hinv1, _, _, _⟩ := rebuild_inv hwf l1 hl1
  obtain ⟨hinv, _, _, _⟩ := rebuild_inv hwf _ hl
  have hS := walk_starts_eq gdp org nml pr
  have hpw : (walk gdp org nml pr).poly_start_pos.Pairwise (· < ·) := by
    rw [hS]; exact walkStarts_pairwise gdp org nml pr _ _
  have hlt : ∀ s ∈ (walk gdp org nml pr).poly_start_pos,
      s < (walk gdp org nml pr).vert0s.length := by
    intro s hs
    rw [walk_vert0s_length, walkKinds_length]
    rw [hS] at hs
    exact walkStarts_lt gdp org nml pr _ _ s hs
  have hne : (walk gdp org nml pr).poly_start_pos ≠ [] := by
    obtain ⟨i0, hi0, hup⟩ := exists_upCrossing gdp org nml pr hc0 hcn
    rw [hS]
    exact walkStarts_ne_nil gdp org nml pr _ _ i0 hi0 hup
  have huniq : ∀ iv iv' : Nat × Nat,
      iv.1 < (walk gdp org nml pr).poly_start_pos.length →
      iv.2 < newPolyVertexCount (walk gdp org nml pr) iv.1 →
      iv'.1 < (walk gdp org nml pr).poly_start_pos.length →
      iv'.2 < newPolyVertexCount (walk gdp org nml pr) iv'.1 →
      loopEntry (walk gdp org nml pr) iv.1 iv.2 = loopEntry (walk gdp org nml pr) iv'.1 iv'.2 →
      iv = iv' := by
    intro iv iv' a1 a2 b1 b2 he
    obtain ⟨e1, e2⟩ := loop_unique _ _ hpw hlt iv.1 iv'.1 a1 b1 iv.2 iv'.2 a2 b2 he
    exact Prod.ext e1 e2
  have hcov : ∀ idx < (walk gdp org nml pr).vert0s.length,
      ∃ iv : Nat × Nat, iv.1 < (walk gdp org nml pr).poly_start_pos.length ∧
        iv.2 < newPolyVertexCount (walk gdp org nml pr) iv.1 ∧
        loopEntry (walk gdp org nml pr) iv.1 iv.2 = idx := by
    intro idx hidx
    obtain ⟨i, hi, v, hv, he⟩ := loop_coverage _ _ hne hpw hlt idx hidx
    exact ⟨(i, v), hi, hv, he⟩
  have hNpos : 0 < (walk gdp org nml pr).vert0s.length := by
    have hk : 0 < (walk gdp org nml pr).poly_start_pos.length := List.length_pos.mpr hne
    exact walk_length_pos gdp org nml pr 0 hk
  have hout : cookWithGroup gdp org nml group =
      (rebuild gdp org nml (scan gdp org nml group).clipped_polys).gdp.destroyPrimitiveOffsets
        (scan gdp org nml group).rm_polys := rfl
  refine ⟨?_, ?_, ?_, ?_, ?_, ?_⟩
  · intro idx hidx
    obtain ⟨iv, a1, a2, a3⟩ := hcov idx hidx
    exact ⟨iv, ⟨a1, a2, a3⟩,
      fun iv' ⟨b1, b2, b3⟩ => huniq iv' iv b1 b2 a1 a2 (b3.trans a3.symm)⟩
  · exact loop_sum _ _ hne hpw hlt
  · have h := walk_length_eq gdp org nml pr
    have hle : countClipped gdp org nml pr ≤ gdp.getPrimitiveVertexCount pr := by
      unfold countClipped
      exact le_trans (List.countP_le_length _) (le_of_eq (List.length_range _))
    omega
  · intro j hj hc
    obtain ⟨⟨idx, hidx, k1, k0⟩, hun⟩ := walk_kept_unique hwf org nml pr j hj hc
    obtain ⟨iv, a1, a2, a3⟩ := hcov idx hidx
    refine ⟨iv, ⟨a1, a2, by rw [a3]; exact k1, by rw [a3]; exact k0⟩, ?_⟩
    intro iv' ⟨b1, b2, b3, b4⟩
    apply huniq iv' iv b1 b2 a1 a2
    rw [a3]
    exact hun _ _ (Nat.mod_lt _ hNpos) hidx b3 b4 k1 k0
  · intro i hi
    have hloop := rebuild_loops hwf l1 l2 pr hl' i hi
    rw [← hdec] at hloop
    obtain ⟨vs, e1, e2, e3, e4⟩ := hloop
    refine ⟨vs, ?_, e2, e3, ?_⟩
    · have hq : gdp.primitives.length ≤ (rebuild gdp org nml l1).gdp.primitives.length + i :=
        le_trans hinv1.prims_ext.length_le (Nat.le_add_right _ _)
      have hqrm : (rebuild gdp org nml l1).gdp.primitives.length + i ∉
          (scan gdp org nml group).rm_polys :=
        fun h => absurd (lt_of_mem_rm_polys h) (not_lt.mpr hq)
      rw [hout, destroy_primitives_getD, if_neg hqrm]
      exact e1
    · intro v hv hk
      obtain ⟨hnew, p, hp, hpe⟩ := e4 v hv
      have hpe' := hpe hk
      subst hpe'
      have hvd : vs.getD v 0 ∉
          (rebuild gdp org nml (scan gdp org nml group).clipped_polys).gdp.deadVertices
            (scan gdp org nml group).rm_polys :=
        fun h => absurd (cook_dead_lt hwf hinv.prims_ext h) (not_lt.mpr hnew)
      obtain ⟨_, d2, _⟩ := destroy_surviving_vertex _ _ org nml hvd hp
      have hplt : gdp.vertexPoint ((walk gdp org nml pr).vert0s.getD
          (loopEntry (walk gdp org nml pr) i v) 0) < gdp.points.length :=
        wf_vertexPoint_lt hwf (walk_vert0s_mem gdp org nml pr _ (Nat.mod_lt _ hNpos))
      refine ⟨?_, hplt, ?_⟩
      · rw [hout, destroy_vertices_getD, if_neg hvd]
        exact hp
      · rw [hout]
        exact d2.trans (getD_of_isPrefix hinv.points_ext hplt none)
  · intro i hi
    obtain ⟨_, _, ⟨j0, hk⟩, _⟩ := walk_loop_shape gdp org nml pr i hi
    exact ⟨j0, hk⟩

/-- Witness of C17 on the unit square and the plane `x = 1/2`. -/
theorem C17_kept_vertices_partitioned_witness :
    (∀ idx < (walk unitSquare ⟨1/2, 0, 0⟩ ⟨1, 0, 0⟩ 0).vert0s.length,
      ∃! iv : Nat × Nat, iv.1 < (walk unitSquare ⟨1/2, 0, 0⟩ ⟨1, 0, 0⟩ 0).poly_start_pos.length ∧
        iv.2 < newPolyVertexCount (walk unitSquare ⟨1/2, 0, 0⟩ ⟨1, 0, 0⟩ 0) iv.1 ∧
        loopEntry (walk unitSquare ⟨1/2, 0, 0⟩ ⟨1, 0, 0⟩ 0) iv.1 iv.2 = idx) ∧
    ((List.range (walk unitSquare ⟨1/2, 0, 0⟩ ⟨1, 0, 0⟩ 0).poly_start_pos.length).map
      (newPolyVertexCount (walk unitSquare ⟨1/2, 0, 0⟩ ⟨1, 0, 0⟩ 0))).sum = (walk unitSquare
          ⟨1/2, 0, 0⟩ ⟨1, 0, 0⟩ 0).vert0s.length ∧
    (walk unitSquare ⟨1/2, 0, 0⟩ ⟨1, 0, 0⟩ 0).vert0s.length =
      (unitSquare.getPrimitiveVertexCount 0 - countClipped unitSquare ⟨1/2, 0, 0⟩ ⟨1, 0, 0⟩ 0) +
        (crossedEdges unitSquare ⟨1/2, 0, 0⟩ ⟨1, 0, 0⟩ 0).length ∧
    (∀ j < unitSquare.getPrimitiveVertexCount 0, isClipped unitSquare ⟨1/2, 0, 0⟩ ⟨1, 0, 0⟩
        (primPoint unitSquare 0 j) = false →
      ∃! iv : Nat × Nat, iv.1 < (walk unitSquare ⟨1/2, 0, 0⟩ ⟨1, 0, 0⟩ 0).poly_start_pos.length ∧
        iv.2 < newPolyVertexCount (walk unitSquare ⟨1/2, 0, 0⟩ ⟨1, 0, 0⟩ 0) iv.1 ∧
        (walk unitSquare ⟨1/2, 0, 0⟩ ⟨1, 0, 0⟩ 0).vert1s.getD (loopEntry (walk unitSquare
            ⟨1/2, 0, 0⟩ ⟨1, 0, 0⟩ 0) iv.1 iv.2) none =
          none ∧
        (walk unitSquare ⟨1/2, 0, 0⟩ ⟨1, 0, 0⟩ 0).vert0s.getD (loopEntry (walk unitSquare
            ⟨1/2, 0, 0⟩ ⟨1, 0, 0⟩ 0) iv.1 iv.2) 0 =
          unitSquare.getPrimitiveVertexOffset 0 j) ∧
    (∀ i < (walk unitSquare ⟨1/2, 0, 0⟩ ⟨1, 0, 0⟩ 0).poly_start_pos.length,
      ∃ vs, (cookWithGroup unitSquare ⟨1/2, 0, 0⟩ ⟨1, 0, 0⟩ none).primitives.getD
          ((rebuild unitSquare ⟨1/2, 0, 0⟩ ⟨1, 0, 0⟩ []).gdp.primitives.length + i) none =
            some ⟨GA_PRIMPOLY, true, vs⟩ ∧
        vs.length = newPolyVertexCount (walk unitSquare ⟨1/2, 0, 0⟩ ⟨1, 0, 0⟩ 0) i ∧ vs.Nodup ∧
        ∀ v < newPolyVertexCount (walk unitSquare ⟨1/2, 0, 0⟩ ⟨1, 0, 0⟩ 0) i,
          (walk unitSquare ⟨1/2, 0, 0⟩ ⟨1, 0, 0⟩ 0).vert1s.getD (loopEntry (walk unitSquare
              ⟨1/2, 0, 0⟩ ⟨1, 0, 0⟩ 0) i v) none = none →
          (cookWithGroup unitSquare ⟨1/2, 0, 0⟩ ⟨1, 0, 0⟩ none).vertices.getD (vs.getD v 0) none =
            some (unitSquare.vertexPoint
              ((walk unitSquare ⟨1/2, 0, 0⟩ ⟨1, 0, 0⟩ 0).vert0s.getD (loopEntry (walk unitSquare
                  ⟨1/2, 0, 0⟩ ⟨1, 0, 0⟩ 0) i v) 0)) ∧
          unitSquare.vertexPoint
              ((walk unitSquare ⟨1/2, 0, 0⟩ ⟨1, 0, 0⟩ 0).vert0s.getD (loopEntry (walk unitSquare
                  ⟨1/2, 0, 0⟩ ⟨1, 0, 0⟩ 0) i v) 0) <
            unitSquare.points.length ∧
          (cookWithGroup unitSquare ⟨1/2, 0, 0⟩ ⟨1, 0, 0⟩ none).points.getD (unitSquare.vertexPoint
              ((walk unitSquare ⟨1/2, 0, 0⟩ ⟨1, 0, 0⟩ 0).vert0s.getD (loopEntry (walk unitSquare
                  ⟨1/2, 0, 0⟩ ⟨1, 0, 0⟩ 0) i v) 0)) none =
            unitSquare.points.getD (unitSquare.vertexPoint
              ((walk unitSquare ⟨1/2, 0, 0⟩ ⟨1, 0, 0⟩ 0).vert0s.getD (loopEntry (walk unitSquare
                  ⟨1/2, 0, 0⟩ ⟨1, 0, 0⟩ 0) i v) 0))
                none) ∧
    (∀ i < (walk unitSquare ⟨1/2, 0, 0⟩ ⟨1, 0, 0⟩ 0).poly_start_pos.length,
      ∃ j0, ∀ v, 0 < v → v + 1 < newPolyVertexCount (walk unitSquare ⟨1/2, 0, 0⟩ ⟨1, 0, 0⟩ 0) i →
        (walk unitSquare ⟨1/2, 0, 0⟩ ⟨1, 0, 0⟩ 0).vert1s.getD (loopEntry (walk unitSquare
            ⟨1/2, 0, 0⟩ ⟨1, 0, 0⟩ 0) i v) none = none ∧
        (walk unitSquare ⟨1/2, 0, 0⟩ ⟨1, 0, 0⟩ 0).vert0s.getD (loopEntry (walk unitSquare
            ⟨1/2, 0, 0⟩ ⟨1, 0, 0⟩ 0) i v) 0 =
          unitSquare.getPrimitiveVertexOffset 0
            ((j0 + v) % unitSquare.getPrimitiveVertexCount 0)) :=
  C17_kept_vertices_partitioned unitSquare ⟨1/2, 0, 0⟩ ⟨1, 0, 0⟩ none (by decide) [] [] 0
    (by decide!)

/-! ## Binary32 arithmetic -/

/-- Values of the rounding functions at some arguments: `0.1f`, a tie of binary32,
the largest finite `float` and the first number that rounds to an infinity, the
smallest subnormal `float`, and `0.1` as a `double`. -/
theorem round32_values :
    round32 (1 / 10) = FloatValue.finite (13421773 / 134217728) ∧
    round32 33554434 = FloatValue.finite 33554432 ∧
    round32 33554438 = FloatValue.finite 33554440 ∧
    round32 (pow2 128 - pow2 103 - 1) = FloatValue.finite (pow2 128 - pow2 104) ∧
    round32 (pow2 128 - pow2 103) = FloatValue.infinite false ∧
    round32 (pow2 (-149)) = FloatValue.finite (pow2 (-149)) ∧
    round32 (pow2 (-150)) = FloatValue.finite 0 ∧
    round64 (1 / 10) = FloatValue.finite (3602879701896397 / 36028797018963968) := by
  decide!

theorem fpreal64_zero_val : (0 : fpreal64).val = FloatValue.finite 0 := by decide!

theorem fpreal64_one_val : (1 : fpreal64).val = FloatValue.finite 1 := by decide!

/-- `SYSclamp(v, 0, 1)` on `fpreal`: a NaN stays a NaN, every other value is brought
into `[0, 1]`. -/
theorem SYSclamp_binary64 (v : fpreal64) :
    ((IEEE.SYSclamp v 0 1).val = FloatValue.nan ↔ v.val = FloatValue.nan) ∧
    (v.val ≠ FloatValue.nan → (0 : fpreal64) ≤ IEEE.SYSclamp v 0 1 ∧ IEEE.SYSclamp v 0 1 ≤ 1) := by
  obtain ⟨x⟩ := v
  have h0 := fpreal64_zero_val
  have h1 := fpreal64_one_val
  unfold IEEE.SYSclamp
  show ((if FloatValue.lt x (0 : fpreal64).val = true then (0 : fpreal64)
      else if FloatValue.lt (1 : fpreal64).val x = true then 1 else ⟨x⟩).val = FloatValue.nan ↔
        x = FloatValue.nan) ∧
    (x ≠ FloatValue.nan →
      FloatValue.le (0 : fpreal64).val
        (if FloatValue.lt x (0 : fpreal64).val = true then (0 : fpreal64)
          else if FloatValue.lt (1 : fpreal64).val x = true then 1 else ⟨x⟩).val = true ∧
      FloatValue.le
        (if FloatValue.lt x (0 : fpreal64).val = true then (0 : fpreal64)
          else if FloatValue.lt (1 : fpreal64).val x = true then 1 else ⟨x⟩).val
        (1 : fpreal64).val = true)
  cases x with
  | finite q =>
    rw [h0, h1]
    simp only [FloatValue.lt, decide_eq_true_eq]
    refine ⟨?_, fun _ => ?_⟩
    · split_ifs <;> simp [h0, h1]
    · split_ifs with a b
      · rw [h0]; simp [FloatValue.le]
      · rw [h1]; simp [FloatValue.le]
      · simp only [FloatValue.le, decide_eq_true_eq]
        exact ⟨not_lt.mp a, not_lt.mp b⟩
  | infinite s =>
    rw [h0, h1]
    cases s <;> simp [FloatValue.lt, FloatValue.le, h0, h1]
  | nan =>
    rw [h0, h1]
    simp [FloatValue.lt]

/-- The primitives of the input that the second clip takes as candidates when it is
given the group of the first clip are candidates of the first clip. -/
theorem cook_same_group (gdp : GU_Detail) (org nml : UT_Vector3) (group : Option (List Nat)) :
    ∀ pr < gdp.primitives.length,
      pr ∈ (cookWithGroup gdp org nml group).getPrimitiveRange group →
        pr ∈ gdp.getPrimitiveRange group := by
  intro pr hpr h
  rw [mem_getPrimitiveRange] at h ⊢
  refine ⟨?_, h.2⟩
  obtain ⟨P, hP⟩ := h.1
  have hout : cookWithGroup gdp org nml group =
      (rebuild gdp org nml (scan gdp org nml group).clipped_polys).gdp.destroyPrimitiveOffsets
        (scan gdp org nml group).rm_polys := rfl
  rw [hout, destroy_primitives_getD] at hP
  split_ifs at hP
  have hext : StExt ⟨gdp, []⟩ (rebuild gdp org nml (scan gdp org nml group).clipped_polys) :=
    foldl_rebuildPoly_ext org nml _ _
  rw [getD_of_isPrefix hext.primitives hpr] at hP
  exact ⟨P, hP⟩

/-- Counterexample to C6 as stated: in binary32 arithmetic the clip of
`crossingTriangle` by the plane `x = -0.85301816` puts the point of the cut of the
edge from `(-3,0,0)` to `(7,0,0)` at `x = -1788909/2097152`, which is less than
`-7155635/8388608`, the `float` nearest to `-0.85301816`: the point is clipped, the
scan of the result of the clip puts the new polygon in both groups, and the second
clip with the same plane changes the result of the first. -/
theorem C6_counterexample :
    IEEE.crossingOrigin = ⟨⟨FloatValue.finite (-7155635 / 8388608)⟩, ⟨FloatValue.finite 0⟩,
      ⟨FloatValue.finite 0⟩⟩ ∧
    (IEEE.cookWithGroup IEEE.crossingTriangle IEEE.crossingOrigin ⟨1, 0, 0⟩ none).points.getD
        3 none =
      some ⟨⟨FloatValue.finite (-1788909 / 2097152)⟩, ⟨FloatValue.finite 0⟩,
        ⟨FloatValue.finite 0⟩⟩ ∧
    IEEE.isClipped (IEEE.cookWithGroup IEEE.crossingTriangle IEEE.crossingOrigin ⟨1, 0, 0⟩ none)
      IEEE.crossingOrigin ⟨1, 0, 0⟩ 3 = true ∧
    IEEE.scan (IEEE.cookWithGroup IEEE.crossingTriangle IEEE.crossingOrigin ⟨1, 0, 0⟩ none)
      IEEE.crossingOrigin ⟨1, 0, 0⟩ none = ⟨[1], [1]⟩ ∧
    IEEE.cookWithGroup
        (IEEE.cookWithGroup IEEE.crossingTriangle IEEE.crossingOrigin ⟨1, 0, 0⟩ none)
        IEEE.crossingOrigin ⟨1, 0, 0⟩ none ≠
      IEEE.cookWithGroup IEEE.crossingTriangle IEEE.crossingOrigin ⟨1, 0, 0⟩ none := by
  decide!

/-- C6 (amended): when no vertex of a candidate closed polygon is wired to a clipped
point (a point on the plane is not clipped), the scan fills neither group and the
cook returns the detail as it is; and, in exact arithmetic, the output of the cook
of a well-formed detail is such a detail for every group that adds no primitive of
the input, the group of the first clip among them, so that clipping it again with
the same plane over such a group changes nothing. -/
theorem C6_noop_fully_inside (gdp : GU_Detail) (org nml : UT_Vector3)
    (group : Option (List Nat)) :
    ((∀ pr ∈ gdp.getPrimitiveRange group, isClosedPoly gdp pr = true →
        ∀ v ∈ gdp.primVertices pr, isClipped gdp org nml (gdp.vertexPoint v) = false) →
      scan gdp org nml group = ⟨[], []⟩ ∧ cookWithGroup gdp org nml group = gdp) ∧
    (gdp.wellFormed = true → ∀ group' : Option (List Nat),
      (∀ pr < gdp.primitives.length,
        pr ∈ (cookWithGroup gdp org nml group).getPrimitiveRange group' →
          pr ∈ gdp.getPrimitiveRange group) →
      scan (cookWithGroup gdp org nml group) org nml group' = ⟨[], []⟩ ∧
      cookWithGroup (cookWithGroup gdp org nml group) org nml group' =
        cookWithGroup gdp org nml group) ∧
    (gdp.wellFormed = true →
      scan (cookWithGroup gdp org nml group) org nml group = ⟨[], []⟩ ∧
      cookWithGroup (cookWithGroup gdp org nml group) org nml group =
        cookWithGroup gdp org nml group) :=
  ⟨cook_noop gdp org nml group,
    fun hwf group' hsub =>
      cook_noop _ org nml group' (cook_output_inside gdp org nml group group' hwf hsub),
    fun hwf =>
      cook_noop _ org nml group
        (cook_output_inside gdp org nml group group hwf (cook_same_group gdp org nml group))⟩

/-- Witness of C6: the unit square is left as it is by the plane `x = 0`, on which two
of its points lie, and clipping it twice by the plane `x = 1/2` is clipping it once. -/
theorem C6_noop_fully_inside_witness :
    (scan unitSquare ⟨0, 0, 0⟩ ⟨1, 0, 0⟩ none = ⟨[], []⟩ ∧
      cookWithGroup unitSquare ⟨0, 0, 0⟩ ⟨1, 0, 0⟩ none = unitSquare) ∧
    (scan (cookWithGroup unitSquare ⟨1/2, 0, 0⟩ ⟨1, 0, 0⟩ (some [0])) ⟨1/2, 0, 0⟩ ⟨1, 0, 0⟩ none =
        ⟨[], []⟩ ∧
      cookWithGroup (cookWithGroup unitSquare ⟨1/2, 0, 0⟩ ⟨1, 0, 0⟩ (some [0]))
        ⟨1/2, 0, 0⟩ ⟨1, 0, 0⟩ none =
          cookWithGroup unitSquare ⟨1/2, 0, 0⟩ ⟨1, 0, 0⟩ (some [0])) ∧
    (scan (cookWithGroup unitSquare ⟨1/2, 0, 0⟩ ⟨1, 0, 0⟩ none) ⟨1/2, 0, 0⟩ ⟨1, 0, 0⟩ none =
        ⟨[], []⟩ ∧
      cookWithGroup (cookWithGroup unitSquare ⟨1/2, 0, 0⟩ ⟨1, 0, 0⟩ none)
        ⟨1/2, 0, 0⟩ ⟨1, 0, 0⟩ none = cookWithGroup unitSquare ⟨1/2, 0, 0⟩ ⟨1, 0, 0⟩ none) :=
  ⟨(C6_noop_fully_inside unitSquare ⟨0, 0, 0⟩ ⟨1, 0, 0⟩ none).1 (by decide!),
    (C6_noop_fully_inside unitSquare ⟨1/2, 0, 0⟩ ⟨1, 0, 0⟩ (some [0])).2.1 (by decide) none
      (by decide!),
    (C6_noop_fully_inside unitSquare ⟨1/2, 0, 0⟩ ⟨1, 0, 0⟩ none).2.2 (by decide)⟩

/-- Counterexample to C10 as stated: in binary32 arithmetic the cook of the scenario
maps the position `(1, 2, 33554436)` of the selected point `0` to `(1, 2, 4)`:
`33554436 - 2` rounds to `33554432`, and `33554436 - 33554432` is `4`, not `2`. -/
theorem C10_counterexample :
    IEEE.attrVal IEEE.farAttribs 0 0 =
      ⟨⟨FloatValue.finite 1⟩, ⟨FloatValue.finite 2⟩, ⟨FloatValue.finite 33554436⟩⟩ ∧
    0 ∈ IEEE.positionattribs IEEE.farAttribs ∧
    ((IEEE.xyParms.DIST 0).toFloat = ⟨FloatValue.finite 2⟩ ∧ IEEE.xyParms.DIRPOP 0 = 0 ∧
      IEEE.xyParms.ORIENT 0 = 0) ∧
    (xyContext.lockOk = true ∧ xyContext.groupOk = true ∧ xyContext.myGroup = none ∧
      xyContext.blocks = [(0, 4)] ∧ xyContext.wasInterrupted 0 = false) ∧
    IEEE.attrVal (IEEE.cookMySop IEEE.xyParms id default xyContext IEEE.farAttribs) 0 0 =
      ⟨⟨FloatValue.finite 1⟩, ⟨FloatValue.finite 2⟩, ⟨FloatValue.finite 4⟩⟩ ∧
    IEEE.attrVal (IEEE.cookMySop IEEE.xyParms id default xyContext IEEE.farAttribs) 0 0 ≠
      ⟨1, 2, 2⟩ := by
  decide!

/-- Every point offset appended since `gdp0` is the point of an entry of `cuts`. -/
theorem cut_vals_cover {gdp0 : GU_Detail} {org nml : UT_Vector3} {st : RebuildState}
    (hinv : RebuildInv gdp0 org nml st) {p : Nat} (h1 : gdp0.points.length ≤ p)
    (h2 : p < st.gdp.points.length) : p ∈ st.cuts.map Prod.snd := by
  have hsub : (st.cuts.map Prod.snd).toFinset ⊆
      Finset.Ico gdp0.points.length (gdp0.points.length + st.cuts.length) := by
    intro v hv
    rw [List.mem_toFinset] at hv
    obtain ⟨kv, hkv, rfl⟩ := List.mem_map.1 hv
    rw [Finset.mem_Ico]
    refine ⟨(hinv.cut_ok kv hkv).1, ?_⟩
    rw [← hinv.points_length]
    exact hinv.val_lt hkv
  have hcard : (Finset.Ico gdp0.points.length (gdp0.points.length + st.cuts.length)).card ≤
      (st.cuts.map Prod.snd).toFinset.card := by
    rw [List.toFinset_card_of_nodup hinv.vals_nodup, List.length_map, Nat.card_Ico]
    omega
  have heq := Finset.eq_of_subset_of_card_le hsub hcard
  have hp : p ∈ Finset.Ico gdp0.points.length (gdp0.points.length + st.cuts.length) := by
    rw [Finset.mem_Ico, ← hinv.points_length]
    exact ⟨h1, h2⟩
  rw [← heq, List.mem_toFinset] at hp
  exact hp

/-- C2 (amended): after the cook of a well-formed detail, in exact arithmetic, a point
the cook appended lies on the plane, and every point that is present is on the
non-negative side of the plane, unless it is a point of the input that either is
referenced by no candidate closed polygon of the input or is still referenced by a
vertex of the input that belongs to no candidate closed polygon. -/
theorem C2_conservation_amended (gdp : GU_Detail) (org nml : UT_Vector3)
    (group : Option (List Nat)) (hwf : gdp.wellFormed = true) (p : Nat) (pos : UT_Vector3)
    (hp : (cookWithGroup gdp org nml group).points.getD p none = some pos) :
    (gdp.points.length ≤ p → dot nml (pos - org) = 0) ∧
    (0 ≤ dot nml (pos - org) ∨
      (p < gdp.points.length ∧
        ((∀ pr ∈ gdp.getPrimitiveRange group, isClosedPoly gdp pr = true →
          ∀ v ∈ gdp.primVertices pr, gdp.vertices.getD v none ≠ some p) ∨
        ∃ v, gdp.vertices.getD v none = some p ∧
          (cookWithGroup gdp org nml group).vertices.getD v none = some p ∧
          ∀ pr ∈ gdp.getPrimitiveRange group, isClosedPoly gdp pr = true →
            v ∉ gdp.primVertices pr))) := by
  have hnew : gdp.points.length ≤ p → dot nml (pos - org) = 0 := by
    intro hge
    have hl := partialPolys_scan gdp org nml group
    obtain ⟨hinv, _, _, _⟩ := rebuild_inv hwf _ hl
    have hout : cookWithGroup gdp org nml group =
        (rebuild gdp org nml (scan gdp org nml group).clipped_polys).gdp.destroyPrimitiveOffsets
          (scan gdp org nml group).rm_polys := rfl
    have hp' := hp
    rw [hout, destroy_points_getD] at hp'
    split_ifs at hp'
    have hmem := cut_vals_cover hinv hge (lt_length_of_getD_some hp')
    obtain ⟨kv, hkv, hkp⟩ := List.mem_map.1 hmem
    obtain ⟨_, c2, c3⟩ := hinv.cut_ok kv hkv
    rw [hkp, hp'] at c2
    rw [Option.some.inj c2]
    unfold cutPos clippedDist
    exact dot_lerp_clippedDistPos _ _ _ _ c3
  refine ⟨hnew, ?_⟩
  rcases Nat.lt_or_ge p gdp.points.length with hlt | hge
  · rcases cook_negative_point gdp org nml group hwf p pos hp with h | h
    · exact Or.inl h
    · exact Or.inr ⟨hlt, h⟩
  · exact Or.inl (le_of_eq (hnew hge).symm)

/-- Witness of the amended C2 on `sharedPoint` and its point `0`. -/
theorem C2_conservation_amended_witness :
    sharedPoint.wellFormed = true ∧
    (cookWithGroup sharedPoint ⟨0, 0, 0⟩ ⟨1, 0, 0⟩ none).points.getD 0 none =
      some ⟨-1, 0, 0⟩ ∧
    (sharedPoint.points.length ≤ 0 →
      dot ⟨1, 0, 0⟩ ((⟨-1, 0, 0⟩ : UT_Vector3) - ⟨0, 0, 0⟩) = 0) ∧
    (0 ≤ dot ⟨1, 0, 0⟩ ((⟨-1, 0, 0⟩ : UT_Vector3) - ⟨0, 0, 0⟩) ∨
      (0 < sharedPoint.points.length ∧
        ((∀ pr ∈ sharedPoint.getPrimitiveRange none, isClosedPoly sharedPoint pr = true →
          ∀ v ∈ sharedPoint.primVertices pr, sharedPoint.vertices.getD v none ≠ some 0) ∨
        ∃ v, sharedPoint.vertices.getD v none = some 0 ∧
          (cookWithGroup sharedPoint ⟨0, 0, 0⟩ ⟨1, 0, 0⟩ none).vertices.getD v none = some 0 ∧
          ∀ pr ∈ sharedPoint.getPrimitiveRange none, isClosedPoly sharedPoint pr = true →
            v ∉ sharedPoint.primVertices pr))) :=
  ⟨by decide, by decide!,
    C2_conservation_amended sharedPoint ⟨0, 0, 0⟩ ⟨1, 0, 0⟩ none (by decide) 0 ⟨-1, 0, 0⟩
      (by decide!)⟩

/-- What the cook does to the primitives of the input: a candidate closed polygon
with a clipped vertex is destroyed, every other primitive is kept as it is. -/
theorem cook_primitives_getD (gdp : GU_Detail) (org nml : UT_Vector3)
    (group : Option (List Nat)) (pr : Nat) (hpr : pr < gdp.primitives.length) :
    (cookWithGroup gdp org nml group).primitives.getD pr none =
      if pr ∈ gdp.getPrimitiveRange group ∧ isClosedPoly gdp pr = true ∧
          countClipped gdp org nml pr ≠ 0 then none
      else gdp.primitives.getD pr none := by
  have hout : cookWithGroup gdp org nml group =
      (rebuild gdp org nml (scan gdp org nml group).clipped_polys).gdp.destroyPrimitiveOffsets
        (scan gdp org nml group).rm_polys := rfl
  have hext : StExt ⟨gdp, []⟩ (rebuild gdp org nml (scan gdp org nml group).clipped_polys) :=
    foldl_rebuildPoly_ext org nml _ _
  rw [hout, destroy_primitives_getD, getD_of_isPrefix hext.primitives hpr]
  simp only [mem_rm_polys]

/-- C9 (amended): when the parser yields no group for the group parameter, the cook
does not leave the detail as it is: it runs as it does with an empty group
parameter, every primitive of the detail being a candidate, so that every closed
polygon with a clipped vertex is destroyed, whatever the group parameter names, and
every other primitive is kept. -/
theorem C9_unparsed_group_is_no_group
    (parsePrimitiveGroups : String → GU_Detail → Option (List Nat)) (groupParm : String)
    (org nml : UT_Vector3) (gdp : GU_Detail)
    (h : parsePrimitiveGroups groupParm gdp = none) :
    cook parsePrimitiveGroups groupParm org nml gdp = cook parsePrimitiveGroups "" org nml gdp ∧
    cook parsePrimitiveGroups groupParm org nml gdp = cookWithGroup gdp org nml none ∧
    (∀ pr, pr ∈ gdp.getPrimitiveRange (cookGroup parsePrimitiveGroups groupParm gdp) ↔
      ∃ P, gdp.primitives.getD pr none = some P) ∧
    (∀ pr, pr ∈ (scan gdp org nml (cookGroup parsePrimitiveGroups groupParm gdp)).rm_polys ↔
      isClosedPoly gdp pr = true ∧ countClipped gdp org nml pr ≠ 0) ∧
    (∀ pr, isClosedPoly gdp pr = true → countClipped gdp org nml pr ≠ 0 →
      (cook parsePrimitiveGroups groupParm org nml gdp).primitives.getD pr none = none) ∧
    (∀ pr < gdp.primitives.length,
      isClosedPoly gdp pr = false ∨ countClipped gdp org nml pr = 0 →
      (cook parsePrimitiveGroups groupParm org nml gdp).primitives.getD pr none =
        gdp.primitives.getD pr none) := by
  have h1 : cookGroup parsePrimitiveGroups groupParm gdp = none := by
    unfold cookGroup
    split_ifs
    · exact h
    · rfl
  have h2 : cookGroup parsePrimitiveGroups "" gdp = none := by
    unfold cookGroup
    simp
  have hcook : cook parsePrimitiveGroups groupParm org nml gdp = cookWithGroup gdp org nml none := by
    unfold cook
    rw [h1]
  have hrange : ∀ pr, pr ∈ gdp.getPrimitiveRange none ↔
      ∃ P, gdp.primitives.getD pr none = some P := by
    intro pr
    rw [mem_getPrimitiveRange]
    exact ⟨fun a => a.1, fun a => ⟨a, fun g hg => by cases hg⟩⟩
  have hclosed : ∀ pr, isClosedPoly gdp pr = true → ∃ P, gdp.primitives.getD pr none = some P := by
    intro pr hcl
    unfold isClosedPoly GU_Detail.getPrimitiveClosedFlag at hcl
    cases hP : gdp.primitives.getD pr none with
    | none => rw [hP] at hcl; simp at hcl
    | some P => exact ⟨P, rfl⟩
  refine ⟨?_, hcook, ?_, ?_, ?_, ?_⟩
  · unfold cook
    rw [h1, h2]
  · rw [h1]; exact hrange
  · intro pr
    rw [h1, mem_rm_polys, hrange]
    exact ⟨fun a => a.2, fun a => ⟨hclosed pr a.1, a⟩⟩
  · intro pr hcl hc
    obtain ⟨P, hP⟩ := hclosed pr hcl
    rw [hcook, cook_primitives_getD gdp org nml none pr (lt_length_of_getD_some hP),
      if_pos ⟨(hrange pr).2 ⟨P, hP⟩, hcl, hc⟩]
  · intro pr hpr hor
    rw [hcook, cook_primitives_getD gdp org nml none pr hpr, if_neg]
    rintro ⟨_, a, b⟩
    rcases hor with hor | hor
    · rw [a] at hor; cases hor
    · exact b hor

/-- Witness of the amended C9 on `outsideTriangle` and a parser that yields no group. -/
theorem C9_unparsed_group_is_no_group_witness :
    (cook (fun _ _ => none) "missing" ⟨0, 0, 0⟩ ⟨1, 0, 0⟩ outsideTriangle =
        cook (fun _ _ => none) "" ⟨0, 0, 0⟩ ⟨1, 0, 0⟩ outsideTriangle ∧
      cook (fun _ _ => none) "missing" ⟨0, 0, 0⟩ ⟨1, 0, 0⟩ outsideTriangle =
        cookWithGroup outsideTriangle ⟨0, 0, 0⟩ ⟨1, 0, 0⟩ none) ∧
    (cook (fun _ _ => none) "missing" ⟨0, 0, 0⟩ ⟨1, 0, 0⟩ outsideTriangle).primitives.getD
      0 none = none :=
  ⟨⟨(C9_unparsed_group_is_no_group (fun _ _ => none) "missing" ⟨0, 0, 0⟩ ⟨1, 0, 0⟩
      outsideTriangle rfl).1,
    (C9_unparsed_group_is_no_group (fun _ _ => none) "missing" ⟨0, 0, 0⟩ ⟨1, 0, 0⟩
      outsideTriangle rfl).2.1⟩,
    (C9_unparsed_group_is_no_group (fun _ _ => none) "missing" ⟨0, 0, 0⟩ ⟨1, 0, 0⟩
      outsideTriangle rfl).2.2.2.2.1 0 (by decide) (by decide!)⟩

/-- The cut of the edge of `crossingTriangle` from `(-3,0,0)` to `(7,0,0)` lands on
the negative side of the plane also when `lerpAttributeValues` interpolates as
`(1 - t) * p0 + t * p1` in `float`, or as `p0 + (p1 - p0) * t` with the product and
the sum in `double`, rounded to `float` at the end. -/
theorem crossing_cut_forms :
    (IEEE.clippedDistPos IEEE.crossingOrigin ⟨1, 0, 0⟩ ⟨-3, 0, 0⟩ ⟨7, 0, 0⟩).toFloat =
      ⟨FloatValue.finite (7204075 / 33554432)⟩ ∧
    (IEEE.lerp ⟨-3, 0, 0⟩ ⟨7, 0, 0⟩ ⟨FloatValue.finite (7204075 / 33554432)⟩).x <
      IEEE.crossingOrigin.x ∧
    ((1 - (⟨FloatValue.finite (7204075 / 33554432)⟩ : fpreal32)) * (-3) +
      (⟨FloatValue.finite (7204075 / 33554432)⟩ : fpreal32) * 7 : fpreal32) <
      IEEE.crossingOrigin.x ∧
    ((-3 : fpreal32).toDouble + ((7 : fpreal32) - (-3)).toDouble *
      (⟨FloatValue.finite (7204075 / 33554432)⟩ : fpreal32).toDouble).toFloat <
      IEEE.crossingOrigin.x := by
  decide!

end HDK_Sample
